import Mathlib

/-!
# swnet: framing protocol, binary cursor codec and session lifecycle

A shallow embedding of the Go sources of `eahydra/swnet`:

* `example/protocol/stream.go`: the two byte-order cursors;
* `example/protocol/protocol_define.go`, `body_readwriter.go`: the example packets;
* `example/protocol/protocol.go`: the length-prefixed framing protocol;
* `session.go`: the session lifecycle and its outbound queue.

Go values are modelled as follows.  A `byte` is a `Fin 256`; `uint16`, `uint32`
and `uint64` are natural numbers (a conversion `byte(v)` or `uint32(v)` is an
explicit remainder); `int` is `Int`.  A method with a pointer receiver returns
its result together with the receiver after the call.  A run-time panic of Go
(index out of range, slice bounds out of range, `make` with a negative length)
is the outcome `Result.panic`.
-/

namespace Swnet

/-! ## Basic values -/

/-- Go `byte`. -/
abbrev Byte := Fin 256

/-- Go conversion `byte(v)` of an unsigned integer: the low eight bits. -/
def byte (v : Nat) : Byte := ⟨v % 256, Nat.mod_lt v (by decide)⟩

/-- The error values of the two packages (`errors.New` / `fmt.Errorf` variables),
together with the two errors of package `io` that a read at the end of the
input reports and the error of a failed write on the connection. -/
inductive Err where
  | ErrBuffOverflow
  | ErrUnknownPacket
  | ErrUnknwonPacketHeader
  | ErrBodyTooBig
  | ErrStoped
  | ErrSendChanBlocking
  | EOF
  | ErrUnexpectedEOF
  | ErrConnWrite
  deriving DecidableEq, Repr

/-- Outcome of a Go call: a value with a `nil` error, a non-`nil` error, or a
run-time panic. -/
inductive Result (α : Type) where
  | ok (a : α)
  | error (e : Err)
  | panic
  deriving DecidableEq, Repr

/-- Go builtin `copy(dst, src)`: the contents of `dst` afterwards.  It copies
`min(len(dst), len(src))` elements and never changes the length of `dst`. -/
def copy (dst src : List Byte) : List Byte :=
  src.take dst.length ++ dst.drop src.length

/-- Go slice expression `buff[pos:]` on a slice whose length is its capacity:
`none` is the panic "slice bounds out of range". -/
def sliceFrom (buff : List Byte) (pos : Int) : Option (List Byte) :=
  if 0 ≤ pos ∧ pos ≤ buff.length then some (buff.drop pos.toNat) else none

/-- Go slice expression `buff[lo:hi]` on a slice whose length is its capacity. -/
def sliceRange (buff : List Byte) (lo hi : Int) : Option (List Byte) :=
  if 0 ≤ lo ∧ lo ≤ hi ∧ hi ≤ buff.length then
    some ((buff.drop lo.toNat).take (hi.toNat - lo.toNat))
  else none

/-- Go index expression `buff[pos]`: `none` is the panic "index out of range". -/
def index (buff : List Byte) (pos : Int) : Option Byte :=
  if 0 ≤ pos then buff.get? pos.toNat else none

/-- Contents of `buff` after the elements of the sub-slice `buff[pos:]` have
become `tail` (a sub-slice shares its backing array with `buff`). -/
def storeFrom (buff : List Byte) (pos : Int) (tail : List Byte) : List Byte :=
  buff.take pos.toNat ++ tail

/-! ## Package `encoding/binary` (Go standard library)

`Uint16`, `Uint32`, `Uint64` read the first 2, 4, 8 bytes of a slice and
`PutUint16`, `PutUint32`, `PutUint64` overwrite them; each panics (`none`) on a
shorter slice.  Shifts and ors of the library code are written as products and
sums of the disjoint byte fields. -/

namespace BigEndian

def Uint16 : List Byte → Option Nat
  | b0 :: b1 :: _ => some (b0.val * 256 + b1.val)
  | _ => none

def Uint32 : List Byte → Option Nat
  | b0 :: b1 :: b2 :: b3 :: _ =>
    some (b0.val * 16777216 + b1.val * 65536 + b2.val * 256 + b3.val)
  | _ => none

def Uint64 : List Byte → Option Nat
  | b0 :: b1 :: b2 :: b3 :: b4 :: b5 :: b6 :: b7 :: _ =>
    some (b0.val * 72057594037927936 + b1.val * 281474976710656 + b2.val * 1099511627776
      + b3.val * 4294967296 + b4.val * 16777216 + b5.val * 65536 + b6.val * 256 + b7.val)
  | _ => none

def PutUint16 (b : List Byte) (v : Nat) : Option (List Byte) :=
  if b.length < 2 then none
  else some (byte (v / 256) :: byte v :: b.drop 2)

def PutUint32 (b : List Byte) (v : Nat) : Option (List Byte) :=
  if b.length < 4 then none
  else some (byte (v / 16777216) :: byte (v / 65536) :: byte (v / 256) :: byte v :: b.drop 4)

def PutUint64 (b : List Byte) (v : Nat) : Option (List Byte) :=
  if b.length < 8 then none
  else some (byte (v / 72057594037927936) :: byte (v / 281474976710656)
    :: byte (v / 1099511627776) :: byte (v / 4294967296) :: byte (v / 16777216)
    :: byte (v / 65536) :: byte (v / 256) :: byte v :: b.drop 8)

end BigEndian

namespace LittleEndian

def Uint16 : List Byte → Option Nat
  | b0 :: b1 :: _ => some (b0.val + b1.val * 256)
  | _ => none

def Uint32 : List Byte → Option Nat
  | b0 :: b1 :: b2 :: b3 :: _ =>
    some (b0.val + b1.val * 256 + b2.val * 65536 + b3.val * 16777216)
  | _ => none

def Uint64 : List Byte → Option Nat
  | b0 :: b1 :: b2 :: b3 :: b4 :: b5 :: b6 :: b7 :: _ =>
    some (b0.val + b1.val * 256 + b2.val * 65536 + b3.val * 16777216 + b4.val * 4294967296
      + b5.val * 1099511627776 + b6.val * 281474976710656 + b7.val * 72057594037927936)
  | _ => none

def PutUint16 (b : List Byte) (v : Nat) : Option (List Byte) :=
  if b.length < 2 then none
  else some (byte v :: byte (v / 256) :: b.drop 2)

def PutUint32 (b : List Byte) (v : Nat) : Option (List Byte) :=
  if b.length < 4 then none
  else some (byte v :: byte (v / 256) :: byte (v / 65536) :: byte (v / 16777216) :: b.drop 4)

def PutUint64 (b : List Byte) (v : Nat) : Option (List Byte) :=
  if b.length < 8 then none
  else some (byte v :: byte (v / 256) :: byte (v / 65536) :: byte (v / 16777216)
    :: byte (v / 4294967296) :: byte (v / 1099511627776) :: byte (v / 281474976710656)
    :: byte (v / 72057594037927936) :: b.drop 8)

end LittleEndian

/-! ## `stream.go`: the big-endian cursor -/

/-- Go `BigEndianStreamImpl`: a position and the buffer it walks. -/
structure BigEndianStreamImpl where
  pos : Int
  buff : List Byte
  deriving DecidableEq, Repr

/-- Go `LittleEndianStreamImpl`. -/
structure LittleEndianStreamImpl where
  pos : Int
  buff : List Byte
  deriving DecidableEq, Repr

def NewBigEndianStream (buff : List Byte) : BigEndianStreamImpl := { pos := 0, buff := buff }

def NewLittleEndianStream (buff : List Byte) : LittleEndianStreamImpl := { pos := 0, buff := buff }

namespace BigEndianStreamImpl

def Size (impl : BigEndianStreamImpl) : Int := impl.buff.length

def Data (impl : BigEndianStreamImpl) : List Byte := impl.buff

def Left (impl : BigEndianStreamImpl) : Int := impl.buff.length - impl.pos

def Reset (_impl : BigEndianStreamImpl) (buff : List Byte) : BigEndianStreamImpl :=
  { pos := 0, buff := buff }

def ReadByte (impl : BigEndianStreamImpl) : Result Byte × BigEndianStreamImpl :=
  if impl.Left < 1 then (.error .ErrBuffOverflow, impl)
  else match index impl.buff impl.pos with
    | none => (.panic, impl)
    | some b => (.ok b, { impl with pos := impl.pos + 1 })

def ReadUint16 (impl : BigEndianStreamImpl) : Result Nat × BigEndianStreamImpl :=
  if impl.Left < 2 then (.error .ErrBuffOverflow, impl)
  else match (sliceFrom impl.buff impl.pos).bind BigEndian.Uint16 with
    | none => (.panic, impl)
    | some b => (.ok b, { impl with pos := impl.pos + 2 })

def ReadUint32 (impl : BigEndianStreamImpl) : Result Nat × BigEndianStreamImpl :=
  if impl.Left < 4 then (.error .ErrBuffOverflow, impl)
  else match (sliceFrom impl.buff impl.pos).bind BigEndian.Uint32 with
    | none => (.panic, impl)
    | some b => (.ok b, { impl with pos := impl.pos + 4 })

def ReadUint64 (impl : BigEndianStreamImpl) : Result Nat × BigEndianStreamImpl :=
  if impl.Left < 8 then (.error .ErrBuffOverflow, impl)
  else match (sliceFrom impl.buff impl.pos).bind BigEndian.Uint64 with
    | none => (.panic, impl)
    | some b => (.ok b, { impl with pos := impl.pos + 8 })

/-- Go `ReadBuff(size)`: `make([]byte, size, size)` panics for a negative `size`;
the copy fills the whole new buffer, the source range having `size` bytes. -/
def ReadBuff (impl : BigEndianStreamImpl) (size : Int) :
    Result (List Byte) × BigEndianStreamImpl :=
  if impl.Left < size then (.error .ErrBuffOverflow, impl)
  else if size < 0 then (.panic, impl)
  else match sliceRange impl.buff impl.pos (impl.pos + size) with
    | none => (.panic, impl)
    | some src => (.ok (copy (List.replicate size.toNat 0) src), { impl with pos := impl.pos + size })

/-- Go `CopyBuff(b)`: the value carried by `ok` is the destination `b` after the
call. -/
def CopyBuff (impl : BigEndianStreamImpl) (b : List Byte) :
    Result (List Byte) × BigEndianStreamImpl :=
  if impl.Left < b.length then (.error .ErrBuffOverflow, impl)
  else match sliceRange impl.buff impl.pos (impl.pos + b.length) with
    | none => (.panic, impl)
    | some src => (.ok (copy b src), impl)

def WriteByte (impl : BigEndianStreamImpl) (b : Byte) : Result Unit × BigEndianStreamImpl :=
  if impl.Left < 1 then (.error .ErrBuffOverflow, impl)
  else if 0 ≤ impl.pos ∧ impl.pos < impl.buff.length then
    (.ok (), { pos := impl.pos + 1, buff := impl.buff.set impl.pos.toNat b })
  else (.panic, impl)

def WriteUint16 (impl : BigEndianStreamImpl) (b : Nat) : Result Unit × BigEndianStreamImpl :=
  if impl.Left < 2 then (.error .ErrBuffOverflow, impl)
  else match (sliceFrom impl.buff impl.pos).bind (BigEndian.PutUint16 · b) with
    | none => (.panic, impl)
    | some t => (.ok (), { pos := impl.pos + 2, buff := storeFrom impl.buff impl.pos t })

def WriteUint32 (impl : BigEndianStreamImpl) (b : Nat) : Result Unit × BigEndianStreamImpl :=
  if impl.Left < 4 then (.error .ErrBuffOverflow, impl)
  else match (sliceFrom impl.buff impl.pos).bind (BigEndian.PutUint32 · b) with
    | none => (.panic, impl)
    | some t => (.ok (), { pos := impl.pos + 4, buff := storeFrom impl.buff impl.pos t })

def WriteUint64 (impl : BigEndianStreamImpl) (b : Nat) : Result Unit × BigEndianStreamImpl :=
  if impl.Left < 8 then (.error .ErrBuffOverflow, impl)
  else match (sliceFrom impl.buff impl.pos).bind (BigEndian.PutUint64 · b) with
    | none => (.panic, impl)
    | some t => (.ok (), { pos := impl.pos + 8, buff := storeFrom impl.buff impl.pos t })

def WriteBuff (impl : BigEndianStreamImpl) (buff : List Byte) :
    Result Unit × BigEndianStreamImpl :=
  if impl.Left < buff.length then (.error .ErrBuffOverflow, impl)
  else match sliceFrom impl.buff impl.pos with
    | none => (.panic, impl)
    | some t => (.ok (), { pos := impl.pos + buff.length,
                           buff := storeFrom impl.buff impl.pos (copy t buff) })

end BigEndianStreamImpl

/-! ## `stream.go`: the little-endian cursor -/

namespace LittleEndianStreamImpl

def Size (impl : LittleEndianStreamImpl) : Int := impl.buff.length

def Data (impl : LittleEndianStreamImpl) : List Byte := impl.buff

def Left (impl : LittleEndianStreamImpl) : Int := impl.buff.length - impl.pos

def Reset (_impl : LittleEndianStreamImpl) (buff : List Byte) : LittleEndianStreamImpl :=
  { pos := 0, buff := buff }

def ReadByte (impl : LittleEndianStreamImpl) : Result Byte × LittleEndianStreamImpl :=
  if impl.Left < 1 then (.error .ErrBuffOverflow, impl)
  else match index impl.buff impl.pos with
    | none => (.panic, impl)
    | some b => (.ok b, { impl with pos := impl.pos + 1 })

def ReadUint16 (impl : LittleEndianStreamImpl) : Result Nat × LittleEndianStreamImpl :=
  if impl.Left < 2 then (.error .ErrBuffOverflow, impl)
  else match (sliceFrom impl.buff impl.pos).bind LittleEndian.Uint16 with
    | none => (.panic, impl)
    | some b => (.ok b, { impl with pos := impl.pos + 2 })

def ReadUint32 (impl : LittleEndianStreamImpl) : Result Nat × LittleEndianStreamImpl :=
  if impl.Left < 4 then (.error .ErrBuffOverflow, impl)
  else match (sliceFrom impl.buff impl.pos).bind LittleEndian.Uint32 with
    | none => (.panic, impl)
    | some b => (.ok b, { impl with pos := impl.pos + 4 })

def ReadUint64 (impl : LittleEndianStreamImpl) : Result Nat × LittleEndianStreamImpl :=
  if impl.Left < 8 then (.error .ErrBuffOverflow, impl)
  else match (sliceFrom impl.buff impl.pos).bind LittleEndian.Uint64 with
    | none => (.panic, impl)
    | some b => (.ok b, { impl with pos := impl.pos + 8 })

def ReadBuff (impl : LittleEndianStreamImpl) (size : Int) :
    Result (List Byte) × LittleEndianStreamImpl :=
  if impl.Left < size then (.error .ErrBuffOverflow, impl)
  else if size < 0 then (.panic, impl)
  else match sliceRange impl.buff impl.pos (impl.pos + size) with
    | none => (.panic, impl)
    | some src => (.ok (copy (List.replicate size.toNat 0) src), { impl with pos := impl.pos + size })

def CopyBuff (impl : LittleEndianStreamImpl) (b : List Byte) :
    Result (List Byte) × LittleEndianStreamImpl :=
  if impl.Left < b.length then (.error .ErrBuffOverflow, impl)
  else match sliceRange impl.buff impl.pos (impl.pos + b.length) with
    | none => (.panic, impl)
    | some src => (.ok (copy b src), impl)

def WriteByte (impl : LittleEndianStreamImpl) (b : Byte) : Result Unit × LittleEndianStreamImpl :=
  if impl.Left < 1 then (.error .ErrBuffOverflow, impl)
  else if 0 ≤ impl.pos ∧ impl.pos < impl.buff.length then
    (.ok (), { pos := impl.pos + 1, buff := impl.buff.set impl.pos.toNat b })
  else (.panic, impl)

def WriteUint16 (impl : LittleEndianStreamImpl) (b : Nat) : Result Unit × LittleEndianStreamImpl :=
  if impl.Left < 2 then (.error .ErrBuffOverflow, impl)
  else match (sliceFrom impl.buff impl.pos).bind (LittleEndian.PutUint16 · b) with
    | none => (.panic, impl)
    | some t => (.ok (), { pos := impl.pos + 2, buff := storeFrom impl.buff impl.pos t })

def WriteUint32 (impl : LittleEndianStreamImpl) (b : Nat) : Result Unit × LittleEndianStreamImpl :=
  if impl.Left < 4 then (.error .ErrBuffOverflow, impl)
  else match (sliceFrom impl.buff impl.pos).bind (LittleEndian.PutUint32 · b) with
    | none => (.panic, impl)
    | some t => (.ok (), { pos := impl.pos + 4, buff := storeFrom impl.buff impl.pos t })

def WriteUint64 (impl : LittleEndianStreamImpl) (b : Nat) : Result Unit × LittleEndianStreamImpl :=
  if impl.Left < 8 then (.error .ErrBuffOverflow, impl)
  else match (sliceFrom impl.buff impl.pos).bind (LittleEndian.PutUint64 · b) with
    | none => (.panic, impl)
    | some t => (.ok (), { pos := impl.pos + 8, buff := storeFrom impl.buff impl.pos t })

def WriteBuff (impl : LittleEndianStreamImpl) (buff : List Byte) :
    Result Unit × LittleEndianStreamImpl :=
  if impl.Left < buff.length then (.error .ErrBuffOverflow, impl)
  else match sliceFrom impl.buff impl.pos with
    | none => (.panic, impl)
    | some t => (.ok (), { pos := impl.pos + buff.length,
                           buff := storeFrom impl.buff impl.pos (copy t buff) })

end LittleEndianStreamImpl

/-! ## The `ReadStream` / `WriteStream` interfaces

An interface value holds one of the two cursors; a method call dispatches on
it. -/

inductive Stream where
  | big (impl : BigEndianStreamImpl)
  | little (impl : LittleEndianStreamImpl)
  deriving DecidableEq, Repr

namespace Stream

/-- The receiver runs `f` when it is big-endian and `g` when it is
little-endian; the cursor after the call is wrapped again. -/
def call {α : Type} (f : BigEndianStreamImpl → α × BigEndianStreamImpl)
    (g : LittleEndianStreamImpl → α × LittleEndianStreamImpl) : Stream → α × Stream
  | big impl => ((f impl).1, big (f impl).2)
  | little impl => ((g impl).1, little (g impl).2)

/-- The position field of the cursor behind the interface value. -/
def pos : Stream → Int
  | big impl => impl.pos
  | little impl => impl.pos

/-- A cursor of the same variant over the same buffer, at position `p`. -/
def atPos : Stream → Int → Stream
  | big impl, p => big { impl with pos := p }
  | little impl, p => little { impl with pos := p }

def Size : Stream → Int
  | big impl => impl.Size
  | little impl => impl.Size

def Left : Stream → Int
  | big impl => impl.Left
  | little impl => impl.Left

def Reset : Stream → List Byte → Stream
  | big impl, buff => big (impl.Reset buff)
  | little impl, buff => little (impl.Reset buff)

def Data : Stream → List Byte
  | big impl => impl.Data
  | little impl => impl.Data

def ReadByte : Stream → Result Byte × Stream :=
  call BigEndianStreamImpl.ReadByte LittleEndianStreamImpl.ReadByte

def ReadUint16 : Stream → Result Nat × Stream :=
  call BigEndianStreamImpl.ReadUint16 LittleEndianStreamImpl.ReadUint16

def ReadUint32 : Stream → Result Nat × Stream :=
  call BigEndianStreamImpl.ReadUint32 LittleEndianStreamImpl.ReadUint32

def ReadUint64 : Stream → Result Nat × Stream :=
  call BigEndianStreamImpl.ReadUint64 LittleEndianStreamImpl.ReadUint64

def ReadBuff (s : Stream) (size : Int) : Result (List Byte) × Stream :=
  call (·.ReadBuff size) (·.ReadBuff size) s

def CopyBuff (s : Stream) (b : List Byte) : Result (List Byte) × Stream :=
  call (·.CopyBuff b) (·.CopyBuff b) s

def WriteByte (s : Stream) (b : Byte) : Result Unit × Stream :=
  call (·.WriteByte b) (·.WriteByte b) s

def WriteUint16 (s : Stream) (b : Nat) : Result Unit × Stream :=
  call (·.WriteUint16 b) (·.WriteUint16 b) s

def WriteUint32 (s : Stream) (b : Nat) : Result Unit × Stream :=
  call (·.WriteUint32 b) (·.WriteUint32 b) s

def WriteUint64 (s : Stream) (b : Nat) : Result Unit × Stream :=
  call (·.WriteUint64 b) (·.WriteUint64 b) s

def WriteBuff (s : Stream) (buff : List Byte) : Result Unit × Stream :=
  call (·.WriteBuff buff) (·.WriteBuff buff) s

end Stream

/-- The three widths of the integer operations. -/
inductive Width where
  | w16
  | w32
  | w64
  deriving DecidableEq, Repr

/-- Number of bytes of an integer of the width. -/
def Width.bytes : Width → Int
  | w16 => 2
  | w32 => 4
  | w64 => 8

/-- Number of bits of an integer of the width. -/
def Width.bits : Width → Nat
  | w16 => 16
  | w32 => 32
  | w64 => 64

/-- One of `WriteUint16`, `WriteUint32`, `WriteUint64`, by width. -/
def Stream.WriteUint (s : Stream) : Width → Nat → Result Unit × Stream
  | .w16, v => s.WriteUint16 v
  | .w32, v => s.WriteUint32 v
  | .w64, v => s.WriteUint64 v

/-- One of `ReadUint16`, `ReadUint32`, `ReadUint64`, by width. -/
def Stream.ReadUint (s : Stream) : Width → Result Nat × Stream
  | .w16 => s.ReadUint16
  | .w32 => s.ReadUint32
  | .w64 => s.ReadUint64

/-- A call of one of the read or write methods of a cursor, with its
arguments. -/
inductive StreamOp where
  | ReadByte
  | ReadUint16
  | ReadUint32
  | ReadUint64
  | ReadBuff (size : Int)
  | CopyBuff (b : List Byte)
  | WriteByte (b : Byte)
  | WriteUint16 (b : Nat)
  | WriteUint32 (b : Nat)
  | WriteUint64 (b : Nat)
  | WriteBuff (buff : List Byte)
  deriving DecidableEq, Repr

/-- Number of bytes the operation reads or writes. -/
def StreamOp.width : StreamOp → Int
  | ReadByte => 1
  | ReadUint16 => 2
  | ReadUint32 => 4
  | ReadUint64 => 8
  | ReadBuff size => size
  | CopyBuff b => b.length
  | WriteByte _ => 1
  | WriteUint16 _ => 2
  | WriteUint32 _ => 4
  | WriteUint64 _ => 8
  | WriteBuff buff => buff.length

/-- What a method hands back besides its error. -/
inductive OpValue where
  | unit
  | byte (b : Byte)
  | uint (v : Nat)
  | bytes (b : List Byte)
  deriving DecidableEq, Repr

/-- The outcome of a method with its value injected into `OpValue`. -/
def Result.toOp {α : Type} (f : α → OpValue) : Result α → Result OpValue
  | .ok a => .ok (f a)
  | .error e => .error e
  | .panic => .panic

/-- Run the method call `op` on the cursor `s`. -/
def Stream.run (s : Stream) : StreamOp → Result OpValue × Stream
  | .ReadByte => ((s.ReadByte).1.toOp .byte, (s.ReadByte).2)
  | .ReadUint16 => ((s.ReadUint16).1.toOp .uint, (s.ReadUint16).2)
  | .ReadUint32 => ((s.ReadUint32).1.toOp .uint, (s.ReadUint32).2)
  | .ReadUint64 => ((s.ReadUint64).1.toOp .uint, (s.ReadUint64).2)
  | .ReadBuff size => ((s.ReadBuff size).1.toOp .bytes, (s.ReadBuff size).2)
  | .CopyBuff b => ((s.CopyBuff b).1.toOp .bytes, (s.CopyBuff b).2)
  | .WriteByte b => ((s.WriteByte b).1.toOp (fun _ => .unit), (s.WriteByte b).2)
  | .WriteUint16 b => ((s.WriteUint16 b).1.toOp (fun _ => .unit), (s.WriteUint16 b).2)
  | .WriteUint32 b => ((s.WriteUint32 b).1.toOp (fun _ => .unit), (s.WriteUint32 b).2)
  | .WriteUint64 b => ((s.WriteUint64 b).1.toOp (fun _ => .unit), (s.WriteUint64 b).2)
  | .WriteBuff buff => ((s.WriteBuff buff).1.toOp (fun _ => .unit), (s.WriteBuff buff).2)

/-- The error (or panic) of a failed call, as the outcome of the caller that
returns it unchanged. -/
def Result.fail {α β : Type} : Result α → Result β
  | .ok _ => .panic
  | .error e => .error e
  | .panic => .panic

/-! ## `protocol_define.go`: the example packets -/

def PKTTYPE_KEEPALIVE : Nat := 0x00000001
def PKTTYPE_KEEPALIVEACK : Nat := 0x80000001

/-- Go `PacketHeader`: six `uint32` fields. -/
structure PacketHeader where
  ID : Nat
  PacketType : Nat
  Len : Nat
  Version : Nat
  Ack : Nat
  Token : Nat
  deriving DecidableEq, Repr

namespace PacketHeader

/-- The zero value `var header PacketHeader`. -/
def zero : PacketHeader := ⟨0, 0, 0, 0, 0, 0⟩

/-- Every field is a `uint32`. -/
def WF (p : PacketHeader) : Prop :=
  p.ID < 4294967296 ∧ p.PacketType < 4294967296 ∧ p.Len < 4294967296 ∧
  p.Version < 4294967296 ∧ p.Ack < 4294967296 ∧ p.Token < 4294967296

instance (p : PacketHeader) : Decidable p.WF := by unfold WF; infer_instance

def GetID (p : PacketHeader) : Nat := p.ID

def GetPacketType (p : PacketHeader) : Nat := p.PacketType

def Length (_p : PacketHeader) : Int := 36

def AdjustLength (p : PacketHeader) : PacketHeader := { p with Len := (p.Length % 4294967296).toNat }

/-- Go `PacketHeader.Read`: a failed `p.F, err = stream.ReadUint32()` stores the
zero it got and returns the error. -/
def Read (p : PacketHeader) (stream : Stream) : Result Unit × PacketHeader × Stream :=
  match stream.ReadUint32 with
  | (.ok v, stream) =>
    let p := { p with ID := v }
    match stream.ReadUint32 with
    | (.ok v, stream) =>
      let p := { p with PacketType := v }
      match stream.ReadUint32 with
      | (.ok v, stream) =>
        let p := { p with Len := v }
        match stream.ReadUint32 with
        | (.ok v, stream) =>
          let p := { p with Version := v }
          match stream.ReadUint32 with
          | (.ok v, stream) =>
            let p := { p with Ack := v }
            match stream.ReadUint32 with
            | (.ok v, stream) => (.ok (), { p with Token := v }, stream)
            | (r, stream) => (r.fail, { p with Token := 0 }, stream)
          | (r, stream) => (r.fail, { p with Ack := 0 }, stream)
        | (r, stream) => (r.fail, { p with Version := 0 }, stream)
      | (r, stream) => (r.fail, { p with Len := 0 }, stream)
    | (r, stream) => (r.fail, { p with PacketType := 0 }, stream)
  | (r, stream) => (r.fail, { p with ID := 0 }, stream)

def Write (w : PacketHeader) (stream : Stream) : Result Unit × Stream :=
  match stream.WriteUint32 w.ID with
  | (.ok (), stream) =>
    match stream.WriteUint32 w.PacketType with
    | (.ok (), stream) =>
      match stream.WriteUint32 w.Len with
      | (.ok (), stream) =>
        match stream.WriteUint32 w.Version with
        | (.ok (), stream) =>
          match stream.WriteUint32 w.Ack with
          | (.ok (), stream) =>
            match stream.WriteUint32 w.Token with
            | (.ok (), stream) => (.ok (), stream)
            | (r, stream) => (r.fail, stream)
          | (r, stream) => (r.fail, stream)
        | (r, stream) => (r.fail, stream)
      | (r, stream) => (r.fail, stream)
    | (r, stream) => (r.fail, stream)
  | (r, stream) => (r.fail, stream)

end PacketHeader

/-- The `Packet` interface, closed over the two implementations of the
repository: `Keepalive` and `KeepaliveAck`, each embedding a `PacketHeader`. -/
inductive Packet where
  | Keepalive (h : PacketHeader)
  | KeepaliveAck (h : PacketHeader)
  deriving DecidableEq, Repr

namespace Packet

/-- The embedded `PacketHeader`. -/
def header : Packet → PacketHeader
  | Keepalive h => h
  | KeepaliveAck h => h

def GetID (s : Packet) : Nat := s.header.GetID

def GetPacketType (s : Packet) : Nat := s.header.GetPacketType

def Length (s : Packet) : Int := s.header.Length

def AdjustLength : Packet → Packet
  | Keepalive h => Keepalive { h with Len := ((Keepalive h).Length % 4294967296).toNat }
  | KeepaliveAck h => KeepaliveAck { h with Len := ((KeepaliveAck h).Length % 4294967296).toNat }

/-- Both `Keepalive.Read` and `KeepaliveAck.Read` return `nil` and touch nothing. -/
def Read (s : Packet) (stream : Stream) : Result Unit × Packet × Stream := (.ok (), s, stream)

def Write (s : Packet) (stream : Stream) : Result Unit × Stream := s.header.Write stream

end Packet

def NewKeepalive : Packet := .Keepalive { PacketHeader.zero with PacketType := PKTTYPE_KEEPALIVE }

def NewKeepaliveAck : Packet :=
  .KeepaliveAck { PacketHeader.zero with PacketType := PKTTYPE_KEEPALIVEACK }

/-- Go `PacketCacher`, as far as `CreatePacket` uses it: `Get` returns a packet
or `nil`. -/
structure PacketCacher where
  Get : Nat → PacketHeader → Option Packet

/-- Go `PacketFactory`; `Cacher = none` is the `nil` cacher. -/
structure PacketFactory where
  Cacher : Option PacketCacher

def NewPacketFactory (cacher : Option PacketCacher) : PacketFactory := { Cacher := cacher }

def PacketFactory.CreatePacket (p : PacketFactory) (stream : Stream) : Result Packet × Stream :=
  match PacketHeader.zero.Read stream with
  | (.ok (), header, stream) =>
    let newPacket : Option Packet :=
      match p.Cacher with
      | some c => c.Get header.PacketType header
      | none => none
    let created : Result Packet :=
      match newPacket with
      | some pk => .ok pk
      | none =>
        if header.PacketType = PKTTYPE_KEEPALIVE then .ok (.Keepalive header)
        else if header.PacketType = PKTTYPE_KEEPALIVEACK then .ok (.KeepaliveAck header)
        else .error .ErrUnknownPacket
    match created with
    | .ok pk =>
      match pk.Read stream with
      | (.ok (), pk, stream) => (.ok pk, stream)
      | (r, _, stream) => (r.fail, stream)
    | r => (r, stream)
  | (r, _, stream) => (r.fail, stream)

/-! ## `body_readwriter.go` -/

structure DefaultBodyReadWriter where
  factory : PacketFactory
  BigEndian : Bool

def NewDefaultBodyReadWriter (cacher : Option PacketCacher) (bigEndian : Bool) :
    DefaultBodyReadWriter :=
  { factory := NewPacketFactory cacher, BigEndian := bigEndian }

namespace DefaultBodyReadWriter

def ReadBody (d : DefaultBodyReadWriter) (buff : List Byte) : Result Packet :=
  let readStream : Stream :=
    if d.BigEndian then .big (NewBigEndianStream buff) else .little (NewLittleEndianStream buff)
  (d.factory.CreatePacket readStream).1

def GetLength (_d : DefaultBodyReadWriter) (packet : Packet) : Int := packet.Length

/-- Go `Write(packet, buff)`: the outcome, `buff` after the call and the packet
after its `AdjustLength`. -/
def Write (d : DefaultBodyReadWriter) (packet : Packet) (buff : List Byte) :
    Result Unit × List Byte × Packet :=
  let p := packet.AdjustLength
  let writeStream : Stream :=
    if d.BigEndian then .big (NewBigEndianStream buff) else .little (NewLittleEndianStream buff)
  ((p.Write writeStream).1, (p.Write writeStream).2.Data, p)

end DefaultBodyReadWriter

/-! ## The transport connection and Go slices with spare capacity -/

/-- Go `[]byte` with its capacity: `arr` is the backing array from the first
element of the slice up to its capacity, `len` the length of the slice. -/
structure Slice where
  arr : List Byte
  len : Nat
  deriving DecidableEq, Repr

namespace Slice

def cap (s : Slice) : Nat := s.arr.length

/-- The elements of the slice, `s[0:len(s)]`. -/
def bytes (s : Slice) : List Byte := s.arr.take s.len

/-- The `nil` slice. -/
def nil : Slice := { arr := [], len := 0 }

end Slice

/-- Go `make([]byte, n)` for `0 ≤ n`: `n` zero bytes, capacity `n`. -/
def make (n : Nat) : Slice := { arr := List.replicate n 0, len := n }

/-- One end of a `net.Conn`: the bytes the peer has sent and that are still
unread (after them the peer has closed its side: end of file), the bytes written
to the peer so far, and whether a `Write` fails. -/
structure Conn where
  input : List Byte
  output : List Byte
  writeErr : Bool
  deriving DecidableEq, Repr

/-- Go `conn.Write(b)`. -/
def Conn.Write (conn : Conn) (b : List Byte) : Result Nat × Conn :=
  if conn.writeErr then (.error .ErrConnWrite, conn)
  else (.ok b.length, { conn with output := conn.output ++ b })

/-- Go `io.ReadFull(conn, buf)`, which is also `io.ReadAtLeast(conn, buf, len(buf))`:
fill `buf` from the connection.  With too few bytes left it stores what there
is and fails with `io.EOF` (nothing read) or `io.ErrUnexpectedEOF`.  The result
is the outcome, `buf` after the call and the connection. -/
def ioReadFull (conn : Conn) (buf : List Byte) : Result Nat × List Byte × Conn :=
  if buf.length ≤ conn.input.length then
    (.ok buf.length, conn.input.take buf.length,
      { conn with input := conn.input.drop buf.length })
  else if conn.input.length = 0 then (.error .EOF, buf, conn)
  else (.error .ErrUnexpectedEOF, copy buf conn.input, { conn with input := [] })

/-! ## `protocol.go`: the framing protocol -/

def DataPacketType : Nat := 0xFDFD
def ControlPacketType : Nat := 0xFEFE

/-- Initial value of the package variable `MaxPacketBodySize`. -/
def MaxPacketBodySize : Nat := 512 * 1024

/-- Go `BodyWriter`.  `Write` yields its outcome, the contents it leaves in the
slice it was given and the packet after the call. -/
structure BodyWriter (P : Type) where
  GetLength : P → Int
  Write : P → List Byte → Result Unit × List Byte × P

/-- Go `BodyReader`. -/
structure BodyReader (P : Type) where
  ReadBody : List Byte → Result P

/-- Go `ProtocolImpl`; `P` is the type of the packet values (`interface{}`). -/
structure ProtocolImpl (P : Type) where
  Writer : BodyWriter P
  Reader : BodyReader P

structure SWPacketHeader where
  Flag : Nat
  PacketFlag : Nat
  BodyLength : Nat
  SrcLength : Nat
  deriving DecidableEq, Repr

def parseHeader (buff : List Byte) : Result SWPacketHeader :=
  let stream := NewBigEndianStream buff
  match stream.ReadUint16 with
  | (.ok flag, stream) =>
    match stream.ReadUint16 with
    | (.ok packetFlag, stream) =>
      match stream.ReadUint32 with
      | (.ok bodyLength, stream) =>
        match stream.ReadUint32 with
        | (.ok srcLength, _) =>
          .ok { Flag := flag, PacketFlag := packetFlag, BodyLength := bodyLength,
                SrcLength := srcLength }
        | (r, _) => r.fail
      | (r, _) => r.fail
    | (r, _) => r.fail
  | (r, _) => r.fail

def NewDefaultProtocol (cacher : Option PacketCacher) (bigEndian : Bool) : ProtocolImpl Packet :=
  let bodyrw := NewDefaultBodyReadWriter cacher bigEndian
  { Reader := { ReadBody := bodyrw.ReadBody },
    Writer := { GetLength := bodyrw.GetLength, Write := bodyrw.Write } }

/-- The literal `controlPacket` of `ReadPacket`. -/
def controlPacket : List Byte :=
  [0xFE, 0xFE, 0x00, 0x10, 0x7F, 0xCD, 0x00, 0x00, 0x00, 0x00, 0x00, 0x01]

/-- The labelled loop `L` of `ReadPacket`, on the backing array `arr` of `buff`:
read 12 bytes into `buff[:12]`, parse them, answer a control header and go
round again, leave the loop with a data header, fail on anything else.  `maxBody`
is the value of `MaxPacketBodySize`.  Each round consumes 12 bytes of input;
`fuel` bounds the rounds and `none` means that it ran out. -/
def readPacketLoop (maxBody : Nat) :
    Nat → Conn → List Byte → Option (Result SWPacketHeader × List Byte × Conn)
  | 0, _, _ => none
  | fuel + 1, conn, arr =>
    if arr.length < 12 then some (.panic, arr, conn)
    else
      match ioReadFull conn (arr.take 12) with
      | (.ok _, b, conn) =>
        let arr := b ++ arr.drop 12
        match parseHeader (arr.take 12) with
        | .ok header =>
          if header.Flag = ControlPacketType then
            match conn.Write controlPacket with
            | (.ok _, conn) => readPacketLoop maxBody fuel conn arr
            | (r, conn) => some (r.fail, arr, conn)
          else if header.Flag = DataPacketType then
            if header.BodyLength ≥ maxBody then some (.error .ErrBodyTooBig, arr, conn)
            else some (.ok header, arr, conn)
          else some (.error .ErrUnknwonPacketHeader, arr, conn)
        | r => some (r.fail, arr, conn)
      | (r, b, conn) => some (r.fail, b ++ arr.drop 12, conn)

namespace ProtocolImpl

variable {P : Type}

/-- The part of `ReadPacket` after its loop: make room for the body, read
`header.BodyLength` bytes into `buff[:header.BodyLength]` and hand them to the
body reader. -/
def readPacketBody (d : ProtocolImpl P) (header : SWPacketHeader) (buff : Slice) (conn : Conn) :
    Result (P × Slice) × Conn :=
  let buff :=
    if buff.cap < header.BodyLength then make ((header.BodyLength + 12) % 4294967296) else buff
  if buff.cap < header.BodyLength then (.panic, conn)
  else
    match ioReadFull conn (buff.arr.take header.BodyLength) with
    | (.ok _, b, conn) =>
      let buff : Slice := { arr := b ++ buff.arr.drop header.BodyLength, len := buff.len }
      match d.Reader.ReadBody (buff.arr.take header.BodyLength) with
      | .ok packet => (.ok (packet, buff), conn)
      | r => (r.fail, conn)
    | (r, _, conn) => (r.fail, conn)

/-- Go `ReadPacket(conn, buff)` with `MaxPacketBodySize = maxBody`: the outcome
(the packet and the buffer handed back for reuse, or the error) and the
connection afterwards.  The input of the modelled connection is finite, so the
loop is run with more fuel than it has rounds. -/
def ReadPacket (d : ProtocolImpl P) (maxBody : Nat) (conn : Conn) (buff : Slice) :
    Option (Result (P × Slice) × Conn) :=
  let buff := if buff.cap < 12 then make 12 else buff
  match readPacketLoop maxBody (conn.input.length + 1) conn buff.arr with
  | none => none
  | some (.ok header, arr, conn) => some (d.readPacketBody header { arr := arr, len := buff.len } conn)
  | some (r, _, conn) => some (r.fail, conn)

/-- Go `BuildPacket(packet, buff)`: the outcome (the slice `buff[:length]`, or the
error) and the packet after the body writer has seen it. -/
def BuildPacket (d : ProtocolImpl P) (packet : P) (buff : Slice) : Result Slice × P :=
  let length : Int := d.Writer.GetLength packet + 12
  let buff := if (buff.cap : Int) < length then make length.toNat else buff
  if buff.cap < 12 then (.panic, packet)
  else
    let stream := NewBigEndianStream (buff.arr.take 12)
    match stream.WriteUint16 DataPacketType with
    | (.ok (), stream) =>
      match stream.WriteUint16 0 with
      | (.ok (), stream) =>
        match stream.WriteUint32 ((length - 12) % 4294967296).toNat with
        | (.ok (), stream) =>
          match stream.WriteUint32 ((length - 12) % 4294967296).toNat with
          | (.ok (), stream) =>
            let arr := stream.buff ++ buff.arr.drop 12
            if length < 12 ∨ (arr.length : Int) < length then (.panic, packet)
            else
              let body := (arr.drop 12).take (length.toNat - 12)
              match d.Writer.Write packet body with
              | (.ok (), body', packet) =>
                (.ok { arr := arr.take 12 ++ copy body body' ++ arr.drop length.toNat,
                       len := length.toNat }, packet)
              | (r, _, packet) => (r.fail, packet)
          | (r, _) => (r.fail, packet)
        | (r, _) => (r.fail, packet)
      | (r, _) => (r.fail, packet)
    | (r, _) => (r.fail, packet)

/-- Go `WritePacket(conn, buff)`. -/
def WritePacket (_d : ProtocolImpl P) (conn : Conn) (buff : List Byte) : Result Unit × Conn :=
  match conn.Write buff with
  | (.ok _, conn) => (.ok (), conn)
  | (r, conn) => (r.fail, conn)

end ProtocolImpl

/-! ## `session.go`: lifecycle flag, stop signal and outbound queue -/

/-- Go `Session`, as far as `NewSession`, `Start`, `Close` and `AsyncSend` read
and write it.  `closed` is the lifecycle flag (`-1` not started, `0` running,
`1` closed); `connCloseCalls` counts the calls of `s.conn.Close()`;
`stopedChanClosed` says whether `close(s.stopedChan)` has happened; `sendChan`
holds the queued values, oldest first, and `sendChanSize` is the capacity of
the channel; `closeCallback` says whether the callback is not `nil` and
`closeCallbackCalls` counts its invocations; `loopsStarted` counts the pairs of
goroutines `sendLoop`, `recvLoop` that `Start` has spawned. -/
structure Session (P : Type) where
  closed : Int
  connCloseCalls : Nat
  stopedChanClosed : Bool
  sendChan : List P
  sendChanSize : Nat
  closeCallback : Bool
  closeCallbackCalls : Nat
  loopsStarted : Nat
  deriving DecidableEq, Repr

/-- Go `NewSession(conn, protocol, handler, sendChanSize)`. -/
def NewSession (P : Type) (sendChanSize : Nat) : Session P :=
  { closed := -1, connCloseCalls := 0, stopedChanClosed := false, sendChan := [],
    sendChanSize := sendChanSize, closeCallback := false, closeCallbackCalls := 0,
    loopsStarted := 0 }

namespace Session

variable {P : Type}

/-- Go `SetCloseCallback(callback)` with a callback that is not `nil`. -/
def SetCloseCallback (s : Session P) : Session P := { s with closeCallback := true }

/-- Go `Close()`: one atomic compare-and-swap of the flag from `0` to `1`, and the
teardown when it succeeded.  Closing a closed channel panics. -/
def Close (s : Session P) : Result Unit × Session P :=
  if s.closed = 0 then
    let s := { s with closed := 1 }
    let s := { s with connCloseCalls := s.connCloseCalls + 1 }
    if s.stopedChanClosed then (.panic, s)
    else
      let s := { s with stopedChanClosed := true }
      let s := if s.closeCallback then { s with closeCallbackCalls := s.closeCallbackCalls + 1 }
               else s
      (.ok (), s)
  else (.ok (), s)

/-- Go `Start()`: compare-and-swap of the flag from `-1` to `0`, then `go
s.sendLoop()` and `go s.recvLoop()`. -/
def Start (s : Session P) : Session P :=
  if s.closed = -1 then { s with closed := 0, loopsStarted := s.loopsStarted + 1 }
  else s

/-- Go `AsyncSend(packet)`: every outcome the `select` statement can have.  A
`select` picks among its communications that can proceed (one of them, chosen
at random, if there are several) and takes `default` when none can.  The send
on `sendChan` can proceed when the buffer of the channel has room, the receive
from `stopedChan` when that channel is closed.  The state holds no receiver
waiting on `sendChan`: the queue is taken as not being drained during the
call. -/
def AsyncSend (s : Session P) (packet : P) : List (Option Err × Session P) :=
  let sendCase : List (Option Err × Session P) :=
    if s.sendChan.length < s.sendChanSize then
      [(none, { s with sendChan := s.sendChan ++ [packet] })]
    else []
  let stopCase : List (Option Err × Session P) :=
    if s.stopedChanClosed then [(some .ErrStoped, s)] else []
  if (sendCase ++ stopCase).isEmpty then [(some .ErrSendChanBlocking, s)]
  else sendCase ++ stopCase

end Session

/-! ## Definitions used to state the properties -/

/-- Big-endian encoding of a 32-bit value: most significant byte first. -/
def be32 (n : Nat) : List Byte :=
  [byte (n / 16777216), byte (n / 65536), byte (n / 256), byte n]

/-- Little-endian encoding of a 32-bit value: least significant byte first. -/
def le32 (n : Nat) : List Byte :=
  [byte n, byte (n / 256), byte (n / 65536), byte (n / 16777216)]

/-- The twelve header bytes of a data frame with body length `n`, as the
specification lays them out: `FD FD`, `00 00`, and twice the big-endian
encoding of `n`. -/
def frameHeader (n : Nat) : List Byte := [0xFD, 0xFD, 0x00, 0x00] ++ be32 n ++ be32 n

/-- The buffer `BuildPacket` works on for a body of `n` bytes: a fresh one when
the capacity of the scratch buffer is below `n + 12`, the scratch buffer
otherwise. -/
def buildBuffer (buff : Slice) (n : Nat) : Slice :=
  if buff.cap < n + 12 then make (n + 12) else buff

/-- The slice `buff[12:length]` that `BuildPacket` hands to the body writer. -/
def bodyRegion (buff : Slice) (n : Nat) : List Byte :=
  ((buildBuffer buff n).arr.drop 12).take n

/-- The 24 bytes that `PacketHeader.Write` produces: the six fields in order,
each in the byte order of the cursor. -/
def PacketHeader.encode (bigEndian : Bool) (h : PacketHeader) : List Byte :=
  if bigEndian then
    be32 h.ID ++ be32 h.PacketType ++ be32 h.Len ++ be32 h.Version ++ be32 h.Ack ++ be32 h.Token
  else
    le32 h.ID ++ le32 h.PacketType ++ le32 h.Len ++ le32 h.Version ++ le32 h.Ack ++ le32 h.Token

/-- The type tag of the packet is the one of its concrete kind. -/
def Packet.Tagged : Packet → Prop
  | .Keepalive h => h.PacketType = PKTTYPE_KEEPALIVE
  | .KeepaliveAck h => h.PacketType = PKTTYPE_KEEPALIVEACK

instance (p : Packet) : Decidable p.Tagged := by
  cases p <;> unfold Packet.Tagged <;> infer_instance

/-! ## Definitions for the properties of cursors, packets and sessions -/

/-- The bytes of an unsigned integer of the given width, most significant byte
first: byte `i`, counted from the least significant one, is `v / 256 ^ i`. -/
def bigEndianBytes (w : Width) (v : Nat) : List Byte :=
  (List.range w.bytes.toNat).reverse.map (fun i => byte (v / 256 ^ i))

/-- The range `buff[p : p+n)` of a buffer. -/
def region (buff : List Byte) (p : Int) (n : Nat) : List Byte :=
  (buff.drop p.toNat).take n

/-- The operations that do not encode or decode a multi-byte integer. -/
def StreamOp.byteOrderFree : StreamOp → Bool
  | .ReadByte => true
  | .ReadBuff _ => true
  | .CopyBuff _ => true
  | .WriteByte _ => true
  | .WriteBuff _ => true
  | _ => false

/-- The `i`-th of the consecutive `uint32` fields at the start of a body, in the
byte order of the body; a byte that is missing counts as zero. -/
def uint32At (bigEndian : Bool) (b : List Byte) (i : Nat) : Nat :=
  if bigEndian then
    (b.getD (4 * i) 0).val * 16777216 + (b.getD (4 * i + 1) 0).val * 65536
      + (b.getD (4 * i + 2) 0).val * 256 + (b.getD (4 * i + 3) 0).val
  else
    (b.getD (4 * i) 0).val + (b.getD (4 * i + 1) 0).val * 256
      + (b.getD (4 * i + 2) 0).val * 65536 + (b.getD (4 * i + 3) 0).val * 16777216

/-- The six header fields that the first 24 bytes of a body hold. -/
def headerAt (bigEndian : Bool) (b : List Byte) : PacketHeader :=
  { ID := uint32At bigEndian b 0, PacketType := uint32At bigEndian b 1,
    Len := uint32At bigEndian b 2, Version := uint32At bigEndian b 3,
    Ack := uint32At bigEndian b 4, Token := uint32At bigEndian b 5 }

/-- One thing done to a cursor: a call of a read or write method, or `Reset`. -/
inductive CursorStep where
  | op (o : StreamOp)
  | reset (buff : List Byte)
  deriving DecidableEq, Repr

/-- The cursor after one step. -/
def Stream.exec (s : Stream) : CursorStep → Stream
  | .op o => (s.run o).2
  | .reset buff => s.Reset buff

/-- The cursor after a sequence of steps. -/
def Stream.execAll (s : Stream) (steps : List CursorStep) : Stream :=
  steps.foldl Stream.exec s

/-- Successive calls `AsyncSend(p1)`, ..., `AsyncSend(pn)` with no other activity
on the session: every way they can go, as the errors returned in order and the
session afterwards. -/
def Session.AsyncSendAll {P : Type} (s : Session P) : List P → List (List (Option Err) × Session P)
  | [] => [([], s)]
  | p :: ps =>
    (s.AsyncSend p).flatMap (fun o => (AsyncSendAll o.2 ps).map (fun t => (o.1 :: t.1, t.2)))

/-! ### `example/server/server.go` and `dispatcher.go` -/

/-- Go `protocol.PacketHandler`: the states the session can be in after the
handler has run, or its panic. -/
abbrev PacketHandler := Session Packet → Packet → Result (List (Session Packet))

/-- Go `onKeepalive` of the server example.  The type assertion
`packet.(*protocol.Keepalive)` panics on another kind of packet; the error that
`AsyncSend` returns is dropped. -/
def onKeepalive : PacketHandler := fun session packet =>
  match packet with
  | .Keepalive req =>
    let ack : PacketHeader :=
      { NewKeepaliveAck.header with Token := req.Token, Version := req.Version }
    .ok ((session.AsyncSend (.KeepaliveAck ack)).map (·.2))
  | .KeepaliveAck _ => .panic

/-- Go `Dispatcher`: the handler registered for each type tag, if any. -/
structure Dispatcher where
  handlerMap : Nat → Option PacketHandler

def NewDispatcher : Dispatcher := { handlerMap := fun _ => none }

def Dispatcher.AddHandler (p : Dispatcher) (id : Nat) (handler : PacketHandler) : Dispatcher :=
  { handlerMap := fun k => if k = id then some handler else p.handlerMap k }

/-- Go `Dispatcher.Handle`: without a handler for the type tag it prints a line
and leaves the session alone. -/
def Dispatcher.Handle (p : Dispatcher) : PacketHandler := fun session packet =>
  match p.handlerMap packet.GetPacketType with
  | some h => h session packet
  | none => .ok [session]

/-- The dispatcher that `main` of the server example sets up. -/
def serverDispatcher : Dispatcher := NewDispatcher.AddHandler PKTTYPE_KEEPALIVE onKeepalive

/-! ### Interleaved calls of `Start()` and `Close()`

Each call is a goroutine that runs its statements one at a time; between two
statements any other goroutine may run.  The compare-and-swap is one atomic
step, as `atomic.CompareAndSwapInt32` is. -/

/-- Where a goroutine that runs `Start()` or `Close()` stands: before its
compare-and-swap, before one of the statements under the `if`, or returned. -/
inductive Call where
  | startCAS
  | startGo
  | startDone
  | closeCAS
  | closeConn
  | closeChan
  | closeCallback
  | closeDone
  deriving DecidableEq, Repr

/-- A session together with the calls of `Start()` and `Close()` that are under
way on it; `panicked` says whether a statement has panicked (which ends the
program). -/
structure World (P : Type) where
  s : Session P
  calls : List Call
  panicked : Bool
  deriving DecidableEq, Repr

namespace World

variable {P : Type}

/-- The goroutine `i` runs its next statement.  `Start()`: the compare-and-swap
from `-1` to `0`, then `go s.sendLoop()` and `go s.recvLoop()`, each of which
ends with its deferred `s.Close()`, a new call that may run at any later time.
`Close()`: the compare-and-swap from `0` to `1`, then `s.conn.Close()`,
`close(s.stopedChan)` (a panic on a closed channel) and the callback when
it is not `nil`. -/
def step (w : World P) (i : Nat) : World P :=
  if w.panicked then w
  else
    match w.calls.get? i with
    | none => w
    | some .startCAS =>
      if w.s.closed = -1 then
        { w with s := { w.s with closed := 0 }, calls := w.calls.set i .startGo }
      else { w with calls := w.calls.set i .startDone }
    | some .startGo =>
      { w with s := { w.s with loopsStarted := w.s.loopsStarted + 1 },
               calls := w.calls.set i .startDone ++ [.closeCAS, .closeCAS] }
    | some .startDone => w
    | some .closeCAS =>
      if w.s.closed = 0 then
        { w with s := { w.s with closed := 1 }, calls := w.calls.set i .closeConn }
      else { w with calls := w.calls.set i .closeDone }
    | some .closeConn =>
      { w with s := { w.s with connCloseCalls := w.s.connCloseCalls + 1 },
               calls := w.calls.set i .closeChan }
    | some .closeChan =>
      if w.s.stopedChanClosed then { w with panicked := true }
      else { w with s := { w.s with stopedChanClosed := true },
                    calls := w.calls.set i .closeCallback }
    | some .closeCallback =>
      { w with s := if w.s.closeCallback then
                      { w.s with closeCallbackCalls := w.s.closeCallbackCalls + 1 }
                    else w.s,
               calls := w.calls.set i .closeDone }
    | some .closeDone => w

/-- The world after the goroutines have run one statement each time they are
named in the schedule. -/
def run (w : World P) (sched : List Nat) : World P := sched.foldl step w

/-- A session on which nothing has been torn down, not started or running,
with calls of `Start()` and `Close()` that have not begun. -/
def Init (w : World P) : Prop :=
  (w.s.closed = -1 ∨ w.s.closed = 0) ∧ w.s.connCloseCalls = 0 ∧ w.s.stopedChanClosed = false ∧
  w.s.closeCallbackCalls = 0 ∧ w.panicked = false ∧
  ∀ c ∈ w.calls, c = .startCAS ∨ c = .closeCAS

/-- All calls have returned. -/
def Finished (w : World P) : Prop := ∀ c ∈ w.calls, c = .startDone ∨ c = .closeDone

instance (w : World P) : Decidable w.Finished := by
  unfold Finished
  infer_instance

/-- One move of the lifecycle flag: none, `-1` to `0`, or `0` to `1`. -/
def flagMove (a b : Int) : Prop := b = a ∨ (a = -1 ∧ b = 0) ∨ (a = 0 ∧ b = 1)

/-- The teardown is at one of its five stages: not begun, or begun by exactly
one call that stands before `conn.Close()` (`n1`), before `close(stopedChan)`
(`n2`) or before the callback (`n3`), or done.  `conn` counts the calls of
`conn.Close()`, `stoped` says whether the channel is closed, `cb` counts the
calls of the callback and `cbSet` says whether there is one. -/
def Stage (closed : Int) (n1 n2 n3 conn : Nat) (stoped cbSet : Bool) (cb : Nat) : Prop :=
  ((closed = -1 ∨ closed = 0) ∧ n1 = 0 ∧ n2 = 0 ∧ n3 = 0 ∧ conn = 0 ∧ stoped = false ∧ cb = 0) ∨
  (closed = 1 ∧ n1 = 1 ∧ n2 = 0 ∧ n3 = 0 ∧ conn = 0 ∧ stoped = false ∧ cb = 0) ∨
  (closed = 1 ∧ n1 = 0 ∧ n2 = 1 ∧ n3 = 0 ∧ conn = 1 ∧ stoped = false ∧ cb = 0) ∨
  (closed = 1 ∧ n1 = 0 ∧ n2 = 0 ∧ n3 = 1 ∧ conn = 1 ∧ stoped = true ∧ cb = 0) ∨
  (closed = 1 ∧ n1 = 0 ∧ n2 = 0 ∧ n3 = 0 ∧ conn = 1 ∧ stoped = true ∧
    cb = if cbSet then 1 else 0)

/-- No statement has panicked and the teardown of the session is at one of its
stages, the calls of `Close()` standing where the stage says. -/
def Inv (w : World P) : Prop :=
  w.panicked = false ∧
  Stage w.s.closed (w.calls.count .closeConn) (w.calls.count .closeChan)
    (w.calls.count .closeCallback) w.s.connCloseCalls w.s.stopedChanClosed w.s.closeCallback
    w.s.closeCallbackCalls

/-- The number of calls of `Close()`, at any stage. -/
def closeCalls (w : World P) : Nat :=
  w.calls.count .closeCAS + w.calls.count .closeConn + w.calls.count .closeChan
    + w.calls.count .closeCallback + w.calls.count .closeDone

end World

/-! ### `sendLoop` and the callers of `AsyncSend` -/

/-- Go `conn.Write(b)` on a connection that may break while it writes.  With
`fault = some m` and `m < len(b)` the connection takes the first `m` bytes and
the call returns the error; otherwise the write is that of `Conn.Write`. -/
def Conn.WriteFault (conn : Conn) (b : List Byte) (fault : Option Nat) : Result Nat × Conn :=
  match fault with
  | some m =>
    if conn.writeErr ∨ b.length ≤ m then conn.Write b
    else (.error .ErrConnWrite, { conn with output := conn.output ++ b.take m })
  | none => conn.Write b

/-- Go `WritePacket(conn, buff)` on such a connection: the count that
`conn.Write` returns is dropped. -/
def ProtocolImpl.WritePacketFault {P : Type} (_d : ProtocolImpl P) (conn : Conn)
    (buff : List Byte) (fault : Option Nat) : Result Unit × Conn :=
  match conn.WriteFault buff fault with
  | (.ok _, conn) => (.ok (), conn)
  | (r, conn) => (r.fail, conn)

/-- A session with the connection it writes to and the local state of its
`sendLoop`: the scratch buffer `sendBuff`, the packet `inHand` that a sender has
handed over to the loop waiting in its `select` and that the loop has not
processed yet, and whether the loop has returned.  `accepted` is the history of
the packets for which `AsyncSend` has returned `nil`, in the order of the
calls. -/
structure SendState (P : Type) where
  s : Session P
  conn : Conn
  sendBuff : Slice
  inHand : Option P
  returned : Bool
  accepted : List P

/-- What can happen next: a call of `Start()`; a call `AsyncSend(p)`, where `pick`
chooses among its possible outcomes; a call of `Close()` by any goroutine; the
next step of `sendLoop`, where `preferStop` chooses between the two cases of its
`select` when both can proceed and `fault` says whether and where the connection
breaks during the write. -/
inductive SendEvent (P : Type) where
  | start
  | asyncSend (p : P) (pick : Nat)
  | close
  | loop (preferStop : Bool) (fault : Option Nat)

/-- The event is a step of `sendLoop` during which the connection may break. -/
def SendEvent.broken {P : Type} : SendEvent P → Bool
  | .loop _ (some _) => true
  | _ => false

namespace SendState

variable {P : Type}

/-- The send loop can be waiting in its `select` with nothing to receive: it has
been started and has not returned, it holds no packet, the queue is empty and
the stop signal has not fired. -/
def parked (st : SendState P) : Bool :=
  decide (0 < st.s.loopsStarted) && !st.returned && st.inHand.isNone && st.s.sendChan.isEmpty
    && !st.s.stopedChanClosed

/-- Go `AsyncSend(packet)` next to the send loop: the states it can leave.  The
send of its `select` can also proceed by handing the packet to the loop that
waits in `<-s.sendChan`, whatever the capacity of the channel; the loop may not
have come back to its `select` yet, so the outcomes of `Session.AsyncSend` stay
possible.  The packet joins `accepted` when `nil` is returned. -/
def asyncSendOutcomes (st : SendState P) (p : P) : List (SendState P) :=
  (if st.parked then [{ st with inHand := some p, accepted := st.accepted ++ [p] }] else [])
    ++ (st.s.AsyncSend p).map (fun o =>
      match o.1 with
      | none => { st with s := o.2, accepted := st.accepted ++ [p] }
      | some _ => { st with s := o.2 })

/-- The return of `sendLoop`, with its deferred `s.Close()`. -/
def loopReturn (st : SendState P) : SendState P :=
  { st with s := (st.s.Close).2, returned := true }

/-- The body of the case `packet, ok := <-s.sendChan` of `sendLoop`:
`BuildPacket` into `sendBuff`, then `WritePacket`; the loop returns on an error of
either.  A write on a connection that has been closed fails.  The send
callback, code of the user of the package, is left out. -/
def loopSend (d : ProtocolImpl P) (st : SendState P) (packet : P) (fault : Option Nat) :
    SendState P :=
  match d.BuildPacket packet st.sendBuff with
  | (.ok frame, _) =>
    let conn := if 0 < st.s.connCloseCalls then { st.conn with writeErr := true } else st.conn
    match d.WritePacketFault conn frame.bytes fault with
    | (.ok (), conn) => { st with conn := conn, sendBuff := frame }
    | (_, conn) => loopReturn { st with conn := conn, sendBuff := frame }
  | (_, _) => loopReturn { st with sendBuff := Slice.nil }

/-- One event.  A step of `sendLoop` processes the packet it has been handed, or
else runs its `select`: it takes the oldest queued packet and processes it, or
returns on the stop signal, or blocks (nothing happens) when the queue is empty
and the stop signal has not fired. -/
def step (d : ProtocolImpl P) (st : SendState P) : SendEvent P → SendState P
  | .start => { st with s := st.s.Start }
  | .asyncSend p pick =>
    match (st.asyncSendOutcomes p).get? pick with
    | some st2 => st2
    | none => st
  | .close => { st with s := (st.s.Close).2 }
  | .loop preferStop fault =>
    if st.s.loopsStarted = 0 ∨ st.returned then st
    else
      match st.inHand with
      | some packet => loopSend d { st with inHand := none } packet fault
      | none =>
        match st.s.sendChan with
        | [] => if st.s.stopedChanClosed then loopReturn st else st
        | packet :: queue =>
          if st.s.stopedChanClosed ∧ preferStop then loopReturn st
          else loopSend d { st with s := { st.s with sendChan := queue } } packet fault

/-- The state after a sequence of events. -/
def run (d : ProtocolImpl P) (st : SendState P) (events : List (SendEvent P)) : SendState P :=
  events.foldl (step d) st

end SendState

/-- The frames built so far and the scratch buffer, after `BuildPacket` of one
more packet into that buffer; `none` when a `BuildPacket` has failed. -/
def buildNext {P : Type} (d : ProtocolImpl P) (acc : Option (List (List Byte) × Slice)) (p : P) :
    Option (List (List Byte) × Slice) :=
  match acc with
  | none => none
  | some (frames, buff) =>
    match d.BuildPacket p buff with
    | (.ok frame, _) => some (frames ++ [frame.bytes], frame)
    | _ => none

/-- The frames `BuildPacket(P1)`, ..., `BuildPacket(Pk)`, each built into the
buffer that the one before has returned, as `sendLoop` does, starting with
`buff`; with them, the last buffer. -/
def buildFrames {P : Type} (d : ProtocolImpl P) (buff : Slice) (ps : List P) :
    Option (List (List Byte) × Slice) :=
  ps.foldl (buildNext d) (some ([], buff))

/-- The frame `f` starts with the header of a data frame whose two length fields
are the length that the body writer reports for `p`, and has that many bytes
after the header. -/
def FrameOf {P : Type} (d : ProtocolImpl P) (p : P) (f : List Byte) : Prop :=
  ∃ n : Nat, d.Writer.GetLength p = n ∧ f.length = n + 12 ∧
    parseHeader (f.take 12)
      = .ok { Flag := DataPacketType, PacketFlag := 0, BodyLength := n, SrcLength := n }

/-- A write that has broken part-way: `part` is empty, or the loop has dropped
one packet whose frame, built into `buff`, reached the connection only with its
first `m` bytes, fewer than all. -/
def PartialFrame {P : Type} (d : ProtocolImpl P) (buff : Slice) (dropped : List P)
    (part : List Byte) : Prop :=
  part = [] ∨ ∃ (p p2 : P) (f : Slice) (m : Nat), dropped = [p] ∧
    d.BuildPacket p buff = (.ok f, p2) ∧ m < f.bytes.length ∧ part = f.bytes.take m

/-- What holds of a session and its send loop at every point: the accepted
packets are those sent, then at most one that the loop dropped as it returned,
then the one the loop has in hand, then the queue, in this order; the frames of
the sent ones, built one after the other from the scratch buffer `buff0` on,
are what has been written after `out0`, each a frame of its packet, followed by
the part of the frame of the dropped packet that a broken write has left,
which is empty unless the connection may have broken (`faulty`). -/
def SendInv {P : Type} (d : ProtocolImpl P) (buff0 : Slice) (out0 : List Byte) (faulty : Bool)
    (st : SendState P) : Prop :=
  ∃ (sent dropped : List P) (frames : List (List Byte)) (buff : Slice) (part : List Byte),
    st.accepted = sent ++ dropped ++ st.inHand.toList ++ st.s.sendChan ∧
    buildFrames d buff0 sent = some (frames, buff) ∧
    (st.returned = false → buff = st.sendBuff ∧ dropped = [] ∧ part = []) ∧
    st.conn.output = out0 ++ frames.flatten ++ part ∧
    List.Forall₂ (FrameOf d) sent frames ∧
    PartialFrame d buff dropped part ∧
    (faulty = false → part = [])

/-! ### A body writer at the size limit -/

/-- An implementation of the interfaces `BodyWriter` and `BodyReader` for packets without
content: `GetLength` reports `MaxPacketBodySize` bytes for every packet, `Write` leaves the
buffer as it is and returns `nil`, `ReadBody` accepts every body. -/
def limitProtocol : ProtocolImpl Unit :=
  { Writer := { GetLength := fun _ => (MaxPacketBodySize : Int),
                Write := fun packet buff => (.ok (), buff, packet) },
    Reader := { ReadBody := fun _ => .ok () } }

/-! ### Two peers in `ReadPacket` on one connection -/

/-- How one round of the loop `L` of `ReadPacket` ends: with a control header
answered, the loop goes round again; otherwise the loop is left with a data
header or an error. -/
inductive Round where
  | again (conn : Conn) (arr : List Byte)
  | leave (r : Result SWPacketHeader) (arr : List Byte) (conn : Conn)
  deriving DecidableEq, Repr

/-- One round of the loop `L` of `ReadPacket`, on the backing array `arr` of
`buff`: the body of `readPacketLoop`. -/
def readPacketRound (maxBody : Nat) (conn : Conn) (arr : List Byte) : Round :=
  if arr.length < 12 then .leave .panic arr conn
  else
    match ioReadFull conn (arr.take 12) with
    | (.ok _, b, conn) =>
      let arr := b ++ arr.drop 12
      match parseHeader (arr.take 12) with
      | .ok header =>
        if header.Flag = ControlPacketType then
          match conn.Write controlPacket with
          | (.ok _, conn) => .again conn arr
          | (r, conn) => .leave r.fail arr conn
        else if header.Flag = DataPacketType then
          if header.BodyLength ≥ maxBody then .leave (.error .ErrBodyTooBig) arr conn
          else .leave (.ok header) arr conn
        else .leave (.error .ErrUnknwonPacketHeader) arr conn
      | r => .leave r.fail arr conn
    | (r, b, conn) => .leave r.fail (b ++ arr.drop 12) conn

/-- A peer that runs `ReadPacket` on its end of a connection that stays open:
`inbox` holds the bytes that have arrived and are not read yet, `arr` is the
backing array of its `buff`, `left` says whether the loop `L` has been left
(with a data header or an error), `sent` is all that the peer has written. -/
structure Peer where
  inbox : List Byte
  arr : List Byte
  left : Bool
  sent : List Byte
  deriving DecidableEq, Repr

/-- One round of the loop of a peer, and the bytes it writes to the connection.
With fewer than 12 bytes in the inbox the read waits; writes succeed. -/
def Peer.round (maxBody : Nat) (p : Peer) : Peer × List Byte :=
  if p.left ∨ p.inbox.length < 12 then (p, [])
  else
    match readPacketRound maxBody ⟨p.inbox, [], false⟩ p.arr with
    | .again conn arr =>
      ({ inbox := conn.input, arr := arr, left := false, sent := p.sent ++ conn.output },
        conn.output)
    | .leave _ arr conn =>
      ({ inbox := conn.input, arr := arr, left := true, sent := p.sent ++ conn.output },
        conn.output)

/-- The peer `A` (for `true`) or the peer `B` runs one round; what it writes
arrives in the inbox of the other. -/
def peersStep (maxBody : Nat) (s : Peer × Peer) (who : Bool) : Peer × Peer :=
  if who then
    ((s.1.round maxBody).1, { s.2 with inbox := s.2.inbox ++ (s.1.round maxBody).2 })
  else
    ({ s.1 with inbox := s.1.inbox ++ (s.2.round maxBody).2 }, (s.2.round maxBody).1)

/-- The two peers after the rounds of a schedule. -/
def peersRun (maxBody : Nat) (s : Peer × Peer) (sched : List Bool) : Peer × Peer :=
  sched.foldl (peersStep maxBody) s

/-- The schedule of `n` rounds in which the peers take turns, `A` first. -/
def takeTurns (n : Nat) : List Bool := (List.range n).map (fun i => i % 2 = 0)

/-- The 12 bytes of a control frame. -/
def IsControlFrame (c : List Byte) : Prop :=
  c.length = 12 ∧ ∃ H, parseHeader c = .ok H ∧ H.Flag = ControlPacketType

/-- Both peers are in their loops, one control frame is in flight (to `A` when
`toA`, else to `B`) and nothing else, and what the peers have written so far
are `k` acknowledgments between them. -/
def InFlight (k : Nat) (toA : Bool) (s : Peer × Peer) : Prop :=
  s.1.left = false ∧ s.2.left = false ∧ 12 ≤ s.1.arr.length ∧ 12 ≤ s.2.arr.length ∧
  (∃ i j, i + j = k ∧ s.1.sent = (List.replicate i controlPacket).flatten ∧
    s.2.sent = (List.replicate j controlPacket).flatten) ∧
  (if toA then IsControlFrame s.1.inbox ∧ s.2.inbox = []
   else s.1.inbox = [] ∧ IsControlFrame s.2.inbox)

/-! ## Lemmas on the cursors -/

@[simp] theorem byte_val (v : Nat) : (byte v).val = v % 256 := rfl

theorem sliceFrom_natCast (buff : List Byte) (n : Nat) (h : n ≤ buff.length) :
    sliceFrom buff (n : Int) = some (buff.drop n) := by
  simp [sliceFrom, h]

theorem storeFrom_natCast (buff : List Byte) (n : Nat) (t : List Byte) :
    storeFrom buff (n : Int) t = buff.take n ++ t := by
  simp [storeFrom]

theorem Result.fail_ne_ok {α β : Type} (r : Result α) (b : β) :
    (r.fail : Result β) ≠ .ok b := by
  cases r <;> simp [Result.fail]

theorem BigEndianStreamImpl.WriteUint16_at_big (p : Int) (buff : List Byte) (n v : Nat)
    (hp : p = n) (h : n + 2 ≤ buff.length) :
    (BigEndianStreamImpl.mk p buff).WriteUint16 v
      = (.ok (), ⟨p + 2,
          buff.take n ++ byte (v / 256) :: byte v :: buff.drop (n + 2)⟩) := by
  subst hp
  have h1 : ¬ ((buff.length : Int) - n < 2) := by omega
  have h2 : ¬ (buff.length - n < 2) := by omega
  simp [WriteUint16, Left, h1, h2, sliceFrom_natCast buff n (by omega), storeFrom_natCast,
    BigEndian.PutUint16]

theorem BigEndianStreamImpl.ReadUint16_at_big (p : Int) (buff : List Byte) (n : Nat)
    (b0 b1 : Byte) (post : List Byte)
    (hp : p = n) (h : buff.drop n = b0 :: b1 :: post) :
    (BigEndianStreamImpl.mk p buff).ReadUint16
      = (.ok (b0.val * 256 + b1.val), ⟨p + 2, buff⟩) := by
  subst hp
  have hl : n + 2 ≤ buff.length := by
    have := congrArg List.length h
    simp at this
    omega
  have h1 : ¬ ((buff.length : Int) - n < 2) := by omega
  simp only [ReadUint16, Left, h1, if_false]
  rw [sliceFrom_natCast _ _ (by omega), h]
  simp [BigEndian.Uint16]

theorem BigEndianStreamImpl.ReadUint16_ok_inv_big (impl impl' : BigEndianStreamImpl) (v : Nat)
    (h : impl.ReadUint16 = (.ok v, impl')) :
    2 ≤ impl.Left ∧ impl' = { impl with pos := impl.pos + 2 } := by
  unfold ReadUint16 at h
  split at h
  · simp at h
  · split at h
    · simp at h
    · simp only [Prod.mk.injEq] at h
      exact ⟨by omega, h.2.symm⟩

theorem BigEndianStreamImpl.WriteUint32_at_big (p : Int) (buff : List Byte) (n v : Nat)
    (hp : p = n) (h : n + 4 ≤ buff.length) :
    (BigEndianStreamImpl.mk p buff).WriteUint32 v
      = (.ok (), ⟨p + 4,
          buff.take n ++ byte (v / 16777216) :: byte (v / 65536) :: byte (v / 256) :: byte v :: buff.drop (n + 4)⟩) := by
  subst hp
  have h1 : ¬ ((buff.length : Int) - n < 4) := by omega
  have h2 : ¬ (buff.length - n < 4) := by omega
  simp [WriteUint32, Left, h1, h2, sliceFrom_natCast buff n (by omega), storeFrom_natCast,
    BigEndian.PutUint32]

theorem BigEndianStreamImpl.ReadUint32_at_big (p : Int) (buff : List Byte) (n : Nat)
    (b0 b1 b2 b3 : Byte) (post : List Byte)
    (hp : p = n) (h : buff.drop n = b0 :: b1 :: b2 :: b3 :: post) :
    (BigEndianStreamImpl.mk p buff).ReadUint32
      = (.ok (b0.val * 16777216 + b1.val * 65536 + b2.val * 256 + b3.val), ⟨p + 4, buff⟩) := by
  subst hp
  have hl : n + 4 ≤ buff.length := by
    have := congrArg List.length h
    simp at this
    omega
  have h1 : ¬ ((buff.length : Int) - n < 4) := by omega
  simp only [ReadUint32, Left, h1, if_false]
  rw [sliceFrom_natCast _ _ (by omega), h]
  simp [BigEndian.Uint32]

theorem BigEndianStreamImpl.ReadUint32_ok_inv_big (impl impl' : BigEndianStreamImpl) (v : Nat)
    (h : impl.ReadUint32 = (.ok v, impl')) :
    4 ≤ impl.Left ∧ impl' = { impl with pos := impl.pos + 4 } := by
  unfold ReadUint32 at h
  split at h
  · simp at h
  · split at h
    · simp at h
    · simp only [Prod.mk.injEq] at h
      exact ⟨by omega, h.2.symm⟩

theorem BigEndianStreamImpl.WriteUint64_at_big (p : Int) (buff : List Byte) (n v : Nat)
    (hp : p = n) (h : n + 8 ≤ buff.length) :
    (BigEndianStreamImpl.mk p buff).WriteUint64 v
      = (.ok (), ⟨p + 8,
          buff.take n ++ byte (v / 72057594037927936) :: byte (v / 281474976710656) :: byte (v / 1099511627776)
          :: byte (v / 4294967296) :: byte (v / 16777216) :: byte (v / 65536) :: byte (v / 256) :: byte v :: buff.drop (n + 8)⟩) := by
  subst hp
  have h1 : ¬ ((buff.length : Int) - n < 8) := by omega
  have h2 : ¬ (buff.length - n < 8) := by omega
  simp [WriteUint64, Left, h1, h2, sliceFrom_natCast buff n (by omega), storeFrom_natCast,
    BigEndian.PutUint64]

theorem BigEndianStreamImpl.ReadUint64_at_big (p : Int) (buff : List Byte) (n : Nat)
    (b0 b1 b2 b3 b4 b5 b6 b7 : Byte) (post : List Byte)
    (hp : p = n) (h : buff.drop n = b0 :: b1 :: b2 :: b3 :: b4 :: b5 :: b6 :: b7 :: post) :
    (BigEndianStreamImpl.mk p buff).ReadUint64
      = (.ok (b0.val * 72057594037927936 + b1.val * 281474976710656 + b2.val * 1099511627776 + b3.val * 4294967296
          + b4.val * 16777216 + b5.val * 65536 + b6.val * 256 + b7.val), ⟨p + 8, buff⟩) := by
  subst hp
  have hl : n + 8 ≤ buff.length := by
    have := congrArg List.length h
    simp at this
    omega
  have h1 : ¬ ((buff.length : Int) - n < 8) := by omega
  simp only [ReadUint64, Left, h1, if_false]
  rw [sliceFrom_natCast _ _ (by omega), h]
  simp [BigEndian.Uint64]

theorem BigEndianStreamImpl.ReadUint64_ok_inv_big (impl impl' : BigEndianStreamImpl) (v : Nat)
    (h : impl.ReadUint64 = (.ok v, impl')) :
    8 ≤ impl.Left ∧ impl' = { impl with pos := impl.pos + 8 } := by
  unfold ReadUint64 at h
  split at h
  · simp at h
  · split at h
    · simp at h
    · simp only [Prod.mk.injEq] at h
      exact ⟨by omega, h.2.symm⟩

theorem LittleEndianStreamImpl.WriteUint16_at_little (p : Int) (buff : List Byte) (n v : Nat)
    (hp : p = n) (h : n + 2 ≤ buff.length) :
    (LittleEndianStreamImpl.mk p buff).WriteUint16 v
      = (.ok (), ⟨p + 2,
          buff.take n ++ byte v :: byte (v / 256) :: buff.drop (n + 2)⟩) := by
  subst hp
  have h1 : ¬ ((buff.length : Int) - n < 2) := by omega
  have h2 : ¬ (buff.length - n < 2) := by omega
  simp [WriteUint16, Left, h1, h2, sliceFrom_natCast buff n (by omega), storeFrom_natCast,
    LittleEndian.PutUint16]

theorem LittleEndianStreamImpl.ReadUint16_at_little (p : Int) (buff : List Byte) (n : Nat)
    (b0 b1 : Byte) (post : List Byte)
    (hp : p = n) (h : buff.drop n = b0 :: b1 :: post) :
    (LittleEndianStreamImpl.mk p buff).ReadUint16
      = (.ok (b0.val + b1.val * 256), ⟨p + 2, buff⟩) := by
  subst hp
  have hl : n + 2 ≤ buff.length := by
    have := congrArg List.length h
    simp at this
    omega
  have h1 : ¬ ((buff.length : Int) - n < 2) := by omega
  simp only [ReadUint16, Left, h1, if_false]
  rw [sliceFrom_natCast _ _ (by omega), h]
  simp [LittleEndian.Uint16]

theorem LittleEndianStreamImpl.ReadUint16_ok_inv_little (impl impl' : LittleEndianStreamImpl) (v : Nat)
    (h : impl.ReadUint16 = (.ok v, impl')) :
    2 ≤ impl.Left ∧ impl' = { impl with pos := impl.pos + 2 } := by
  unfold ReadUint16 at h
  split at h
  · simp at h
  · split at h
    · simp at h
    · simp only [Prod.mk.injEq] at h
      exact ⟨by omega, h.2.symm⟩

theorem LittleEndianStreamImpl.WriteUint32_at_little (p : Int) (buff : List Byte) (n v : Nat)
    (hp : p = n) (h : n + 4 ≤ buff.length) :
    (LittleEndianStreamImpl.mk p buff).WriteUint32 v
      = (.ok (), ⟨p + 4,
          buff.take n ++ byte v :: byte (v / 256) :: byte (v / 65536) :: byte (v / 16777216) :: buff.drop (n + 4)⟩) := by
  subst hp
  have h1 : ¬ ((buff.length : Int) - n < 4) := by omega
  have h2 : ¬ (buff.length - n < 4) := by omega
  simp [WriteUint32, Left, h1, h2, sliceFrom_natCast buff n (by omega), storeFrom_natCast,
    LittleEndian.PutUint32]

theorem LittleEndianStreamImpl.ReadUint32_at_little (p : Int) (buff : List Byte) (n : Nat)
    (b0 b1 b2 b3 : Byte) (post : List Byte)
    (hp : p = n) (h : buff.drop n = b0 :: b1 :: b2 :: b3 :: post) :
    (LittleEndianStreamImpl.mk p buff).ReadUint32
      = (.ok (b0.val + b1.val * 256 + b2.val * 65536 + b3.val * 16777216), ⟨p + 4, buff⟩) := by
  subst hp
  have hl : n + 4 ≤ buff.length := by
    have := congrArg List.length h
    simp at this
    omega
  have h1 : ¬ ((buff.length : Int) - n < 4) := by omega
  simp only [ReadUint32, Left, h1, if_false]
  rw [sliceFrom_natCast _ _ (by omega), h]
  simp [LittleEndian.Uint32]

theorem LittleEndianStreamImpl.ReadUint32_ok_inv_little (impl impl' : LittleEndianStreamImpl) (v : Nat)
    (h : impl.ReadUint32 = (.ok v, impl')) :
    4 ≤ impl.Left ∧ impl' = { impl with pos := impl.pos + 4 } := by
  unfold ReadUint32 at h
  split at h
  · simp at h
  · split at h
    · simp at h
    · simp only [Prod.mk.injEq] at h
      exact ⟨by omega, h.2.symm⟩

theorem LittleEndianStreamImpl.WriteUint64_at_little (p : Int) (buff : List Byte) (n v : Nat)
    (hp : p = n) (h : n + 8 ≤ buff.length) :
    (LittleEndianStreamImpl.mk p buff).WriteUint64 v
      = (.ok (), ⟨p + 8,
          buff.take n ++ byte v :: byte (v / 256) :: byte (v / 65536) :: byte (v / 16777216) :: byte (v / 4294967296)
          :: byte (v / 1099511627776) :: byte (v / 281474976710656) :: byte (v / 72057594037927936) :: buff.drop (n + 8)⟩) := by
  subst hp
  have h1 : ¬ ((buff.length : Int) - n < 8) := by omega
  have h2 : ¬ (buff.length - n < 8) := by omega
  simp [WriteUint64, Left, h1, h2, sliceFrom_natCast buff n (by omega), storeFrom_natCast,
    LittleEndian.PutUint64]

theorem LittleEndianStreamImpl.ReadUint64_at_little (p : Int) (buff : List Byte) (n : Nat)
    (b0 b1 b2 b3 b4 b5 b6 b7 : Byte) (post : List Byte)
    (hp : p = n) (h : buff.drop n = b0 :: b1 :: b2 :: b3 :: b4 :: b5 :: b6 :: b7 :: post) :
    (LittleEndianStreamImpl.mk p buff).ReadUint64
      = (.ok (b0.val + b1.val * 256 + b2.val * 65536 + b3.val * 16777216
          + b4.val * 4294967296 + b5.val * 1099511627776 + b6.val * 281474976710656 + b7.val * 72057594037927936), ⟨p + 8, buff⟩) := by
  subst hp
  have hl : n + 8 ≤ buff.length := by
    have := congrArg List.length h
    simp at this
    omega
  have h1 : ¬ ((buff.length : Int) - n < 8) := by omega
  simp only [ReadUint64, Left, h1, if_false]
  rw [sliceFrom_natCast _ _ (by omega), h]
  simp [LittleEndian.Uint64]

theorem LittleEndianStreamImpl.ReadUint64_ok_inv_little (impl impl' : LittleEndianStreamImpl) (v : Nat)
    (h : impl.ReadUint64 = (.ok v, impl')) :
    8 ≤ impl.Left ∧ impl' = { impl with pos := impl.pos + 8 } := by
  unfold ReadUint64 at h
  split at h
  · simp at h
  · split at h
    · simp at h
    · simp only [Prod.mk.injEq] at h
      exact ⟨by omega, h.2.symm⟩

/-! ## The cursor codec: round trip, overflow, position -/

/-- Claim C2, codec round trip.  For both cursor variants, every width of 16, 32 or 64 bits,
every value `v` of that width and every cursor with a position `0 ≤ p` and at least the width
in bytes left: writing `v` succeeds, and reading the same width with a cursor of the same
variant over the resulting buffer at position `p` returns `v` without error. -/
theorem codec_round_trip (s : Stream) (w : Width) (v : Nat)
    (hv : v < 2 ^ w.bits) (hp : 0 ≤ s.pos) (hl : w.bytes ≤ s.Left) :
    (s.WriteUint w v).1 = .ok () ∧
    (((s.WriteUint w v).2.atPos s.pos).ReadUint w).1 = .ok v := by
  obtain ⟨n, hn⟩ := Int.eq_ofNat_of_zero_le hp
  cases s with
  | big impl =>
    obtain ⟨p, buff⟩ := impl
    simp only [Stream.pos] at hn
    have hlen : n + w.bytes ≤ buff.length := by
      simp only [Stream.Left, BigEndianStreamImpl.Left] at hl; omega
    have htake : (buff.take n).length = n := by
      have : 0 ≤ w.bytes := by cases w <;> simp [Width.bytes]
      simp; omega
    cases w <;> simp only [Width.bytes] at hlen <;>
      simp only [Stream.WriteUint, Stream.WriteUint16, Stream.WriteUint32, Stream.WriteUint64,
        Stream.call, Stream.ReadUint, Stream.ReadUint16, Stream.ReadUint32, Stream.ReadUint64,
        Stream.atPos, Stream.pos]
    · rw [BigEndianStreamImpl.WriteUint16_at_big _ _ n v hn (by omega)]
      refine ⟨rfl, ?_⟩
      rw [BigEndianStreamImpl.ReadUint16_at_big _ _ n _ _ _ hn (List.drop_left' htake)]
      simp [Width.bits] at hv ⊢
      omega
    · rw [BigEndianStreamImpl.WriteUint32_at_big _ _ n v hn (by omega)]
      refine ⟨rfl, ?_⟩
      rw [BigEndianStreamImpl.ReadUint32_at_big _ _ n _ _ _ _ _ hn (List.drop_left' htake)]
      simp [Width.bits] at hv ⊢
      omega
    · rw [BigEndianStreamImpl.WriteUint64_at_big _ _ n v hn (by omega)]
      refine ⟨rfl, ?_⟩
      rw [BigEndianStreamImpl.ReadUint64_at_big _ _ n _ _ _ _ _ _ _ _ _ hn (List.drop_left' htake)]
      simp [Width.bits] at hv ⊢
      omega
  | little impl =>
    obtain ⟨p, buff⟩ := impl
    simp only [Stream.pos] at hn
    have hlen : n + w.bytes ≤ buff.length := by
      simp only [Stream.Left, LittleEndianStreamImpl.Left] at hl; omega
    have htake : (buff.take n).length = n := by
      have : 0 ≤ w.bytes := by cases w <;> simp [Width.bytes]
      simp; omega
    cases w <;> simp only [Width.bytes] at hlen <;>
      simp only [Stream.WriteUint, Stream.WriteUint16, Stream.WriteUint32, Stream.WriteUint64,
        Stream.call, Stream.ReadUint, Stream.ReadUint16, Stream.ReadUint32, Stream.ReadUint64,
        Stream.atPos, Stream.pos]
    · rw [LittleEndianStreamImpl.WriteUint16_at_little _ _ n v hn (by omega)]
      refine ⟨rfl, ?_⟩
      rw [LittleEndianStreamImpl.ReadUint16_at_little _ _ n _ _ _ hn (List.drop_left' htake)]
      simp [Width.bits] at hv ⊢
      omega
    · rw [LittleEndianStreamImpl.WriteUint32_at_little _ _ n v hn (by omega)]
      refine ⟨rfl, ?_⟩
      rw [LittleEndianStreamImpl.ReadUint32_at_little _ _ n _ _ _ _ _ hn (List.drop_left' htake)]
      simp [Width.bits] at hv ⊢
      omega
    · rw [LittleEndianStreamImpl.WriteUint64_at_little _ _ n v hn (by omega)]
      refine ⟨rfl, ?_⟩
      rw [LittleEndianStreamImpl.ReadUint64_at_little _ _ n _ _ _ _ _ _ _ _ _ hn (List.drop_left' htake)]
      simp [Width.bits] at hv ⊢
      omega

/-- The round trip of C2 for a 16-bit value on a little-endian cursor at position 1. -/
theorem codec_round_trip_witness :
    0xBEEF < 2 ^ Width.w16.bits ∧ 0 ≤ (Stream.little ⟨1, [1, 2, 3, 4]⟩).pos ∧
    Width.w16.bytes ≤ (Stream.little ⟨1, [1, 2, 3, 4]⟩).Left ∧
    ((Stream.little ⟨1, [1, 2, 3, 4]⟩).WriteUint .w16 0xBEEF).1 = .ok () ∧
    ((((Stream.little ⟨1, [1, 2, 3, 4]⟩).WriteUint .w16 0xBEEF).2.atPos
      (Stream.little ⟨1, [1, 2, 3, 4]⟩).pos).ReadUint .w16).1 = .ok 0xBEEF :=
  ⟨by decide, by decide, by decide,
    codec_round_trip (Stream.little ⟨1, [1, 2, 3, 4]⟩) .w16 0xBEEF (by decide) (by decide)
      (by decide)⟩

/-- Claim C3, overflow is atomic.  For both cursor variants and every read or write
operation whose width exceeds `Left()`, the operation returns `ErrBuffOverflow` and the cursor
afterwards is the cursor before (same position, same bytes), so that any following operation
behaves as if the failed one had not been called. -/
theorem overflow_is_atomic (s : Stream) (op : StreamOp) (h : s.Left < op.width) :
    s.run op = (.error .ErrBuffOverflow, s) ∧ ∀ op2, (s.run op).2.run op2 = s.run op2 := by
  have key : s.run op = (.error .ErrBuffOverflow, s) := by
    cases s <;> cases op <;>
      simp only [Stream.Left, BigEndianStreamImpl.Left, LittleEndianStreamImpl.Left,
        StreamOp.width] at h <;>
      simp [Stream.run, Stream.call, Result.toOp,
        Stream.ReadByte, Stream.ReadUint16, Stream.ReadUint32, Stream.ReadUint64,
        Stream.ReadBuff, Stream.CopyBuff, Stream.WriteByte, Stream.WriteUint16,
        Stream.WriteUint32, Stream.WriteUint64, Stream.WriteBuff,
        BigEndianStreamImpl.ReadByte, BigEndianStreamImpl.ReadUint16,
        BigEndianStreamImpl.ReadUint32, BigEndianStreamImpl.ReadUint64,
        BigEndianStreamImpl.ReadBuff, BigEndianStreamImpl.CopyBuff,
        BigEndianStreamImpl.WriteByte, BigEndianStreamImpl.WriteUint16,
        BigEndianStreamImpl.WriteUint32, BigEndianStreamImpl.WriteUint64,
        BigEndianStreamImpl.WriteBuff, BigEndianStreamImpl.Left,
        LittleEndianStreamImpl.ReadByte, LittleEndianStreamImpl.ReadUint16,
        LittleEndianStreamImpl.ReadUint32, LittleEndianStreamImpl.ReadUint64,
        LittleEndianStreamImpl.ReadBuff, LittleEndianStreamImpl.CopyBuff,
        LittleEndianStreamImpl.WriteByte, LittleEndianStreamImpl.WriteUint16,
        LittleEndianStreamImpl.WriteUint32, LittleEndianStreamImpl.WriteUint64,
        LittleEndianStreamImpl.WriteBuff, LittleEndianStreamImpl.Left, h]
  exact ⟨key, fun op2 => by rw [key]⟩

/-- The overflow of C3 for a two-byte write with one byte left. -/
theorem overflow_is_atomic_witness :
    (Stream.little ⟨1, [7, 9]⟩).Left < (StreamOp.WriteUint16 5).width ∧
    (Stream.little ⟨1, [7, 9]⟩).run (.WriteUint16 5)
      = (.error .ErrBuffOverflow, Stream.little ⟨1, [7, 9]⟩) ∧
    ∀ op2, ((Stream.little ⟨1, [7, 9]⟩).run (.WriteUint16 5)).2.run op2
      = (Stream.little ⟨1, [7, 9]⟩).run op2 :=
  ⟨by decide, overflow_is_atomic _ _ (by decide)⟩

/-- Every method except `CopyBuff` moves the cursor by its width when it
succeeds. -/
theorem run_advances (s : Stream) (op : StreamOp) (hop : ∀ b, op ≠ .CopyBuff b)
    (v : OpValue) (h : (s.run op).1 = .ok v) : (s.run op).2.pos = s.pos + op.width := by
  cases s <;> cases op <;>
    first
    | exact absurd rfl (hop _)
    | (simp only [Stream.run, Stream.call, Result.toOp,
        Stream.ReadByte, Stream.ReadUint16, Stream.ReadUint32, Stream.ReadUint64,
        Stream.ReadBuff, Stream.WriteByte, Stream.WriteUint16,
        Stream.WriteUint32, Stream.WriteUint64, Stream.WriteBuff,
        BigEndianStreamImpl.ReadByte, BigEndianStreamImpl.ReadUint16,
        BigEndianStreamImpl.ReadUint32, BigEndianStreamImpl.ReadUint64,
        BigEndianStreamImpl.ReadBuff,
        BigEndianStreamImpl.WriteByte, BigEndianStreamImpl.WriteUint16,
        BigEndianStreamImpl.WriteUint32, BigEndianStreamImpl.WriteUint64,
        BigEndianStreamImpl.WriteBuff,
        LittleEndianStreamImpl.ReadByte, LittleEndianStreamImpl.ReadUint16,
        LittleEndianStreamImpl.ReadUint32, LittleEndianStreamImpl.ReadUint64,
        LittleEndianStreamImpl.ReadBuff,
        LittleEndianStreamImpl.WriteByte, LittleEndianStreamImpl.WriteUint16,
        LittleEndianStreamImpl.WriteUint32, LittleEndianStreamImpl.WriteUint64,
        LittleEndianStreamImpl.WriteBuff, StreamOp.width, Stream.pos] at h ⊢
       repeat' split at h
       all_goals first
         | (simp [Result.toOp] at h; done)
         | (simp_all [Stream.pos]; done)
         | (repeat' split
            all_goals simp_all [Stream.pos]))

/-- Claim C4, evaluated where it fails.  On a cursor at position 0 over the bytes `1 2 3`,
`CopyBuff` with a destination of two bytes succeeds and copies `1 2`, and leaves the position at
0 in both variants, whereas `ReadBuff(2)` on the same cursor moves it to 2. -/
theorem copyBuff_keeps_position :
    (Stream.big ⟨0, [1, 2, 3]⟩).run (.CopyBuff [0, 0])
      = (.ok (.bytes [1, 2]), Stream.big ⟨0, [1, 2, 3]⟩) ∧
    (Stream.little ⟨0, [1, 2, 3]⟩).run (.CopyBuff [0, 0])
      = (.ok (.bytes [1, 2]), Stream.little ⟨0, [1, 2, 3]⟩) ∧
    (Stream.big ⟨0, [1, 2, 3]⟩).run (.ReadBuff 2)
      = (.ok (.bytes [1, 2]), Stream.big ⟨2, [1, 2, 3]⟩) := by decide

/-! ## Lemmas on the framing protocol -/

theorem ioReadFull_ok (conn : Conn) (buf : List Byte) (h : buf.length ≤ conn.input.length) :
    ioReadFull conn buf
      = (.ok buf.length, conn.input.take buf.length,
          { conn with input := conn.input.drop buf.length }) := by
  simp [ioReadFull, h]

/-- A slice that `parseHeader` accepts has at least 12 bytes. -/
theorem parseHeader_ok_length (b : List Byte) (H : SWPacketHeader)
    (h : parseHeader b = .ok H) : 12 ≤ b.length := by
  unfold parseHeader at h
  simp only at h
  split at h
  · rename_i _ v1 s1 h1
    obtain ⟨l1, rfl⟩ := BigEndianStreamImpl.ReadUint16_ok_inv_big _ _ _ h1
    split at h
    · rename_i _ v2 s2 h2
      obtain ⟨l2, rfl⟩ := BigEndianStreamImpl.ReadUint16_ok_inv_big _ _ _ h2
      split at h
      · rename_i _ v3 s3 h3
        obtain ⟨l3, rfl⟩ := BigEndianStreamImpl.ReadUint32_ok_inv_big _ _ _ h3
        split at h
        · rename_i _ v4 s4 h4
          obtain ⟨l4, rfl⟩ := BigEndianStreamImpl.ReadUint32_ok_inv_big _ _ _ h4
          simp only [BigEndianStreamImpl.Left, NewBigEndianStream] at l1 l2 l3 l4
          omega
        · exact absurd h (Result.fail_ne_ok _ _)
      · exact absurd h (Result.fail_ne_ok _ _)
    · exact absurd h (Result.fail_ne_ok _ _)
  · exact absurd h (Result.fail_ne_ok _ _)

/-- The header that `parseHeader` reads from twelve given bytes. -/
theorem parseHeader_cons (b0 b1 b2 b3 b4 b5 b6 b7 b8 b9 b10 b11 : Byte) (rest : List Byte) :
    parseHeader (b0 :: b1 :: b2 :: b3 :: b4 :: b5 :: b6 :: b7 :: b8 :: b9 :: b10 :: b11 :: rest)
      = .ok { Flag := b0.val * 256 + b1.val, PacketFlag := b2.val * 256 + b3.val,
              BodyLength := b4.val * 16777216 + b5.val * 65536 + b6.val * 256 + b7.val,
              SrcLength := b8.val * 16777216 + b9.val * 65536 + b10.val * 256 + b11.val } := by
  have r1 := BigEndianStreamImpl.ReadUint16_at_big 0
    (b0 :: b1 :: b2 :: b3 :: b4 :: b5 :: b6 :: b7 :: b8 :: b9 :: b10 :: b11 :: rest)
    0 b0 b1 _ rfl rfl
  have r2 := BigEndianStreamImpl.ReadUint16_at_big (0 + 2)
    (b0 :: b1 :: b2 :: b3 :: b4 :: b5 :: b6 :: b7 :: b8 :: b9 :: b10 :: b11 :: rest)
    2 b2 b3 _ (by decide) rfl
  have r3 := BigEndianStreamImpl.ReadUint32_at_big (0 + 2 + 2)
    (b0 :: b1 :: b2 :: b3 :: b4 :: b5 :: b6 :: b7 :: b8 :: b9 :: b10 :: b11 :: rest)
    4 b4 b5 b6 b7 _ (by decide) rfl
  have r4 := BigEndianStreamImpl.ReadUint32_at_big (0 + 2 + 2 + 4)
    (b0 :: b1 :: b2 :: b3 :: b4 :: b5 :: b6 :: b7 :: b8 :: b9 :: b10 :: b11 :: rest)
    8 b8 b9 b10 b11 _ (by decide) rfl
  simp only [parseHeader, NewBigEndianStream, r1, r2, r3, r4]

/-- A list of at least twelve bytes, taken apart. -/
theorem exists_cons12 (l : List Byte) (h : 12 ≤ l.length) :
    ∃ b0 b1 b2 b3 b4 b5 b6 b7 b8 b9 b10 b11 rest,
      l = b0 :: b1 :: b2 :: b3 :: b4 :: b5 :: b6 :: b7 :: b8 :: b9 :: b10 :: b11 :: rest := by
  match l, h with
  | b0 :: b1 :: b2 :: b3 :: b4 :: b5 :: b6 :: b7 :: b8 :: b9 :: b10 :: b11 :: rest, _ =>
    exact ⟨b0, b1, b2, b3, b4, b5, b6, b7, b8, b9, b10, b11, rest, rfl⟩

/-- The header of a slice depends on its first twelve bytes only. -/
theorem parseHeader_take (l : List Byte) (h : 12 ≤ l.length) :
    parseHeader (l.take 12) = parseHeader l := by
  obtain ⟨b0, b1, b2, b3, b4, b5, b6, b7, b8, b9, b10, b11, rest, rfl⟩ := exists_cons12 l h
  simp only [List.take_succ_cons, List.take_zero, parseHeader_cons]

/-- One round of the loop of `ReadPacket` on an input that still holds a whole
header: what the round does is decided by the header alone. -/
theorem readPacketLoop_succ (maxBody fuel : Nat) (conn : Conn) (arr : List Byte)
    (H : SWPacketHeader) (ha : 12 ≤ arr.length)
    (hH : parseHeader (conn.input.take 12) = .ok H) :
    readPacketLoop maxBody (fuel + 1) conn arr =
      if H.Flag = ControlPacketType then
        if conn.writeErr then
          some (.error .ErrConnWrite, conn.input.take 12 ++ arr.drop 12,
            { conn with input := conn.input.drop 12 })
        else
          readPacketLoop maxBody fuel
            { conn with input := conn.input.drop 12, output := conn.output ++ controlPacket }
            (conn.input.take 12 ++ arr.drop 12)
      else if H.Flag = DataPacketType then
        if H.BodyLength ≥ maxBody then
          some (.error .ErrBodyTooBig, conn.input.take 12 ++ arr.drop 12,
            { conn with input := conn.input.drop 12 })
        else
          some (.ok H, conn.input.take 12 ++ arr.drop 12,
            { conn with input := conn.input.drop 12 })
      else
        some (.error .ErrUnknwonPacketHeader, conn.input.take 12 ++ arr.drop 12,
          { conn with input := conn.input.drop 12 }) := by
  have hi : 12 ≤ conn.input.length := by
    have := parseHeader_ok_length _ _ hH
    simp at this
    exact this
  have hlen : (arr.take 12).length = 12 := by simp; omega
  have hr := ioReadFull_ok conn (arr.take 12) (by omega)
  rw [hlen] at hr
  have ht : (conn.input.take 12 ++ arr.drop 12).take 12 = conn.input.take 12 := by
    rw [List.take_left']
    simp; omega
  rw [readPacketLoop]
  simp only [show ¬ arr.length < 12 by omega, if_false, hr, ht, hH]
  by_cases hc : H.Flag = ControlPacketType
  · by_cases hw : conn.writeErr = true
    · simp [hc, hw, Conn.Write, Result.fail]
    · simp [hc, hw, Conn.Write]
  · simp only [hc, if_false]

theorem parseHeader_ok_of_length (l : List Byte) (h : 12 ≤ l.length) :
    ∃ H, parseHeader l = .ok H := by
  obtain ⟨b0, b1, b2, b3, b4, b5, b6, b7, b8, b9, b10, b11, rest, rfl⟩ := exists_cons12 l h
  exact ⟨_, parseHeader_cons _ _ _ _ _ _ _ _ _ _ _ _ _⟩

/-- One round of the loop on an input that ends before a whole header. -/
theorem readPacketLoop_short (maxBody fuel : Nat) (conn : Conn) (arr : List Byte)
    (ha : 12 ≤ arr.length) (hi : conn.input.length < 12) :
    readPacketLoop maxBody (fuel + 1) conn arr =
      some (.error (if conn.input.length = 0 then .EOF else .ErrUnexpectedEOF),
        (ioReadFull conn (arr.take 12)).2.1 ++ arr.drop 12,
        (ioReadFull conn (arr.take 12)).2.2) := by
  have hlen : (arr.take 12).length = 12 := by simp; omega
  rw [readPacketLoop]
  simp only [show ¬ arr.length < 12 by omega, if_false]
  by_cases h0 : conn.input.length = 0
  · simp [ioReadFull, hlen, h0, Result.fail, show ¬ (12 ≤ conn.input.length) by omega]
  · simp [ioReadFull, hlen, h0, Result.fail, show ¬ (12 ≤ conn.input.length) by omega]

/-- The loop of `ReadPacket` does not depend on the fuel once there is more of
it than input. -/
theorem readPacketLoop_fuel (maxBody : Nat) :
    ∀ (f f' : Nat) (conn : Conn) (arr : List Byte),
      conn.input.length < f → conn.input.length < f' →
      readPacketLoop maxBody f conn arr = readPacketLoop maxBody f' conn arr := by
  intro f
  induction f with
  | zero => intro f' conn arr h; omega
  | succ f ih =>
    intro f' conn arr h h'
    obtain _ | f' := f'
    · omega
    by_cases ha : arr.length < 12
    · rw [readPacketLoop, readPacketLoop]
      simp [ha]
    · by_cases hi : conn.input.length < 12
      · rw [readPacketLoop_short _ _ _ _ (by omega) hi, readPacketLoop_short _ _ _ _ (by omega) hi]
      · obtain ⟨H, hH⟩ := parseHeader_ok_of_length (conn.input.take 12) (by simp; omega)
        rw [readPacketLoop_succ _ _ _ _ H (by omega) hH,
          readPacketLoop_succ _ _ _ _ H (by omega) hH]
        have := ih f' { conn with input := conn.input.drop 12,
                                   output := conn.output ++ controlPacket }
          (conn.input.take 12 ++ arr.drop 12) (by simp; omega) (by simp; omega)
        rw [this]

/-- With more fuel than input the loop of `ReadPacket` comes to an end. -/
theorem readPacketLoop_isSome (maxBody : Nat) :
    ∀ (f : Nat) (conn : Conn) (arr : List Byte),
      conn.input.length < f → (readPacketLoop maxBody f conn arr).isSome = true := by
  intro f
  induction f with
  | zero => intro conn arr h; omega
  | succ f ih =>
    intro conn arr h
    by_cases ha : arr.length < 12
    · rw [readPacketLoop]
      simp [ha]
    · by_cases hi : conn.input.length < 12
      · rw [readPacketLoop_short _ _ _ _ (by omega) hi]
        rfl
      · obtain ⟨H, hH⟩ := parseHeader_ok_of_length (conn.input.take 12) (by simp; omega)
        rw [readPacketLoop_succ _ _ _ _ H (by omega) hH]
        have := ih { conn with input := conn.input.drop 12,
                                output := conn.output ++ controlPacket }
          (conn.input.take 12 ++ arr.drop 12) (by simp; omega)
        split
        · split
          · rfl
          · exact this
        · split
          · split <;> rfl
          · rfl

/-- The function `ReadPacket` returns, whatever the connection delivers. -/
theorem ReadPacket_isSome {P : Type} (d : ProtocolImpl P) (maxBody : Nat) (conn : Conn)
    (buff : Slice) : (d.ReadPacket maxBody conn buff).isSome = true := by
  unfold ProtocolImpl.ReadPacket
  simp only
  have := readPacketLoop_isSome maxBody (conn.input.length + 1) conn
    (if buff.cap < 12 then make 12 else buff).arr (by omega)
  obtain ⟨x, hx⟩ := Option.isSome_iff_exists.mp this
  rw [hx]
  obtain ⟨r, arr, c⟩ := x
  cases r with
  | ok header =>
    rfl
  | error e => rfl
  | panic => rfl

theorem scratch12 (buff : Slice) : 12 ≤ (if buff.cap < 12 then make 12 else buff).arr.length := by
  split
  · simp [make]
  · simp only [Slice.cap] at *; omega

theorem Result.fail_eq_error {α β : Type} (r : Result α) (e : Err)
    (h : (r.fail : Result β) = .error e) : r = .error e := by
  cases r <;> simp_all [Result.fail]

theorem ioReadFull_error (conn : Conn) (buf : List Byte) (e : Err)
    (h : (ioReadFull conn buf).1 = .error e) : e = .EOF ∨ e = .ErrUnexpectedEOF := by
  unfold ioReadFull at h
  split at h
  · simp at h
  · split at h
    · simp at h; exact Or.inl h.symm
    · simp at h; exact Or.inr h.symm

/-- Claim C7, unknown frame marker.  When the first 12 bytes of the input parse as a header
whose flag is neither `0xFDFD` nor `0xFEFE`, `ReadPacket` fails with `ErrUnknwonPacketHeader`
(so returns no packet); the connection afterwards has lost the 12 header bytes and nothing
else, and its output is unchanged. -/
theorem ReadPacket_unknown_header {P : Type} (d : ProtocolImpl P) (maxBody : Nat) (conn : Conn)
    (buff : Slice) (H : SWPacketHeader)
    (hH : parseHeader (conn.input.take 12) = .ok H)
    (hd : H.Flag ≠ DataPacketType) (hc : H.Flag ≠ ControlPacketType) :
    d.ReadPacket maxBody conn buff
      = some (.error .ErrUnknwonPacketHeader, { conn with input := conn.input.drop 12 }) := by
  unfold ProtocolImpl.ReadPacket
  simp only
  rw [readPacketLoop_succ _ _ _ _ H (scratch12 buff) hH, if_neg hc, if_neg hd]
  simp [Result.fail]

/-- The body phase of `ReadPacket` fails with `ErrBodyTooBig` only if the body
reader does. -/
theorem readPacketBody_ne_tooBig {P : Type} (d : ProtocolImpl P) (H : SWPacketHeader)
    (buff : Slice) (conn : Conn)
    (hR : ∀ b, d.Reader.ReadBody b ≠ .error .ErrBodyTooBig) :
    (d.readPacketBody H buff conn).1 ≠ .error .ErrBodyTooBig := by
  unfold ProtocolImpl.readPacketBody
  simp only
  generalize (if buff.cap < H.BodyLength then make ((H.BodyLength + 12) % 4294967296)
    else buff) = B
  intro hc
  split at hc
  · simp at hc
  · split at hc
    · split at hc
      · simp at hc
      · exact hR _ (Result.fail_eq_error _ _ hc)
    · rename_i r b c' heq
      have h1 := Result.fail_eq_error _ _ hc
      have h2 := ioReadFull_error _ _ .ErrBodyTooBig (by rw [heq]; exact h1)
      simp at h2

/-- Claim C5, size bound on decode.  When the first 12 bytes of the input parse as a header
`H` with the data-frame flag, and the body reader itself never reports `ErrBodyTooBig` (the
default one does not, see `DefaultBodyReadWriter.ReadBody_ne_tooBig`), then `ReadPacket`
returns, it fails with `ErrBodyTooBig` if and only if `maxBody ≤ H.BodyLength`, and in that case
the connection has lost the 12 header bytes and nothing else. -/
theorem ReadPacket_body_size_bound {P : Type} (d : ProtocolImpl P) (maxBody : Nat) (conn : Conn)
    (buff : Slice) (H : SWPacketHeader)
    (hH : parseHeader (conn.input.take 12) = .ok H) (hF : H.Flag = DataPacketType)
    (hR : ∀ b, d.Reader.ReadBody b ≠ .error .ErrBodyTooBig) :
    (d.ReadPacket maxBody conn buff).isSome = true ∧
    ((∃ c, d.ReadPacket maxBody conn buff = some (.error .ErrBodyTooBig, c))
      ↔ maxBody ≤ H.BodyLength) ∧
    (maxBody ≤ H.BodyLength →
      d.ReadPacket maxBody conn buff
        = some (.error .ErrBodyTooBig, { conn with input := conn.input.drop 12 })) := by
  have hne : H.Flag ≠ ControlPacketType := by rw [hF]; decide
  have hrej : maxBody ≤ H.BodyLength →
      d.ReadPacket maxBody conn buff
        = some (.error .ErrBodyTooBig, { conn with input := conn.input.drop 12 }) := by
    intro hge
    unfold ProtocolImpl.ReadPacket
    simp only
    rw [readPacketLoop_succ _ _ _ _ H (scratch12 buff) hH, if_neg hne, if_pos hF, if_pos hge]
    simp [Result.fail]
  refine ⟨ReadPacket_isSome d maxBody conn buff, ⟨?_, fun hge => ⟨_, hrej hge⟩⟩, hrej⟩
  rintro ⟨c, hc⟩
  by_contra hlt
  unfold ProtocolImpl.ReadPacket at hc
  simp only at hc
  rw [readPacketLoop_succ _ _ _ _ H (scratch12 buff) hH, if_neg hne, if_pos hF, if_neg hlt] at hc
  simp only [Option.some.injEq] at hc
  exact readPacketBody_ne_tooBig d H _ _ hR (by rw [hc])

theorem Stream.ReadUint32_error (s : Stream) (e : Err) (h : (s.ReadUint32).1 = .error e) :
    e = .ErrBuffOverflow := by
  cases s with
  | big impl =>
    simp only [Stream.ReadUint32, Stream.call, BigEndianStreamImpl.ReadUint32] at h
    split at h
    · simp at h; exact h.symm
    · split at h <;> simp at h
  | little impl =>
    simp only [Stream.ReadUint32, Stream.call, LittleEndianStreamImpl.ReadUint32] at h
    split at h
    · simp at h; exact h.symm
    · split at h <;> simp at h

theorem Stream.ReadUint32_fail_error (s s' : Stream) (r : Result Nat) (e : Err)
    (heq : s.ReadUint32 = (r, s')) (h : (r.fail : Result Unit) = .error e) :
    e = .ErrBuffOverflow := by
  have h1 := Result.fail_eq_error _ _ h
  exact Stream.ReadUint32_error s e (by rw [heq]; exact h1)

/-- The function `PacketHeader.Read` fails with `ErrBuffOverflow` or not at all. -/
theorem PacketHeader.Read_error (p : PacketHeader) (s : Stream) (e : Err)
    (h : (p.Read s).1 = .error e) : e = .ErrBuffOverflow := by
  unfold PacketHeader.Read at h
  repeat' split at h
  all_goals first
    | (simp at h; done)
    | (rename_i heq; exact Stream.ReadUint32_fail_error _ _ _ _ heq h)

/-- The body reader of the default protocol never fails with `ErrBodyTooBig`. -/
theorem DefaultBodyReadWriter.ReadBody_ne_tooBig (d : DefaultBodyReadWriter) (b : List Byte) :
    d.ReadBody b ≠ .error .ErrBodyTooBig := by
  intro h
  unfold DefaultBodyReadWriter.ReadBody PacketFactory.CreatePacket at h
  simp only at h
  split at h
  · simp only [Packet.Read] at h
    split at h
    · simp at h
    · simp only at h
      repeat' split at h
      all_goals simp at h
  · rename_i r ph s' hne heq
    have h1 := Result.fail_eq_error _ _ h
    have := PacketHeader.Read_error _ _ .ErrBodyTooBig (by rw [heq]; exact h1)
    simp at this

/-- The loop of `ReadPacket` on control headers followed by a data header:
every control header is answered with `controlPacket`, the data header ends
the loop. -/
theorem readPacketLoop_controls (maxBody : Nat) (hdr tail : List Byte) (H : SWPacketHeader)
    (hlen : hdr.length = 12) (hH : parseHeader hdr = .ok H) (hF : H.Flag = DataPacketType)
    (hL : H.BodyLength < maxBody) :
    ∀ (ctrls : List (List Byte)) (out arr : List Byte) (w : Bool) (f : Nat),
      (∀ c ∈ ctrls, c.length = 12 ∧ ∃ Hc, parseHeader c = .ok Hc ∧ Hc.Flag = ControlPacketType) →
      (ctrls ≠ [] → w = false) → 12 ≤ arr.length →
      (ctrls.flatten ++ (hdr ++ tail)).length < f →
      readPacketLoop maxBody f ⟨ctrls.flatten ++ (hdr ++ tail), out, w⟩ arr
        = some (.ok H, hdr ++ arr.drop 12,
            ⟨tail, out ++ (List.replicate ctrls.length controlPacket).flatten, w⟩) := by
  have hne : H.Flag ≠ ControlPacketType := by rw [hF]; decide
  intro ctrls
  induction ctrls with
  | nil =>
    intro out arr w f _ _ ha hf
    obtain _ | f := f
    · omega
    have ht : (hdr ++ tail).take 12 = hdr := by rw [List.take_left' hlen]
    have hd : (hdr ++ tail).drop 12 = tail := by rw [List.drop_left' hlen]
    rw [readPacketLoop_succ maxBody f _ arr H ha
      (by show parseHeader (List.take 12 (([] : List (List Byte)).flatten ++ (hdr ++ tail))) = _
          rw [List.flatten_nil, List.nil_append, ht]; exact hH)]
    rw [if_neg hne, if_pos hF, if_neg (Nat.not_le.mpr hL)]
    simp [ht, hd]
  | cons c cs ih =>
    intro out arr w f hc hw ha hf
    obtain _ | f := f
    · omega
    obtain ⟨hcl, Hc, hHc, hFc⟩ := hc c (List.mem_cons_self _ _)
    have hw' : w = false := hw (by simp)
    subst hw'
    have ht : ((c :: cs).flatten ++ (hdr ++ tail)).take 12 = c := by
      rw [List.flatten_cons, List.append_assoc, List.take_left' hcl]
    have hd : ((c :: cs).flatten ++ (hdr ++ tail)).drop 12 = cs.flatten ++ (hdr ++ tail) := by
      rw [List.flatten_cons, List.append_assoc, List.drop_left' hcl]
    rw [readPacketLoop_succ maxBody f _ arr Hc ha
      (by show parseHeader (List.take 12 ((c :: cs).flatten ++ (hdr ++ tail))) = _
          rw [ht]; exact hHc)]
    rw [if_pos hFc]
    simp only [ht, hd, Bool.false_eq_true, if_false]
    have hlt : (cs.flatten ++ (hdr ++ tail)).length < f := by
      have h1 : ((c :: cs).flatten ++ (hdr ++ tail)).length
          = c.length + (cs.flatten ++ (hdr ++ tail)).length := by
        rw [List.flatten_cons, List.append_assoc, List.length_append]
      omega
    rw [ih (out ++ controlPacket) (c ++ arr.drop 12) false f
      (fun c' hc' => hc c' (List.mem_cons_of_mem _ hc')) (fun _ => rfl)
      (by rw [List.length_append, List.length_drop]; omega) hlt]
    simp [List.drop_left' hcl, List.replicate_succ]

/-- The body phase of `ReadPacket` on an input that starts with the whole
body of the frame. -/
theorem readPacketBody_ok {P : Type} (d : ProtocolImpl P) (H : SWPacketHeader) (B : Slice)
    (body rest out : List Byte) (w : Bool) (pkt : P)
    (hb : body.length = H.BodyLength) (hL : H.BodyLength + 12 < 4294967296)
    (hR : d.Reader.ReadBody body = .ok pkt) :
    ∃ buff', d.readPacketBody H B ⟨body ++ rest, out, w⟩ = (.ok (pkt, buff'), ⟨rest, out, w⟩) := by
  unfold ProtocolImpl.readPacketBody
  simp only
  have hcap : H.BodyLength ≤ (if B.cap < H.BodyLength then
      make ((H.BodyLength + 12) % 4294967296) else B).cap := by
    split
    · simp [make, Slice.cap, Nat.mod_eq_of_lt hL]
    · omega
  generalize (if B.cap < H.BodyLength then make ((H.BodyLength + 12) % 4294967296) else B) = B'
    at hcap
  simp only [Slice.cap] at hcap
  have hlen : (B'.arr.take H.BodyLength).length = body.length := by simp; omega
  have hr := ioReadFull_ok ⟨body ++ rest, out, w⟩ (B'.arr.take H.BodyLength) (by simp; omega)
  rw [hlen] at hr
  simp only [List.take_left' rfl, List.drop_left' rfl] at hr
  rw [if_neg (by simp only [Slice.cap]; omega), hr]
  simp only [← hb, List.take_left' rfl, hR]
  exact ⟨_, rfl⟩

/-- The function `ReadPacket` on control headers followed by a data frame. -/
theorem ReadPacket_after_controls {P : Type} (d : ProtocolImpl P) (maxBody : Nat)
    (ctrls : List (List Byte)) (hdr body rest out : List Byte) (w : Bool) (buff : Slice)
    (H : SWPacketHeader) (pkt : P)
    (hc : ∀ c ∈ ctrls, c.length = 12 ∧ ∃ Hc, parseHeader c = .ok Hc ∧ Hc.Flag = ControlPacketType)
    (hw : ctrls ≠ [] → w = false)
    (hlen : hdr.length = 12) (hH : parseHeader hdr = .ok H) (hF : H.Flag = DataPacketType)
    (hL : H.BodyLength < maxBody) (hmax : maxBody ≤ 4294967284)
    (hb : body.length = H.BodyLength) (hR : d.Reader.ReadBody body = .ok pkt) :
    ∃ buff', d.ReadPacket maxBody ⟨ctrls.flatten ++ (hdr ++ (body ++ rest)), out, w⟩ buff
      = some (.ok (pkt, buff'),
          ⟨rest, out ++ (List.replicate ctrls.length controlPacket).flatten, w⟩) := by
  unfold ProtocolImpl.ReadPacket
  simp only
  rw [readPacketLoop_controls maxBody hdr (body ++ rest) H hlen hH hF hL ctrls out _ w _ hc hw
    (scratch12 buff) (by omega)]
  simp only
  obtain ⟨buff', hb'⟩ := readPacketBody_ok d H
    { arr := hdr ++ List.drop 12 (if buff.cap < 12 then make 12 else buff).arr,
      len := (if buff.cap < 12 then make 12 else buff).len }
    body rest (out ++ (List.replicate ctrls.length controlPacket).flatten) w pkt hb (by omega) hR
  exact ⟨buff', by rw [hb']⟩

/-! ## Encoding a frame -/

theorem copy_length (dst src : List Byte) : (copy dst src).length = dst.length := by
  simp only [copy, List.length_append, List.length_take, List.length_drop]
  omega

theorem buildBuffer_cap (buff : Slice) (n : Nat) : n + 12 ≤ (buildBuffer buff n).arr.length := by
  unfold buildBuffer
  split
  · simp [make]
  · simp only [Slice.cap] at *; omega

theorem bodyRegion_length (buff : Slice) (n : Nat) : (bodyRegion buff n).length = n := by
  have := buildBuffer_cap buff n
  simp only [bodyRegion, List.length_take, List.length_drop]
  omega

/-- The function `BuildPacket` for a body writer that reports `n` bytes and whose write
succeeds: the frame is the header of `n`, then the body region as the writer
left it. -/
theorem BuildPacket_ok {P : Type} (d : ProtocolImpl P) (packet : P) (buff : Slice) (n : Nat)
    (hn : d.Writer.GetLength packet = n) (hlt : n < 4294967296)
    (hw : (d.Writer.Write packet (bodyRegion buff n)).1 = .ok ()) :
    d.BuildPacket packet buff
      = (.ok { arr := frameHeader n
                 ++ copy (bodyRegion buff n) (d.Writer.Write packet (bodyRegion buff n)).2.1
                 ++ (buildBuffer buff n).arr.drop (n + 12),
               len := n + 12 },
          (d.Writer.Write packet (bodyRegion buff n)).2.2) := by
  have hl : ((n : Int) + 12).toNat = n + 12 := by omega
  have hv : (((n : Int) + 12 - 12) % 4294967296).toNat = n := by omega
  have hB : (if ((buff.cap : Nat) : Int) < (n : Int) + 12 then make ((n : Int) + 12).toNat
      else buff) = buildBuffer buff n := by
    unfold buildBuffer
    rw [hl]
    by_cases h : buff.cap < n + 12
    · rw [if_pos h, if_pos (by omega)]
    · rw [if_neg h, if_neg (by omega)]
  have hcap := buildBuffer_cap buff n
  unfold bodyRegion at hw ⊢
  unfold ProtocolImpl.BuildPacket
  simp only [hn]
  rw [hB]
  simp only [hv, hl]
  generalize buildBuffer buff n = B at hcap hw ⊢
  obtain ⟨arr, len⟩ := B
  simp only at hcap hw ⊢
  obtain ⟨a0, a1, a2, a3, a4, a5, a6, a7, a8, a9, a10, a11, rest, rfl⟩ :=
    exists_cons12 arr (by omega)
  have hrest : n ≤ rest.length := by simp at hcap; omega
  have ht : List.take 12 (a0 :: a1 :: a2 :: a3 :: a4 :: a5 :: a6 :: a7 :: a8 :: a9 :: a10
      :: a11 :: rest) = [a0, a1, a2, a3, a4, a5, a6, a7, a8, a9, a10, a11] := rfl
  have hd : List.drop 12 (a0 :: a1 :: a2 :: a3 :: a4 :: a5 :: a6 :: a7 :: a8 :: a9 :: a10
      :: a11 :: rest) = rest := rfl
  have r1 : (NewBigEndianStream [a0, a1, a2, a3, a4, a5, a6, a7, a8, a9, a10, a11]).WriteUint16
      DataPacketType = (.ok (), ⟨2, [0xFD, 0xFD, a2, a3, a4, a5, a6, a7, a8, a9, a10, a11]⟩) := rfl
  have r2 : (BigEndianStreamImpl.mk 2 [0xFD, 0xFD, a2, a3, a4, a5, a6, a7, a8, a9, a10,
      a11]).WriteUint16 0
        = (.ok (), ⟨4, [0xFD, 0xFD, 0, 0, a4, a5, a6, a7, a8, a9, a10, a11]⟩) := rfl
  have r3 : (BigEndianStreamImpl.mk 4 [0xFD, 0xFD, 0, 0, a4, a5, a6, a7, a8, a9, a10,
      a11]).WriteUint32 n
        = (.ok (), ⟨8, [0xFD, 0xFD, 0, 0, byte (n / 16777216), byte (n / 65536), byte (n / 256),
            byte n, a8, a9, a10, a11]⟩) := rfl
  have r4 : (BigEndianStreamImpl.mk 8 [0xFD, 0xFD, 0, 0, byte (n / 16777216), byte (n / 65536),
      byte (n / 256), byte n, a8, a9, a10, a11]).WriteUint32 n
        = (.ok (), ⟨12, [0xFD, 0xFD, 0, 0, byte (n / 16777216), byte (n / 65536), byte (n / 256),
            byte n, byte (n / 16777216), byte (n / 65536), byte (n / 256), byte n]⟩) := rfl
  rw [if_neg (by simp [Slice.cap])]
  simp only [ht, hd, r1, r2, r3, r4]
  rw [if_neg (by simp; omega)]
  have e1 : n + 12 - 12 = n := by omega
  simp only [List.cons_append, List.nil_append, hd, e1] at hw ⊢
  have hf : frameHeader n = [0xFD, 0xFD, 0, 0, byte (n / 16777216), byte (n / 65536),
      byte (n / 256), byte n, byte (n / 16777216), byte (n / 65536), byte (n / 256), byte n] := rfl
  generalize hW : d.Writer.Write packet (List.take n rest) = W at hw ⊢
  obtain ⟨r, body', packet'⟩ := W
  simp only at hw
  subst hw
  simp only [hf, List.cons_append, List.nil_append, List.take_succ_cons, List.take_zero]
  have hd2 : List.drop (n + 12) (a0 :: a1 :: a2 :: a3 :: a4 :: a5 :: a6 :: a7 :: a8 :: a9 :: a10
      :: a11 :: rest) = List.drop n rest := by
    simp [List.drop_succ_cons]
  have hd3 : List.drop (n + 12) (253 :: 253 :: 0 :: 0 :: byte (n / 16777216) :: byte (n / 65536)
      :: byte (n / 256) :: byte n :: byte (n / 16777216) :: byte (n / 65536) :: byte (n / 256)
      :: byte n :: rest) = List.drop n rest := by
    simp [List.drop_succ_cons]
  simp [hW, hd2, hd3]

theorem frameHeader_length (n : Nat) : (frameHeader n).length = 12 := rfl

theorem parseHeader_frameHeader (n : Nat) (hlt : n < 4294967296) :
    parseHeader (frameHeader n)
      = .ok { Flag := 0xFDFD, PacketFlag := 0, BodyLength := n, SrcLength := n } := by
  have h : frameHeader n = [0xFD, 0xFD, 0, 0, byte (n / 16777216), byte (n / 65536),
      byte (n / 256), byte n, byte (n / 16777216), byte (n / 65536), byte (n / 256), byte n] := rfl
  rw [h, parseHeader_cons]
  simp only [byte_val, Result.ok.injEq, SWPacketHeader.mk.injEq]
  refine ⟨by decide, by decide, ?_, ?_⟩ <;> omega

/-- Claim C8, frame layout on encode.  For every body writer that reports a length `n` below
`2^32` for the packet and whose write into the body region succeeds, and for every scratch
buffer, `BuildPacket` returns a slice of length `n + 12` whose first twelve bytes are
`FD FD 00 00` followed twice by the big-endian encoding of `n`, whatever the byte order of the
body; `parseHeader` reads them as `(0xFDFD, 0, n, n)`. -/
theorem BuildPacket_frame_layout {P : Type} (d : ProtocolImpl P) (packet : P) (buff : Slice)
    (n : Nat) (hn : d.Writer.GetLength packet = n) (hlt : n < 4294967296)
    (hw : (d.Writer.Write packet (bodyRegion buff n)).1 = .ok ()) :
    ∃ out packet', d.BuildPacket packet buff = (.ok out, packet') ∧
      out.len = n + 12 ∧ out.bytes.length = n + 12 ∧
      out.bytes.take 12 = [0xFD, 0xFD, 0x00, 0x00] ++ be32 n ++ be32 n ∧
      parseHeader (out.bytes.take 12)
        = .ok { Flag := 0xFDFD, PacketFlag := 0, BodyLength := n, SrcLength := n } := by
  refine ⟨_, _, BuildPacket_ok d packet buff n hn hlt hw, rfl, ?_, ?_, ?_⟩
  · simp only [Slice.bytes, List.length_take, List.length_append, frameHeader_length, copy_length,
      bodyRegion_length]
    omega
  · simp only [Slice.bytes, List.append_assoc]
    rw [List.take_take, Nat.min_eq_left (by omega), List.take_left' (frameHeader_length n)]
    rfl
  · simp only [Slice.bytes, List.append_assoc]
    rw [List.take_take, Nat.min_eq_left (by omega), List.take_left' (frameHeader_length n)]
    exact parseHeader_frameHeader n hlt

/-- A list of at least 24 bytes, taken apart. -/
theorem exists_cons24 (l : List Byte) (h : 24 ≤ l.length) :
    ∃ c0 c1 c2 c3 c4 c5 c6 c7 c8 c9 c10 c11 c12 c13 c14 c15 c16 c17 c18 c19 c20 c21 c22 c23 rest,
      l = c0 :: c1 :: c2 :: c3 :: c4 :: c5 :: c6 :: c7 :: c8 :: c9 :: c10 :: c11 :: c12 :: c13
        :: c14 :: c15 :: c16 :: c17 :: c18 :: c19 :: c20 :: c21 :: c22 :: c23 :: rest := by
  obtain ⟨c0, c1, c2, c3, c4, c5, c6, c7, c8, c9, c10, c11, l', rfl⟩ :=
    exists_cons12 l (by omega)
  obtain ⟨c12, c13, c14, c15, c16, c17, c18, c19, c20, c21, c22, c23, rest, rfl⟩ :=
    exists_cons12 l' (by simp only [List.length_cons] at h; omega)
  exact ⟨c0, c1, c2, c3, c4, c5, c6, c7, c8, c9, c10, c11, c12, c13, c14, c15, c16, c17, c18,
    c19, c20, c21, c22, c23, rest, rfl⟩

/-- The function `PacketHeader.Write` on a big-endian cursor at the start of a buffer of at
least 24 bytes. -/
theorem PacketHeader.Write_big (w : PacketHeader)
    (c0 c1 c2 c3 c4 c5 c6 c7 c8 c9 c10 c11 c12 c13 c14 c15 c16 c17 c18 c19 c20 c21 c22 c23 : Byte)
    (rest : List Byte) :
    w.Write (.big (NewBigEndianStream
      (c0 :: c1 :: c2 :: c3 :: c4 :: c5 :: c6 :: c7 :: c8 :: c9 :: c10 :: c11 :: c12 :: c13
        :: c14 :: c15 :: c16 :: c17 :: c18 :: c19 :: c20 :: c21 :: c22 :: c23 :: rest)))
      = (.ok (), .big ⟨24, PacketHeader.encode true w ++ rest⟩) := by
  have r1 : (BigEndianStreamImpl.mk 0
      (c0 :: c1 :: c2 :: c3 :: c4 :: c5 :: c6 :: c7 :: c8 :: c9 :: c10 :: c11 :: c12 :: c13
        :: c14 :: c15 :: c16 :: c17 :: c18 :: c19 :: c20 :: c21 :: c22 :: c23 :: rest)).WriteUint32 w.ID
      = (.ok (), ⟨4,
          byte (w.ID / 16777216) :: byte (w.ID / 65536) :: byte (w.ID / 256) :: byte w.ID :: c4
            :: c5 :: c6 :: c7 :: c8 :: c9 :: c10 :: c11 :: c12 :: c13 :: c14 :: c15 :: c16
            :: c17 :: c18 :: c19 :: c20 :: c21 :: c22 :: c23 :: rest⟩) :=
    (BigEndianStreamImpl.WriteUint32_at_big _ _ 0 w.ID (by decide)
      (by simp only [List.length_cons]; omega)).trans rfl
  have r2 : (BigEndianStreamImpl.mk 4
      (byte (w.ID / 16777216) :: byte (w.ID / 65536) :: byte (w.ID / 256) :: byte w.ID :: c4
        :: c5 :: c6 :: c7 :: c8 :: c9 :: c10 :: c11 :: c12 :: c13 :: c14 :: c15 :: c16 :: c17
        :: c18 :: c19 :: c20 :: c21 :: c22 :: c23 :: rest)).WriteUint32 w.PacketType
      = (.ok (), ⟨8,
          byte (w.ID / 16777216) :: byte (w.ID / 65536) :: byte (w.ID / 256) :: byte w.ID
            :: byte (w.PacketType / 16777216) :: byte (w.PacketType / 65536)
            :: byte (w.PacketType / 256) :: byte w.PacketType :: c8 :: c9 :: c10 :: c11 :: c12
            :: c13 :: c14 :: c15 :: c16 :: c17 :: c18 :: c19 :: c20 :: c21 :: c22 :: c23
            :: rest⟩) :=
    (BigEndianStreamImpl.WriteUint32_at_big _ _ 4 w.PacketType (by decide)
      (by simp only [List.length_cons]; omega)).trans rfl
  have r3 : (BigEndianStreamImpl.mk 8
      (byte (w.ID / 16777216) :: byte (w.ID / 65536) :: byte (w.ID / 256) :: byte w.ID
        :: byte (w.PacketType / 16777216) :: byte (w.PacketType / 65536)
        :: byte (w.PacketType / 256) :: byte w.PacketType :: c8 :: c9 :: c10 :: c11 :: c12
        :: c13 :: c14 :: c15 :: c16 :: c17 :: c18 :: c19 :: c20 :: c21 :: c22 :: c23 :: rest)).WriteUint32 w.Len
      = (.ok (), ⟨12,
          byte (w.ID / 16777216) :: byte (w.ID / 65536) :: byte (w.ID / 256) :: byte w.ID
            :: byte (w.PacketType / 16777216) :: byte (w.PacketType / 65536)
            :: byte (w.PacketType / 256) :: byte w.PacketType :: byte (w.Len / 16777216)
            :: byte (w.Len / 65536) :: byte (w.Len / 256) :: byte w.Len :: c12 :: c13 :: c14
            :: c15 :: c16 :: c17 :: c18 :: c19 :: c20 :: c21 :: c22 :: c23 :: rest⟩) :=
    (BigEndianStreamImpl.WriteUint32_at_big _ _ 8 w.Len (by decide)
      (by simp only [List.length_cons]; omega)).trans rfl
  have r4 : (BigEndianStreamImpl.mk 12
      (byte (w.ID / 16777216) :: byte (w.ID / 65536) :: byte (w.ID / 256) :: byte w.ID
        :: byte (w.PacketType / 16777216) :: byte (w.PacketType / 65536)
        :: byte (w.PacketType / 256) :: byte w.PacketType :: byte (w.Len / 16777216)
        :: byte (w.Len / 65536) :: byte (w.Len / 256) :: byte w.Len :: c12 :: c13 :: c14 :: c15
        :: c16 :: c17 :: c18 :: c19 :: c20 :: c21 :: c22 :: c23 :: rest)).WriteUint32 w.Version
      = (.ok (), ⟨16,
          byte (w.ID / 16777216) :: byte (w.ID / 65536) :: byte (w.ID / 256) :: byte w.ID
            :: byte (w.PacketType / 16777216) :: byte (w.PacketType / 65536)
            :: byte (w.PacketType / 256) :: byte w.PacketType :: byte (w.Len / 16777216)
            :: byte (w.Len / 65536) :: byte (w.Len / 256) :: byte w.Len
            :: byte (w.Version / 16777216) :: byte (w.Version / 65536)
            :: byte (w.Version / 256) :: byte w.Version :: c16 :: c17 :: c18 :: c19 :: c20
            :: c21 :: c22 :: c23 :: rest⟩) :=
    (BigEndianStreamImpl.WriteUint32_at_big _ _ 12 w.Version (by decide)
      (by simp only [List.length_cons]; omega)).trans rfl
  have r5 : (BigEndianStreamImpl.mk 16
      (byte (w.ID / 16777216) :: byte (w.ID / 65536) :: byte (w.ID / 256) :: byte w.ID
        :: byte (w.PacketType / 16777216) :: byte (w.PacketType / 65536)
        :: byte (w.PacketType / 256) :: byte w.PacketType :: byte (w.Len / 16777216)
        :: byte (w.Len / 65536) :: byte (w.Len / 256) :: byte w.Len
        :: byte (w.Version / 16777216) :: byte (w.Version / 65536) :: byte (w.Version / 256)
        :: byte w.Version :: c16 :: c17 :: c18 :: c19 :: c20 :: c21 :: c22 :: c23 :: rest)).WriteUint32 w.Ack
      = (.ok (), ⟨20,
          byte (w.ID / 16777216) :: byte (w.ID / 65536) :: byte (w.ID / 256) :: byte w.ID
            :: byte (w.PacketType / 16777216) :: byte (w.PacketType / 65536)
            :: byte (w.PacketType / 256) :: byte w.PacketType :: byte (w.Len / 16777216)
            :: byte (w.Len / 65536) :: byte (w.Len / 256) :: byte w.Len
            :: byte (w.Version / 16777216) :: byte (w.Version / 65536)
            :: byte (w.Version / 256) :: byte w.Version :: byte (w.Ack / 16777216)
            :: byte (w.Ack / 65536) :: byte (w.Ack / 256) :: byte w.Ack :: c20 :: c21 :: c22
            :: c23 :: rest⟩) :=
    (BigEndianStreamImpl.WriteUint32_at_big _ _ 16 w.Ack (by decide)
      (by simp only [List.length_cons]; omega)).trans rfl
  have r6 : (BigEndianStreamImpl.mk 20
      (byte (w.ID / 16777216) :: byte (w.ID / 65536) :: byte (w.ID / 256) :: byte w.ID
        :: byte (w.PacketType / 16777216) :: byte (w.PacketType / 65536)
        :: byte (w.PacketType / 256) :: byte w.PacketType :: byte (w.Len / 16777216)
        :: byte (w.Len / 65536) :: byte (w.Len / 256) :: byte w.Len
        :: byte (w.Version / 16777216) :: byte (w.Version / 65536) :: byte (w.Version / 256)
        :: byte w.Version :: byte (w.Ack / 16777216) :: byte (w.Ack / 65536)
        :: byte (w.Ack / 256) :: byte w.Ack :: c20 :: c21 :: c22 :: c23 :: rest)).WriteUint32 w.Token
      = (.ok (), ⟨24,
          byte (w.ID / 16777216) :: byte (w.ID / 65536) :: byte (w.ID / 256) :: byte w.ID
            :: byte (w.PacketType / 16777216) :: byte (w.PacketType / 65536)
            :: byte (w.PacketType / 256) :: byte w.PacketType :: byte (w.Len / 16777216)
            :: byte (w.Len / 65536) :: byte (w.Len / 256) :: byte w.Len
            :: byte (w.Version / 16777216) :: byte (w.Version / 65536)
            :: byte (w.Version / 256) :: byte w.Version :: byte (w.Ack / 16777216)
            :: byte (w.Ack / 65536) :: byte (w.Ack / 256) :: byte w.Ack
            :: byte (w.Token / 16777216) :: byte (w.Token / 65536) :: byte (w.Token / 256)
            :: byte w.Token :: rest⟩) :=
    (BigEndianStreamImpl.WriteUint32_at_big _ _ 20 w.Token (by decide)
      (by simp only [List.length_cons]; omega)).trans rfl
  simp only [PacketHeader.Write, Stream.WriteUint32, Stream.call, NewBigEndianStream,
    r1, r2, r3, r4, r5, r6]
  rfl

/-- The function `PacketHeader.Read` on a big-endian cursor at the start of a buffer of at
least 24 bytes. -/
theorem PacketHeader.Read_big (p : PacketHeader)
    (b0 b1 b2 b3 b4 b5 b6 b7 b8 b9 b10 b11 b12 b13 b14 b15 b16 b17 b18 b19 b20 b21 b22 b23 : Byte)
    (rest : List Byte) :
    p.Read (.big (NewBigEndianStream
      (b0 :: b1 :: b2 :: b3 :: b4 :: b5 :: b6 :: b7 :: b8 :: b9 :: b10 :: b11 :: b12 :: b13
        :: b14 :: b15 :: b16 :: b17 :: b18 :: b19 :: b20 :: b21 :: b22 :: b23 :: rest)))
      = (.ok (),
          { ID := b0.val * 16777216 + b1.val * 65536 + b2.val * 256 + b3.val,
            PacketType := b4.val * 16777216 + b5.val * 65536 + b6.val * 256 + b7.val,
            Len := b8.val * 16777216 + b9.val * 65536 + b10.val * 256 + b11.val,
            Version := b12.val * 16777216 + b13.val * 65536 + b14.val * 256 + b15.val,
            Ack := b16.val * 16777216 + b17.val * 65536 + b18.val * 256 + b19.val,
            Token := b20.val * 16777216 + b21.val * 65536 + b22.val * 256 + b23.val },
          .big ⟨24,
            b0 :: b1 :: b2 :: b3 :: b4 :: b5 :: b6 :: b7 :: b8 :: b9 :: b10 :: b11 :: b12
              :: b13 :: b14 :: b15 :: b16 :: b17 :: b18 :: b19 :: b20 :: b21 :: b22 :: b23
              :: rest⟩) := by
  have r1 := BigEndianStreamImpl.ReadUint32_at_big 0
    (b0 :: b1 :: b2 :: b3 :: b4 :: b5 :: b6 :: b7 :: b8 :: b9 :: b10 :: b11 :: b12 :: b13
      :: b14 :: b15 :: b16 :: b17 :: b18 :: b19 :: b20 :: b21 :: b22 :: b23 :: rest)
    0 b0 b1 b2 b3 _ (by decide) rfl
  have r2 := BigEndianStreamImpl.ReadUint32_at_big 4
    (b0 :: b1 :: b2 :: b3 :: b4 :: b5 :: b6 :: b7 :: b8 :: b9 :: b10 :: b11 :: b12 :: b13
      :: b14 :: b15 :: b16 :: b17 :: b18 :: b19 :: b20 :: b21 :: b22 :: b23 :: rest)
    4 b4 b5 b6 b7 _ (by decide) rfl
  have r3 := BigEndianStreamImpl.ReadUint32_at_big 8
    (b0 :: b1 :: b2 :: b3 :: b4 :: b5 :: b6 :: b7 :: b8 :: b9 :: b10 :: b11 :: b12 :: b13
      :: b14 :: b15 :: b16 :: b17 :: b18 :: b19 :: b20 :: b21 :: b22 :: b23 :: rest)
    8 b8 b9 b10 b11 _ (by decide) rfl
  have r4 := BigEndianStreamImpl.ReadUint32_at_big 12
    (b0 :: b1 :: b2 :: b3 :: b4 :: b5 :: b6 :: b7 :: b8 :: b9 :: b10 :: b11 :: b12 :: b13
      :: b14 :: b15 :: b16 :: b17 :: b18 :: b19 :: b20 :: b21 :: b22 :: b23 :: rest)
    12 b12 b13 b14 b15 _ (by decide) rfl
  have r5 := BigEndianStreamImpl.ReadUint32_at_big 16
    (b0 :: b1 :: b2 :: b3 :: b4 :: b5 :: b6 :: b7 :: b8 :: b9 :: b10 :: b11 :: b12 :: b13
      :: b14 :: b15 :: b16 :: b17 :: b18 :: b19 :: b20 :: b21 :: b22 :: b23 :: rest)
    16 b16 b17 b18 b19 _ (by decide) rfl
  have r6 := BigEndianStreamImpl.ReadUint32_at_big 20
    (b0 :: b1 :: b2 :: b3 :: b4 :: b5 :: b6 :: b7 :: b8 :: b9 :: b10 :: b11 :: b12 :: b13
      :: b14 :: b15 :: b16 :: b17 :: b18 :: b19 :: b20 :: b21 :: b22 :: b23 :: rest)
    20 b20 b21 b22 b23 _ (by decide) rfl
  norm_num only at r1 r2 r3 r4 r5 r6
  simp only [PacketHeader.Read, Stream.ReadUint32, Stream.call, NewBigEndianStream,
    r1, r2, r3, r4, r5, r6]

/-- The function `PacketHeader.Write` on a little-endian cursor at the start of a buffer of at
least 24 bytes. -/
theorem PacketHeader.Write_little (w : PacketHeader)
    (c0 c1 c2 c3 c4 c5 c6 c7 c8 c9 c10 c11 c12 c13 c14 c15 c16 c17 c18 c19 c20 c21 c22 c23 : Byte)
    (rest : List Byte) :
    w.Write (.little (NewLittleEndianStream
      (c0 :: c1 :: c2 :: c3 :: c4 :: c5 :: c6 :: c7 :: c8 :: c9 :: c10 :: c11 :: c12 :: c13
        :: c14 :: c15 :: c16 :: c17 :: c18 :: c19 :: c20 :: c21 :: c22 :: c23 :: rest)))
      = (.ok (), .little ⟨24, PacketHeader.encode false w ++ rest⟩) := by
  have r1 : (LittleEndianStreamImpl.mk 0
      (c0 :: c1 :: c2 :: c3 :: c4 :: c5 :: c6 :: c7 :: c8 :: c9 :: c10 :: c11 :: c12 :: c13
        :: c14 :: c15 :: c16 :: c17 :: c18 :: c19 :: c20 :: c21 :: c22 :: c23 :: rest)).WriteUint32 w.ID
      = (.ok (), ⟨4,
          byte w.ID :: byte (w.ID / 256) :: byte (w.ID / 65536) :: byte (w.ID / 16777216) :: c4
            :: c5 :: c6 :: c7 :: c8 :: c9 :: c10 :: c11 :: c12 :: c13 :: c14 :: c15 :: c16
            :: c17 :: c18 :: c19 :: c20 :: c21 :: c22 :: c23 :: rest⟩) :=
    (LittleEndianStreamImpl.WriteUint32_at_little _ _ 0 w.ID (by decide)
      (by simp only [List.length_cons]; omega)).trans rfl
  have r2 : (LittleEndianStreamImpl.mk 4
      (byte w.ID :: byte (w.ID / 256) :: byte (w.ID / 65536) :: byte (w.ID / 16777216) :: c4
        :: c5 :: c6 :: c7 :: c8 :: c9 :: c10 :: c11 :: c12 :: c13 :: c14 :: c15 :: c16 :: c17
        :: c18 :: c19 :: c20 :: c21 :: c22 :: c23 :: rest)).WriteUint32 w.PacketType
      = (.ok (), ⟨8,
          byte w.ID :: byte (w.ID / 256) :: byte (w.ID / 65536) :: byte (w.ID / 16777216)
            :: byte w.PacketType :: byte (w.PacketType / 256) :: byte (w.PacketType / 65536)
            :: byte (w.PacketType / 16777216) :: c8 :: c9 :: c10 :: c11 :: c12 :: c13 :: c14
            :: c15 :: c16 :: c17 :: c18 :: c19 :: c20 :: c21 :: c22 :: c23 :: rest⟩) :=
    (LittleEndianStreamImpl.WriteUint32_at_little _ _ 4 w.PacketType (by decide)
      (by simp only [List.length_cons]; omega)).trans rfl
  have r3 : (LittleEndianStreamImpl.mk 8
      (byte w.ID :: byte (w.ID / 256) :: byte (w.ID / 65536) :: byte (w.ID / 16777216)
        :: byte w.PacketType :: byte (w.PacketType / 256) :: byte (w.PacketType / 65536)
        :: byte (w.PacketType / 16777216) :: c8 :: c9 :: c10 :: c11 :: c12 :: c13 :: c14 :: c15
        :: c16 :: c17 :: c18 :: c19 :: c20 :: c21 :: c22 :: c23 :: rest)).WriteUint32 w.Len
      = (.ok (), ⟨12,
          byte w.ID :: byte (w.ID / 256) :: byte (w.ID / 65536) :: byte (w.ID / 16777216)
            :: byte w.PacketType :: byte (w.PacketType / 256) :: byte (w.PacketType / 65536)
            :: byte (w.PacketType / 16777216) :: byte w.Len :: byte (w.Len / 256)
            :: byte (w.Len / 65536) :: byte (w.Len / 16777216) :: c12 :: c13 :: c14 :: c15
            :: c16 :: c17 :: c18 :: c19 :: c20 :: c21 :: c22 :: c23 :: rest⟩) :=
    (LittleEndianStreamImpl.WriteUint32_at_little _ _ 8 w.Len (by decide)
      (by simp only [List.length_cons]; omega)).trans rfl
  have r4 : (LittleEndianStreamImpl.mk 12
      (byte w.ID :: byte (w.ID / 256) :: byte (w.ID / 65536) :: byte (w.ID / 16777216)
        :: byte w.PacketType :: byte (w.PacketType / 256) :: byte (w.PacketType / 65536)
        :: byte (w.PacketType / 16777216) :: byte w.Len :: byte (w.Len / 256)
        :: byte (w.Len / 65536) :: byte (w.Len / 16777216) :: c12 :: c13 :: c14 :: c15 :: c16
        :: c17 :: c18 :: c19 :: c20 :: c21 :: c22 :: c23 :: rest)).WriteUint32 w.Version
      = (.ok (), ⟨16,
          byte w.ID :: byte (w.ID / 256) :: byte (w.ID / 65536) :: byte (w.ID / 16777216)
            :: byte w.PacketType :: byte (w.PacketType / 256) :: byte (w.PacketType / 65536)
            :: byte (w.PacketType / 16777216) :: byte w.Len :: byte (w.Len / 256)
            :: byte (w.Len / 65536) :: byte (w.Len / 16777216) :: byte w.Version
            :: byte (w.Version / 256) :: byte (w.Version / 65536)
            :: byte (w.Version / 16777216) :: c16 :: c17 :: c18 :: c19 :: c20 :: c21 :: c22
            :: c23 :: rest⟩) :=
    (LittleEndianStreamImpl.WriteUint32_at_little _ _ 12 w.Version (by decide)
      (by simp only [List.length_cons]; omega)).trans rfl
  have r5 : (LittleEndianStreamImpl.mk 16
      (byte w.ID :: byte (w.ID / 256) :: byte (w.ID / 65536) :: byte (w.ID / 16777216)
        :: byte w.PacketType :: byte (w.PacketType / 256) :: byte (w.PacketType / 65536)
        :: byte (w.PacketType / 16777216) :: byte w.Len :: byte (w.Len / 256)
        :: byte (w.Len / 65536) :: byte (w.Len / 16777216) :: byte w.Version
        :: byte (w.Version / 256) :: byte (w.Version / 65536) :: byte (w.Version / 16777216)
        :: c16 :: c17 :: c18 :: c19 :: c20 :: c21 :: c22 :: c23 :: rest)).WriteUint32 w.Ack
      = (.ok (), ⟨20,
          byte w.ID :: byte (w.ID / 256) :: byte (w.ID / 65536) :: byte (w.ID / 16777216)
            :: byte w.PacketType :: byte (w.PacketType / 256) :: byte (w.PacketType / 65536)
            :: byte (w.PacketType / 16777216) :: byte w.Len :: byte (w.Len / 256)
            :: byte (w.Len / 65536) :: byte (w.Len / 16777216) :: byte w.Version
            :: byte (w.Version / 256) :: byte (w.Version / 65536)
            :: byte (w.Version / 16777216) :: byte w.Ack :: byte (w.Ack / 256)
            :: byte (w.Ack / 65536) :: byte (w.Ack / 16777216) :: c20 :: c21 :: c22 :: c23
            :: rest⟩) :=
    (LittleEndianStreamImpl.WriteUint32_at_little _ _ 16 w.Ack (by decide)
      (by simp only [List.length_cons]; omega)).trans rfl
  have r6 : (LittleEndianStreamImpl.mk 20
      (byte w.ID :: byte (w.ID / 256) :: byte (w.ID / 65536) :: byte (w.ID / 16777216)
        :: byte w.PacketType :: byte (w.PacketType / 256) :: byte (w.PacketType / 65536)
        :: byte (w.PacketType / 16777216) :: byte w.Len :: byte (w.Len / 256)
        :: byte (w.Len / 65536) :: byte (w.Len / 16777216) :: byte w.Version
        :: byte (w.Version / 256) :: byte (w.Version / 65536) :: byte (w.Version / 16777216)
        :: byte w.Ack :: byte (w.Ack / 256) :: byte (w.Ack / 65536) :: byte (w.Ack / 16777216)
        :: c20 :: c21 :: c22 :: c23 :: rest)).WriteUint32 w.Token
      = (.ok (), ⟨24,
          byte w.ID :: byte (w.ID / 256) :: byte (w.ID / 65536) :: byte (w.ID / 16777216)
            :: byte w.PacketType :: byte (w.PacketType / 256) :: byte (w.PacketType / 65536)
            :: byte (w.PacketType / 16777216) :: byte w.Len :: byte (w.Len / 256)
            :: byte (w.Len / 65536) :: byte (w.Len / 16777216) :: byte w.Version
            :: byte (w.Version / 256) :: byte (w.Version / 65536)
            :: byte (w.Version / 16777216) :: byte w.Ack :: byte (w.Ack / 256)
            :: byte (w.Ack / 65536) :: byte (w.Ack / 16777216) :: byte w.Token
            :: byte (w.Token / 256) :: byte (w.Token / 65536) :: byte (w.Token / 16777216)
            :: rest⟩) :=
    (LittleEndianStreamImpl.WriteUint32_at_little _ _ 20 w.Token (by decide)
      (by simp only [List.length_cons]; omega)).trans rfl
  simp only [PacketHeader.Write, Stream.WriteUint32, Stream.call, NewLittleEndianStream,
    r1, r2, r3, r4, r5, r6]
  rfl

/-- The function `PacketHeader.Read` on a little-endian cursor at the start of a buffer of at
least 24 bytes. -/
theorem PacketHeader.Read_little (p : PacketHeader)
    (b0 b1 b2 b3 b4 b5 b6 b7 b8 b9 b10 b11 b12 b13 b14 b15 b16 b17 b18 b19 b20 b21 b22 b23 : Byte)
    (rest : List Byte) :
    p.Read (.little (NewLittleEndianStream
      (b0 :: b1 :: b2 :: b3 :: b4 :: b5 :: b6 :: b7 :: b8 :: b9 :: b10 :: b11 :: b12 :: b13
        :: b14 :: b15 :: b16 :: b17 :: b18 :: b19 :: b20 :: b21 :: b22 :: b23 :: rest)))
      = (.ok (),
          { ID := b0.val + b1.val * 256 + b2.val * 65536 + b3.val * 16777216,
            PacketType := b4.val + b5.val * 256 + b6.val * 65536 + b7.val * 16777216,
            Len := b8.val + b9.val * 256 + b10.val * 65536 + b11.val * 16777216,
            Version := b12.val + b13.val * 256 + b14.val * 65536 + b15.val * 16777216,
            Ack := b16.val + b17.val * 256 + b18.val * 65536 + b19.val * 16777216,
            Token := b20.val + b21.val * 256 + b22.val * 65536 + b23.val * 16777216 },
          .little ⟨24,
            b0 :: b1 :: b2 :: b3 :: b4 :: b5 :: b6 :: b7 :: b8 :: b9 :: b10 :: b11 :: b12
              :: b13 :: b14 :: b15 :: b16 :: b17 :: b18 :: b19 :: b20 :: b21 :: b22 :: b23
              :: rest⟩) := by
  have r1 := LittleEndianStreamImpl.ReadUint32_at_little 0
    (b0 :: b1 :: b2 :: b3 :: b4 :: b5 :: b6 :: b7 :: b8 :: b9 :: b10 :: b11 :: b12 :: b13
      :: b14 :: b15 :: b16 :: b17 :: b18 :: b19 :: b20 :: b21 :: b22 :: b23 :: rest)
    0 b0 b1 b2 b3 _ (by decide) rfl
  have r2 := LittleEndianStreamImpl.ReadUint32_at_little 4
    (b0 :: b1 :: b2 :: b3 :: b4 :: b5 :: b6 :: b7 :: b8 :: b9 :: b10 :: b11 :: b12 :: b13
      :: b14 :: b15 :: b16 :: b17 :: b18 :: b19 :: b20 :: b21 :: b22 :: b23 :: rest)
    4 b4 b5 b6 b7 _ (by decide) rfl
  have r3 := LittleEndianStreamImpl.ReadUint32_at_little 8
    (b0 :: b1 :: b2 :: b3 :: b4 :: b5 :: b6 :: b7 :: b8 :: b9 :: b10 :: b11 :: b12 :: b13
      :: b14 :: b15 :: b16 :: b17 :: b18 :: b19 :: b20 :: b21 :: b22 :: b23 :: rest)
    8 b8 b9 b10 b11 _ (by decide) rfl
  have r4 := LittleEndianStreamImpl.ReadUint32_at_little 12
    (b0 :: b1 :: b2 :: b3 :: b4 :: b5 :: b6 :: b7 :: b8 :: b9 :: b10 :: b11 :: b12 :: b13
      :: b14 :: b15 :: b16 :: b17 :: b18 :: b19 :: b20 :: b21 :: b22 :: b23 :: rest)
    12 b12 b13 b14 b15 _ (by decide) rfl
  have r5 := LittleEndianStreamImpl.ReadUint32_at_little 16
    (b0 :: b1 :: b2 :: b3 :: b4 :: b5 :: b6 :: b7 :: b8 :: b9 :: b10 :: b11 :: b12 :: b13
      :: b14 :: b15 :: b16 :: b17 :: b18 :: b19 :: b20 :: b21 :: b22 :: b23 :: rest)
    16 b16 b17 b18 b19 _ (by decide) rfl
  have r6 := LittleEndianStreamImpl.ReadUint32_at_little 20
    (b0 :: b1 :: b2 :: b3 :: b4 :: b5 :: b6 :: b7 :: b8 :: b9 :: b10 :: b11 :: b12 :: b13
      :: b14 :: b15 :: b16 :: b17 :: b18 :: b19 :: b20 :: b21 :: b22 :: b23 :: rest)
    20 b20 b21 b22 b23 _ (by decide) rfl
  norm_num only at r1 r2 r3 r4 r5 r6
  simp only [PacketHeader.Read, Stream.ReadUint32, Stream.call, NewLittleEndianStream,
    r1, r2, r3, r4, r5, r6]

theorem decode_be32 (v : Nat) (h : v < 4294967296) :
    (byte (v / 16777216)).val * 16777216 + (byte (v / 65536)).val * 65536
      + (byte (v / 256)).val * 256 + (byte v).val = v := by
  simp only [byte_val]; omega

theorem decode_le32 (v : Nat) (h : v < 4294967296) :
    (byte v).val + (byte (v / 256)).val * 256 + (byte (v / 65536)).val * 65536
      + (byte (v / 16777216)).val * 16777216 = v := by
  simp only [byte_val]; omega

theorem copy_same_length (dst src : List Byte) (h : src.length = dst.length) :
    copy dst src = src := by
  simp [copy, ← h]

/-- The body reader of the default protocol, without a cacher, gives back the
packet whose header was encoded at the start of the body. -/
theorem ReadBody_encode (bigEndian : Bool) (p : Packet) (hwf : p.header.WF) (htag : p.Tagged)
    (tail : List Byte) :
    (NewDefaultBodyReadWriter none bigEndian).ReadBody
      (PacketHeader.encode bigEndian p.header ++ tail) = .ok p := by
  obtain ⟨h1, h2, h3, h4, h5, h6⟩ := hwf
  cases bigEndian
  · have key : PacketHeader.zero.Read (.little (NewLittleEndianStream
        (PacketHeader.encode false p.header ++ tail))) = _ :=
      PacketHeader.Read_little PacketHeader.zero _ _ _ _ _ _ _ _ _ _ _ _ _ _ _ _ _ _ _ _ _ _ _ _
        tail
    simp only [decode_le32 _ h1, decode_le32 _ h2, decode_le32 _ h3, decode_le32 _ h4,
      decode_le32 _ h5, decode_le32 _ h6] at key
    simp only [DefaultBodyReadWriter.ReadBody, NewDefaultBodyReadWriter, NewPacketFactory,
      PacketFactory.CreatePacket, Bool.false_eq_true, if_false, key, Packet.Read]
    cases p with
    | Keepalive h =>
      simp only [Packet.Tagged, Packet.header] at htag ⊢
      rw [if_pos htag]
    | KeepaliveAck h =>
      simp only [Packet.Tagged, Packet.header] at htag ⊢
      rw [if_neg (by rw [htag]; decide), if_pos htag]
  · have key : PacketHeader.zero.Read (.big (NewBigEndianStream
        (PacketHeader.encode true p.header ++ tail))) = _ :=
      PacketHeader.Read_big PacketHeader.zero _ _ _ _ _ _ _ _ _ _ _ _ _ _ _ _ _ _ _ _ _ _ _ _
        tail
    simp only [decode_be32 _ h1, decode_be32 _ h2, decode_be32 _ h3, decode_be32 _ h4,
      decode_be32 _ h5, decode_be32 _ h6] at key
    simp only [DefaultBodyReadWriter.ReadBody, NewDefaultBodyReadWriter, NewPacketFactory,
      PacketFactory.CreatePacket, if_true, key, Packet.Read]
    cases p with
    | Keepalive h =>
      simp only [Packet.Tagged, Packet.header] at htag ⊢
      rw [if_pos htag]
    | KeepaliveAck h =>
      simp only [Packet.Tagged, Packet.header] at htag ⊢
      rw [if_neg (by rw [htag]; decide), if_pos htag]

/-- The body writer of the default protocol on a region of at least 24 bytes:
the encoded header of the adjusted packet, then the rest of the region
untouched. -/
theorem DefaultWrite_region (c : Option PacketCacher) (bigEndian : Bool) (p : Packet)
    (R : List Byte) (hR : 24 ≤ R.length) :
    (NewDefaultBodyReadWriter c bigEndian).Write p R
      = (.ok (), PacketHeader.encode bigEndian p.AdjustLength.header ++ R.drop 24,
          p.AdjustLength) := by
  obtain ⟨c0, c1, c2, c3, c4, c5, c6, c7, c8, c9, c10, c11, c12, c13, c14, c15, c16, c17, c18,
    c19, c20, c21, c22, c23, rest, rfl⟩ := exists_cons24 R hR
  have hd : List.drop 24 (c0 :: c1 :: c2 :: c3 :: c4 :: c5 :: c6 :: c7 :: c8 :: c9 :: c10 :: c11
      :: c12 :: c13 :: c14 :: c15 :: c16 :: c17 :: c18 :: c19 :: c20 :: c21 :: c22 :: c23
      :: rest) = rest := rfl
  rw [hd]
  cases bigEndian
  · simp only [DefaultBodyReadWriter.Write, NewDefaultBodyReadWriter, Bool.false_eq_true,
      if_false, Packet.Write, PacketHeader.Write_little, Stream.Data,
      LittleEndianStreamImpl.Data]
  · simp only [DefaultBodyReadWriter.Write, NewDefaultBodyReadWriter, if_true, Packet.Write,
      PacketHeader.Write_big, Stream.Data, BigEndianStreamImpl.Data]

/-! ## Round trip of a frame, control handshake, session -/

theorem encode_length (bigEndian : Bool) (h : PacketHeader) :
    (PacketHeader.encode bigEndian h).length = 24 := by
  cases bigEndian <;> rfl

theorem AdjustLength_header (p : Packet) :
    p.AdjustLength.header = { p.header with Len := 36 } := by
  cases p <;> rfl

theorem AdjustLength_WF (p : Packet) (h : p.header.WF) : p.AdjustLength.header.WF := by
  rw [AdjustLength_header]
  obtain ⟨h1, h2, _, h4, h5, h6⟩ := h
  exact ⟨h1, h2, by show (36 : Nat) < 4294967296; omega, h4, h5, h6⟩

theorem AdjustLength_Tagged (p : Packet) (h : p.Tagged) : p.AdjustLength.Tagged := by
  cases p <;> exact h

/-- Claim C1, frame round trip.  For either body byte order (the same on both sides, no
cacher), every `Keepalive` or `KeepaliveAck` packet `p` with 32-bit fields whose type tag is
the one of its kind, every scratch buffer on either side and every connection state:
`BuildPacket p scratch` succeeds with a frame, and `ReadPacket` on an input that starts with
the bytes of that frame returns without error the packet `p.AdjustLength`, which is of the
same kind as `p` and has the six header fields of `p` with `Len = 36`; it consumes exactly the
bytes of the frame (`rest` is what remains) and writes nothing (`out` is unchanged).  The
maximum body size is any value above 36 that leaves room for the 12 header bytes in a
`uint32`, as the default 524288 does. -/
theorem frame_round_trip (bigEndian : Bool) (p : Packet) (scratch rbuf : Slice)
    (rest out : List Byte) (w : Bool) (maxBody : Nat)
    (hwf : p.header.WF) (htag : p.Tagged) (h36 : 36 < maxBody) (hmax : maxBody ≤ 4294967284) :
    ∃ frame rbuf',
      (NewDefaultProtocol none bigEndian).BuildPacket p scratch = (.ok frame, p.AdjustLength) ∧
      ((∃ h, p = .Keepalive h ∧ p.AdjustLength = .Keepalive { h with Len := 36 }) ∨
       (∃ h, p = .KeepaliveAck h ∧ p.AdjustLength = .KeepaliveAck { h with Len := 36 })) ∧
      (NewDefaultProtocol none bigEndian).ReadPacket maxBody ⟨frame.bytes ++ rest, out, w⟩ rbuf
        = some (.ok (p.AdjustLength, rbuf'), ⟨rest, out, w⟩) := by
  have hn : (NewDefaultProtocol none bigEndian).Writer.GetLength p = ((36 : Nat) : Int) := by
    cases p <;> rfl
  have hRl := bodyRegion_length scratch 36
  have hW : (NewDefaultProtocol none bigEndian).Writer.Write p (bodyRegion scratch 36)
      = (.ok (), PacketHeader.encode bigEndian p.AdjustLength.header
          ++ (bodyRegion scratch 36).drop 24, p.AdjustLength) :=
    DefaultWrite_region none bigEndian p _ (by omega)
  have hB := BuildPacket_ok (NewDefaultProtocol none bigEndian) p scratch 36 hn (by decide)
    (by rw [hW])
  rw [hW] at hB
  simp only at hB
  have hbl : (PacketHeader.encode bigEndian p.AdjustLength.header
      ++ (bodyRegion scratch 36).drop 24).length = 36 := by
    rw [List.length_append, encode_length, List.length_drop, hRl]
  rw [copy_same_length _ _ (by rw [hbl, hRl])] at hB
  have hkind : (∃ h, p = .Keepalive h ∧ p.AdjustLength = .Keepalive { h with Len := 36 }) ∨
      (∃ h, p = .KeepaliveAck h ∧ p.AdjustLength = .KeepaliveAck { h with Len := 36 }) := by
    cases p with
    | Keepalive h => exact Or.inl ⟨h, rfl, rfl⟩
    | KeepaliveAck h => exact Or.inr ⟨h, rfl, rfl⟩
  obtain ⟨rbuf', hR⟩ := ReadPacket_after_controls (NewDefaultProtocol none bigEndian) maxBody []
    (frameHeader 36)
    (PacketHeader.encode bigEndian p.AdjustLength.header ++ (bodyRegion scratch 36).drop 24)
    rest out w rbuf { Flag := 0xFDFD, PacketFlag := 0, BodyLength := 36, SrcLength := 36 }
    p.AdjustLength (by simp) (by simp) rfl (parseHeader_frameHeader 36 (by decide)) rfl h36 hmax
    hbl (ReadBody_encode bigEndian p.AdjustLength (AdjustLength_WF p hwf)
      (AdjustLength_Tagged p htag) _)
  refine ⟨_, rbuf', hB, hkind, ?_⟩
  have hbytes : ({ arr := frameHeader 36
      ++ (PacketHeader.encode bigEndian p.AdjustLength.header ++ (bodyRegion scratch 36).drop 24)
      ++ (buildBuffer scratch 36).arr.drop (36 + 12), len := 36 + 12 } : Slice).bytes
        = frameHeader 36
          ++ (PacketHeader.encode bigEndian p.AdjustLength.header
            ++ (bodyRegion scratch 36).drop 24) := by
    simp only [Slice.bytes]
    rw [List.take_left']
    rw [List.length_append, frameHeader_length, hbl]
  rw [hbytes]
  simpa [List.append_assoc] using hR

/-- The round trip of C1 at a concrete `Keepalive`, little-endian body, default maximum body
size, one more byte after the frame. -/
theorem frame_round_trip_witness :
    (Packet.Keepalive ⟨7, 1, 0, 1, 0, 5⟩).header.WF ∧ (Packet.Keepalive ⟨7, 1, 0, 1, 0, 5⟩).Tagged ∧
    36 < MaxPacketBodySize ∧ MaxPacketBodySize ≤ 4294967284 ∧
    ∃ frame rbuf',
      (NewDefaultProtocol none false).BuildPacket (.Keepalive ⟨7, 1, 0, 1, 0, 5⟩) Slice.nil
        = (.ok frame, (Packet.Keepalive ⟨7, 1, 0, 1, 0, 5⟩).AdjustLength) ∧
      ((∃ h, Packet.Keepalive ⟨7, 1, 0, 1, 0, 5⟩ = .Keepalive h ∧
          (Packet.Keepalive ⟨7, 1, 0, 1, 0, 5⟩).AdjustLength = .Keepalive { h with Len := 36 }) ∨
       (∃ h, Packet.Keepalive ⟨7, 1, 0, 1, 0, 5⟩ = .KeepaliveAck h ∧
          (Packet.Keepalive ⟨7, 1, 0, 1, 0, 5⟩).AdjustLength
            = .KeepaliveAck { h with Len := 36 })) ∧
      (NewDefaultProtocol none false).ReadPacket MaxPacketBodySize
          ⟨frame.bytes ++ [0xFD], [], false⟩ Slice.nil
        = some (.ok ((Packet.Keepalive ⟨7, 1, 0, 1, 0, 5⟩).AdjustLength, rbuf'),
            ⟨[0xFD], [], false⟩) :=
  ⟨by decide, by decide, by decide, by decide,
    frame_round_trip false (.Keepalive ⟨7, 1, 0, 1, 0, 5⟩) Slice.nil Slice.nil [0xFD] [] false
      MaxPacketBodySize (by decide) (by decide) (by decide) (by decide)⟩

/-- Claim C6, control-frame handshake.  When the input is `ctrls.length` headers of 12 bytes
with flag `0xFEFE`, then a data frame (header `hdr` with flag `0xFDFD` and a body length below
the maximum, body `body` that the body reader decodes to `pkt`), then `rest`, and writes on the
connection succeed, `ReadPacket` returns `pkt`, leaves `rest` unread and has appended to the
output exactly `ctrls.length` copies of the twelve literal bytes. -/
theorem ReadPacket_control_handshake {P : Type} (d : ProtocolImpl P) (maxBody : Nat)
    (ctrls : List (List Byte)) (hdr body rest out : List Byte) (buff : Slice)
    (H : SWPacketHeader) (pkt : P)
    (hc : ∀ c ∈ ctrls, c.length = 12 ∧ ∃ Hc, parseHeader c = .ok Hc ∧ Hc.Flag = 0xFEFE)
    (hlen : hdr.length = 12) (hH : parseHeader hdr = .ok H) (hF : H.Flag = 0xFDFD)
    (hL : H.BodyLength < maxBody) (hmax : maxBody ≤ 4294967284)
    (hb : body.length = H.BodyLength) (hR : d.Reader.ReadBody body = .ok pkt) :
    ∃ buff', d.ReadPacket maxBody ⟨ctrls.flatten ++ (hdr ++ (body ++ rest)), out, false⟩ buff
      = some (.ok (pkt, buff'),
          ⟨rest,
            out ++ (List.replicate ctrls.length
              [0xFE, 0xFE, 0x00, 0x10, 0x7F, 0xCD, 0x00, 0x00, 0x00, 0x00, 0x00, 0x01]).flatten,
            false⟩) :=
  ReadPacket_after_controls d maxBody ctrls hdr body rest out false buff H pkt hc (fun _ => rfl)
    hlen hH hF hL hmax hb hR

/-- Two concrete control headers: the acknowledgment literal itself and another
header with flag `0xFEFE`. -/
theorem control_headers_example :
    ∀ c ∈ [controlPacket, [0xFE, 0xFE, 1, 2, 3, 4, 5, 6, 7, 8, 9, 10]],
      c.length = 12 ∧ ∃ Hc, parseHeader c = .ok Hc ∧ Hc.Flag = 0xFEFE := by
  intro c hc
  simp only [List.mem_cons, List.mem_singleton, List.not_mem_nil, or_false] at hc
  rcases hc with rfl | rfl
  · exact ⟨rfl, ⟨0xFEFE, 0x0010, 0x7FCD0000, 1⟩, by decide, rfl⟩
  · exact ⟨rfl, ⟨0xFEFE, 0x0102, 0x03040506, 0x0708090A⟩, by decide, rfl⟩

/-- The handshake of C6 for two control headers before a big-endian keepalive frame. -/
theorem ReadPacket_control_handshake_witness :
    (∀ c ∈ [controlPacket, [0xFE, 0xFE, 1, 2, 3, 4, 5, 6, 7, 8, 9, 10]],
      c.length = 12 ∧ ∃ Hc, parseHeader c = .ok Hc ∧ Hc.Flag = 0xFEFE) ∧
    (frameHeader 24).length = 12 ∧
    parseHeader (frameHeader 24) = .ok ⟨0xFDFD, 0, 24, 24⟩ ∧
    (SWPacketHeader.mk 0xFDFD 0 24 24).Flag = 0xFDFD ∧
    (SWPacketHeader.mk 0xFDFD 0 24 24).BodyLength < MaxPacketBodySize ∧
    MaxPacketBodySize ≤ 4294967284 ∧
    (PacketHeader.encode true ⟨7, 1, 36, 1, 0, 5⟩).length
      = (SWPacketHeader.mk 0xFDFD 0 24 24).BodyLength ∧
    (NewDefaultProtocol none true).Reader.ReadBody (PacketHeader.encode true ⟨7, 1, 36, 1, 0, 5⟩)
      = .ok (.Keepalive ⟨7, 1, 36, 1, 0, 5⟩) ∧
    ∃ buff', (NewDefaultProtocol none true).ReadPacket MaxPacketBodySize
        ⟨[controlPacket, [0xFE, 0xFE, 1, 2, 3, 4, 5, 6, 7, 8, 9, 10]].flatten
          ++ (frameHeader 24 ++ (PacketHeader.encode true ⟨7, 1, 36, 1, 0, 5⟩ ++ [0xAA])),
          [], false⟩ Slice.nil
      = some (.ok (.Keepalive ⟨7, 1, 36, 1, 0, 5⟩, buff'),
          ⟨[0xAA],
            [] ++ (List.replicate
              [controlPacket, [0xFE, 0xFE, 1, 2, 3, 4, 5, 6, 7, 8, 9, 10]].length
              [0xFE, 0xFE, 0x00, 0x10, 0x7F, 0xCD, 0x00, 0x00, 0x00, 0x00, 0x00, 0x01]).flatten,
            false⟩) :=
  ⟨control_headers_example, by decide, by decide, by decide, by decide, by decide, by decide,
    by decide,
    ReadPacket_control_handshake (NewDefaultProtocol none true) MaxPacketBodySize
      [controlPacket, [0xFE, 0xFE, 1, 2, 3, 4, 5, 6, 7, 8, 9, 10]] (frameHeader 24)
      (PacketHeader.encode true ⟨7, 1, 36, 1, 0, 5⟩) [0xAA] [] Slice.nil ⟨0xFDFD, 0, 24, 24⟩
      (.Keepalive ⟨7, 1, 36, 1, 0, 5⟩) control_headers_example (by decide) (by decide)
      (by decide) (by decide) (by decide) (by decide) (by decide)⟩

/-- The failure of C7 for a header with flag `0xABCD` followed by two more bytes. -/
theorem ReadPacket_unknown_header_witness :
    parseHeader ((Conn.mk [0xAB, 0xCD, 0, 0, 0, 0, 0, 1, 0, 0, 0, 1, 0x55, 0x66] [] false).input.take
      12) = .ok ⟨0xABCD, 0, 1, 1⟩ ∧
    (SWPacketHeader.mk 0xABCD 0 1 1).Flag ≠ DataPacketType ∧
    (SWPacketHeader.mk 0xABCD 0 1 1).Flag ≠ ControlPacketType ∧
    (NewDefaultProtocol none true).ReadPacket MaxPacketBodySize
        (Conn.mk [0xAB, 0xCD, 0, 0, 0, 0, 0, 1, 0, 0, 0, 1, 0x55, 0x66] [] false) Slice.nil
      = some (.error .ErrUnknwonPacketHeader,
          { (Conn.mk [0xAB, 0xCD, 0, 0, 0, 0, 0, 1, 0, 0, 0, 1, 0x55, 0x66] [] false) with
            input := (Conn.mk [0xAB, 0xCD, 0, 0, 0, 0, 0, 1, 0, 0, 0, 1, 0x55, 0x66] []
              false).input.drop 12 }) :=
  ⟨by decide, by decide, by decide,
    ReadPacket_unknown_header (NewDefaultProtocol none true) MaxPacketBodySize
      (Conn.mk [0xAB, 0xCD, 0, 0, 0, 0, 0, 1, 0, 0, 0, 1, 0x55, 0x66] [] false) Slice.nil
      ⟨0xABCD, 0, 1, 1⟩ (by decide) (by decide) (by decide)⟩

/-- The bound of C5 at the default maximum: a declared body length of exactly 524288 is
rejected and the three bytes after the header stay unread. -/
theorem ReadPacket_body_size_bound_witness :
    parseHeader ((Conn.mk [0xFD, 0xFD, 0, 0, 0, 8, 0, 0, 0, 8, 0, 0, 1, 2, 3] [] false).input.take
      12) = .ok ⟨0xFDFD, 0, 524288, 524288⟩ ∧
    (SWPacketHeader.mk 0xFDFD 0 524288 524288).Flag = DataPacketType ∧
    (∀ b, (NewDefaultProtocol none true).Reader.ReadBody b ≠ .error .ErrBodyTooBig) ∧
    MaxPacketBodySize ≤ (SWPacketHeader.mk 0xFDFD 0 524288 524288).BodyLength ∧
    (NewDefaultProtocol none true).ReadPacket MaxPacketBodySize
        (Conn.mk [0xFD, 0xFD, 0, 0, 0, 8, 0, 0, 0, 8, 0, 0, 1, 2, 3] [] false) Slice.nil
      = some (.error .ErrBodyTooBig, Conn.mk [1, 2, 3] [] false) :=
  ⟨by decide, by decide, fun b => DefaultBodyReadWriter.ReadBody_ne_tooBig _ b, by decide,
    (ReadPacket_body_size_bound (NewDefaultProtocol none true) MaxPacketBodySize
      (Conn.mk [0xFD, 0xFD, 0, 0, 0, 8, 0, 0, 0, 8, 0, 0, 1, 2, 3] [] false) Slice.nil
      ⟨0xFDFD, 0, 524288, 524288⟩ (by decide) (by decide)
      (fun b => DefaultBodyReadWriter.ReadBody_ne_tooBig _ b)).2.2 (by decide)⟩

/-- The layout of C8 for a new keepalive with a little-endian body and no scratch buffer. -/
theorem BuildPacket_frame_layout_witness :
    (NewDefaultProtocol none false).Writer.GetLength NewKeepalive = ((36 : Nat) : Int) ∧
    36 < 4294967296 ∧
    ((NewDefaultProtocol none false).Writer.Write NewKeepalive (bodyRegion Slice.nil 36)).1
      = .ok () ∧
    ∃ out packet', (NewDefaultProtocol none false).BuildPacket NewKeepalive Slice.nil
        = (.ok out, packet') ∧
      out.len = 36 + 12 ∧ out.bytes.length = 36 + 12 ∧
      out.bytes.take 12 = [0xFD, 0xFD, 0x00, 0x00] ++ be32 36 ++ be32 36 ∧
      parseHeader (out.bytes.take 12)
        = .ok { Flag := 0xFDFD, PacketFlag := 0, BodyLength := 36, SrcLength := 36 } :=
  ⟨by decide, by decide, by decide,
    BuildPacket_frame_layout (NewDefaultProtocol none false) NewKeepalive Slice.nil 36
      (by decide) (by decide) (by decide)⟩

/-- Claim C9, evaluated where it fails.  On a session just made by `NewSession` (any queue
size) with a close callback set, `Close()` changes nothing: the flag stays `-1`, the
connection is not closed, the stop signal is not fired and the callback is not invoked.  On
the same session after `Start()`, `Close()` does all four. -/
theorem Close_ignores_unstarted_session (sendChanSize : Nat) :
    (NewSession Packet sendChanSize).SetCloseCallback.Close
      = (.ok (), (NewSession Packet sendChanSize).SetCloseCallback) ∧
    ((NewSession Packet sendChanSize).SetCloseCallback.Close).2.closed = -1 ∧
    ((NewSession Packet sendChanSize).SetCloseCallback.Close).2.connCloseCalls = 0 ∧
    ((NewSession Packet sendChanSize).SetCloseCallback.Close).2.stopedChanClosed = false ∧
    ((NewSession Packet sendChanSize).SetCloseCallback.Close).2.closeCallbackCalls = 0 ∧
    ((NewSession Packet sendChanSize).SetCloseCallback.Start.Close).2.closed = 1 ∧
    ((NewSession Packet sendChanSize).SetCloseCallback.Start.Close).2.connCloseCalls = 1 ∧
    ((NewSession Packet sendChanSize).SetCloseCallback.Start.Close).2.stopedChanClosed = true ∧
    ((NewSession Packet sendChanSize).SetCloseCallback.Start.Close).2.closeCallbackCalls = 1 :=
  ⟨rfl, rfl, rfl, rfl, rfl, rfl, rfl, rfl, rfl⟩

/-- Claim C10, evaluated where it fails.  On a started and then closed session whose queue
of capacity 2 is empty, the outcomes of `AsyncSend` are `nil` with the packet enqueued, and
`ErrStoped` with nothing enqueued: the `select` may take either.  With no room in the queue
(capacity 0) the only outcome is `ErrStoped`. -/
theorem AsyncSend_after_Close_may_enqueue :
    ((NewSession Packet 2).Start.Close).2.stopedChanClosed = true ∧
    (((NewSession Packet 2).Start.Close).2.AsyncSend NewKeepalive).map (·.1)
      = [none, some .ErrStoped] ∧
    ((((NewSession Packet 2).Start.Close).2.AsyncSend NewKeepalive).map (·.2.sendChan))
      = [[NewKeepalive], []] ∧
    (((NewSession Packet 0).Start.Close).2.AsyncSend NewKeepalive).map (·.1)
      = [some .ErrStoped] := by
  decide

theorem sliceRange_natCast (buff : List Byte) (n k : Nat) (h : n + k ≤ buff.length) :
    sliceRange buff (n : Int) ((n : Int) + (k : Int)) = some ((buff.drop n).take k) := by
  have h1 : (0 : Int) ≤ n ∧ (n : Int) ≤ n + k ∧ (n : Int) + k ≤ buff.length := by omega
  have h2 : ((n : Int) + (k : Int)).toNat - n = k := by omega
  simp [sliceRange, h1, h2]

/-- Claim C16, raw range reads.  For both cursor variants, every cursor with a position
`0 ≤ p`, every `size` with `0 ≤ size ≤ Left()` and every destination `b` with
`len(b) ≤ Left()`: `ReadBuff(size)` returns without error a sequence of exactly `size` bytes,
the range `buff[p : p+size)`, and `CopyBuff(b)` returns without error with `b` holding the
range `buff[p : p+len(b))`; the source buffer is the same after either call. -/
theorem raw_range_reads (s : Stream) (size : Int) (b : List Byte)
    (hp : 0 ≤ s.pos) (h0 : 0 ≤ size) (hs : size ≤ s.Left) (hb : (b.length : Int) ≤ s.Left) :
    s.ReadBuff size = (.ok (region s.Data s.pos size.toNat), s.atPos (s.pos + size)) ∧
    (region s.Data s.pos size.toNat).length = size.toNat ∧
    (s.ReadBuff size).2.Data = s.Data ∧
    s.CopyBuff b = (.ok (region s.Data s.pos b.length), s) ∧
    (region s.Data s.pos b.length).length = b.length := by
  obtain ⟨n, hn⟩ := Int.eq_ofNat_of_zero_le hp
  obtain ⟨k, hk⟩ := Int.eq_ofNat_of_zero_le h0
  subst hk
  cases s with
  | big impl =>
    obtain ⟨p, buff⟩ := impl
    simp only [Stream.pos] at hn
    subst hn
    simp only [Stream.Left, BigEndianStreamImpl.Left] at hs hb
    have hl1 : ((buff.drop n).take k).length = k := by
      rw [List.length_take, List.length_drop]; omega
    have hl2 : ((buff.drop n).take b.length).length = b.length := by
      rw [List.length_take, List.length_drop]; omega
    have e1 : Stream.ReadBuff (.big ⟨n, buff⟩) k
        = (.ok ((buff.drop n).take k), .big ⟨(n : Int) + k, buff⟩) := by
      simp only [Stream.ReadBuff, Stream.call, BigEndianStreamImpl.ReadBuff,
        BigEndianStreamImpl.Left]
      rw [if_neg (by omega), if_neg (by omega), sliceRange_natCast buff n k (by omega)]
      simp only [Int.toNat_ofNat]
      rw [copy_same_length _ _ (by rw [hl1, List.length_replicate])]
    have e2 : Stream.CopyBuff (.big ⟨n, buff⟩) b
        = (.ok ((buff.drop n).take b.length), .big ⟨n, buff⟩) := by
      simp only [Stream.CopyBuff, Stream.call, BigEndianStreamImpl.CopyBuff,
        BigEndianStreamImpl.Left]
      rw [if_neg (by omega), sliceRange_natCast buff n b.length (by omega)]
      simp only
      rw [copy_same_length _ _ hl2]
    simp only [region, Stream.Data, BigEndianStreamImpl.Data, Stream.pos, Stream.atPos,
      Int.toNat_ofNat, e1, e2, hl1, hl2, and_self]
  | little impl =>
    obtain ⟨p, buff⟩ := impl
    simp only [Stream.pos] at hn
    subst hn
    simp only [Stream.Left, LittleEndianStreamImpl.Left] at hs hb
    have hl1 : ((buff.drop n).take k).length = k := by
      rw [List.length_take, List.length_drop]; omega
    have hl2 : ((buff.drop n).take b.length).length = b.length := by
      rw [List.length_take, List.length_drop]; omega
    have e1 : Stream.ReadBuff (.little ⟨n, buff⟩) k
        = (.ok ((buff.drop n).take k), .little ⟨(n : Int) + k, buff⟩) := by
      simp only [Stream.ReadBuff, Stream.call, LittleEndianStreamImpl.ReadBuff,
        LittleEndianStreamImpl.Left]
      rw [if_neg (by omega), if_neg (by omega), sliceRange_natCast buff n k (by omega)]
      simp only [Int.toNat_ofNat]
      rw [copy_same_length _ _ (by rw [hl1, List.length_replicate])]
    have e2 : Stream.CopyBuff (.little ⟨n, buff⟩) b
        = (.ok ((buff.drop n).take b.length), .little ⟨n, buff⟩) := by
      simp only [Stream.CopyBuff, Stream.call, LittleEndianStreamImpl.CopyBuff,
        LittleEndianStreamImpl.Left]
      rw [if_neg (by omega), sliceRange_natCast buff n b.length (by omega)]
      simp only
      rw [copy_same_length _ _ hl2]
    simp only [region, Stream.Data, LittleEndianStreamImpl.Data, Stream.pos, Stream.atPos,
      Int.toNat_ofNat, e1, e2, hl1, hl2, and_self]

/-- The range reads of C16 on a little-endian cursor at position 1 over four bytes. -/
theorem raw_range_reads_witness :
    0 ≤ (Stream.little ⟨1, [1, 2, 3, 4]⟩).pos ∧ (0 : Int) ≤ 2 ∧
    (2 : Int) ≤ (Stream.little ⟨1, [1, 2, 3, 4]⟩).Left ∧
    (([9, 9, 9] : List Byte).length : Int) ≤ (Stream.little ⟨1, [1, 2, 3, 4]⟩).Left ∧
    (Stream.little ⟨1, [1, 2, 3, 4]⟩).ReadBuff 2
      = (.ok (region (Stream.little ⟨1, [1, 2, 3, 4]⟩).Data (Stream.little ⟨1, [1, 2, 3, 4]⟩).pos
          (2 : Int).toNat),
        (Stream.little ⟨1, [1, 2, 3, 4]⟩).atPos ((Stream.little ⟨1, [1, 2, 3, 4]⟩).pos + 2)) ∧
    (region (Stream.little ⟨1, [1, 2, 3, 4]⟩).Data (Stream.little ⟨1, [1, 2, 3, 4]⟩).pos
      (2 : Int).toNat).length = (2 : Int).toNat ∧
    ((Stream.little ⟨1, [1, 2, 3, 4]⟩).ReadBuff 2).2.Data = (Stream.little ⟨1, [1, 2, 3, 4]⟩).Data ∧
    (Stream.little ⟨1, [1, 2, 3, 4]⟩).CopyBuff [9, 9, 9]
      = (.ok (region (Stream.little ⟨1, [1, 2, 3, 4]⟩).Data (Stream.little ⟨1, [1, 2, 3, 4]⟩).pos
          ([9, 9, 9] : List Byte).length), Stream.little ⟨1, [1, 2, 3, 4]⟩) ∧
    (region (Stream.little ⟨1, [1, 2, 3, 4]⟩).Data (Stream.little ⟨1, [1, 2, 3, 4]⟩).pos
      ([9, 9, 9] : List Byte).length).length = ([9, 9, 9] : List Byte).length :=
  ⟨by decide, by decide, by decide, by decide,
    raw_range_reads (Stream.little ⟨1, [1, 2, 3, 4]⟩) 2 [9, 9, 9] (by decide) (by decide)
      (by decide) (by decide)⟩

theorem bigEndianBytes_w16 (v : Nat) : bigEndianBytes .w16 v = [byte (v / 256), byte v] := by
  simp [bigEndianBytes, Width.bytes, List.range_succ]

theorem bigEndianBytes_w32 (v : Nat) :
    bigEndianBytes .w32 v = [byte (v / 16777216), byte (v / 65536), byte (v / 256), byte v] := by
  simp [bigEndianBytes, Width.bytes, List.range_succ]

theorem bigEndianBytes_w64 (v : Nat) :
    bigEndianBytes .w64 v = [byte (v / 72057594037927936), byte (v / 281474976710656),
      byte (v / 1099511627776), byte (v / 4294967296), byte (v / 16777216), byte (v / 65536),
      byte (v / 256), byte v] := by
  simp [bigEndianBytes, Width.bytes, List.range_succ]

/-- The range that starts where a prefix of the given length ends. -/
theorem region_after_take (buff bs post : List Byte) (n : Nat) (h : n ≤ buff.length) :
    region (buff.take n ++ (bs ++ post)) (n : Int) bs.length = bs := by
  have hl : (buff.take n).length = n := by rw [List.length_take]; omega
  simp only [region, Int.toNat_ofNat]
  rw [List.drop_left' hl, List.take_left' rfl]

/-- The same method on the two variants of a cursor, for the methods that handle no
multi-byte integer. -/
theorem run_same_in_both_variants (p : Int) (buff : List Byte) (op : StreamOp)
    (hop : op.byteOrderFree = true) :
    ((Stream.big ⟨p, buff⟩).run op).1 = ((Stream.little ⟨p, buff⟩).run op).1 ∧
    ((Stream.big ⟨p, buff⟩).run op).2.pos = ((Stream.little ⟨p, buff⟩).run op).2.pos ∧
    ((Stream.big ⟨p, buff⟩).run op).2.Data = ((Stream.little ⟨p, buff⟩).run op).2.Data := by
  cases op <;> simp only [StreamOp.byteOrderFree] at hop <;> first
    | exact absurd hop (by decide)
    | (simp only [Stream.run, Stream.call, Stream.ReadByte, Stream.ReadBuff, Stream.CopyBuff,
        Stream.WriteByte, Stream.WriteBuff,
        BigEndianStreamImpl.ReadByte, BigEndianStreamImpl.ReadBuff, BigEndianStreamImpl.CopyBuff,
        BigEndianStreamImpl.WriteByte, BigEndianStreamImpl.WriteBuff, BigEndianStreamImpl.Left,
        LittleEndianStreamImpl.ReadByte, LittleEndianStreamImpl.ReadBuff,
        LittleEndianStreamImpl.CopyBuff, LittleEndianStreamImpl.WriteByte,
        LittleEndianStreamImpl.WriteBuff, LittleEndianStreamImpl.Left]
       repeat' split
       all_goals simp_all [Stream.pos, Stream.Data, BigEndianStreamImpl.Data,
         LittleEndianStreamImpl.Data, Result.toOp])

/-- Claim C17, the two cursor variants differ only in integer byte order.  From the same
buffer and position `p`, for every width of 16, 32 or 64 bits and every value `v` that fits
the remaining length: both `WriteUintN(v)` succeed and move to the same position; the
big-endian one leaves the buffer with the bytes of `v`, most significant first, at `p`, the
little-endian one with the same bytes in reverse order, and both leave every other byte as it
was.  `Size`, `Left` and `Reset` agree, and `ReadByte`, `WriteByte`, `ReadBuff`, `CopyBuff`
and `WriteBuff` return the same result and produce the same buffer and position in both
variants, for all arguments. -/
theorem variants_differ_only_in_byte_order (p : Int) (buff : List Byte) :
    (∀ (w : Width) (v : Nat), 0 ≤ p → p + w.bytes ≤ buff.length →
      ((Stream.big ⟨p, buff⟩).WriteUint w v).1 = .ok () ∧
      ((Stream.little ⟨p, buff⟩).WriteUint w v).1 = .ok () ∧
      ((Stream.big ⟨p, buff⟩).WriteUint w v).2.pos = p + w.bytes ∧
      ((Stream.little ⟨p, buff⟩).WriteUint w v).2.pos = p + w.bytes ∧
      ((Stream.big ⟨p, buff⟩).WriteUint w v).2.Data
        = buff.take p.toNat ++ bigEndianBytes w v ++ buff.drop (p.toNat + w.bytes.toNat) ∧
      ((Stream.little ⟨p, buff⟩).WriteUint w v).2.Data
        = buff.take p.toNat ++ (bigEndianBytes w v).reverse
            ++ buff.drop (p.toNat + w.bytes.toNat)) ∧
    (Stream.big ⟨p, buff⟩).Size = (Stream.little ⟨p, buff⟩).Size ∧
    (Stream.big ⟨p, buff⟩).Left = (Stream.little ⟨p, buff⟩).Left ∧
    (∀ b, ((Stream.big ⟨p, buff⟩).Reset b).pos = ((Stream.little ⟨p, buff⟩).Reset b).pos ∧
      ((Stream.big ⟨p, buff⟩).Reset b).Data = ((Stream.little ⟨p, buff⟩).Reset b).Data) ∧
    (∀ op : StreamOp, op.byteOrderFree = true →
      ((Stream.big ⟨p, buff⟩).run op).1 = ((Stream.little ⟨p, buff⟩).run op).1 ∧
      ((Stream.big ⟨p, buff⟩).run op).2.pos = ((Stream.little ⟨p, buff⟩).run op).2.pos ∧
      ((Stream.big ⟨p, buff⟩).run op).2.Data = ((Stream.little ⟨p, buff⟩).run op).2.Data) := by
  refine ⟨?_, rfl, rfl, fun b => ⟨rfl, rfl⟩, fun op hop => run_same_in_both_variants p buff op hop⟩
  intro w v hp hl
  obtain ⟨n, rfl⟩ := Int.eq_ofNat_of_zero_le hp
  cases w <;> simp only [Width.bytes] at hl
  · have hb := BigEndianStreamImpl.WriteUint16_at_big n buff n v rfl (by omega)
    have hl' := LittleEndianStreamImpl.WriteUint16_at_little n buff n v rfl (by omega)
    simp [Stream.WriteUint, Stream.WriteUint16, Stream.call, hb, hl', Stream.pos, Stream.Data,
      BigEndianStreamImpl.Data, LittleEndianStreamImpl.Data, bigEndianBytes_w16, Width.bytes]
  · have hb := BigEndianStreamImpl.WriteUint32_at_big n buff n v rfl (by omega)
    have hl' := LittleEndianStreamImpl.WriteUint32_at_little n buff n v rfl (by omega)
    simp [Stream.WriteUint, Stream.WriteUint32, Stream.call, hb, hl', Stream.pos, Stream.Data,
      BigEndianStreamImpl.Data, LittleEndianStreamImpl.Data, bigEndianBytes_w32, Width.bytes]
  · have hb := BigEndianStreamImpl.WriteUint64_at_big n buff n v rfl (by omega)
    have hl' := LittleEndianStreamImpl.WriteUint64_at_little n buff n v rfl (by omega)
    simp [Stream.WriteUint, Stream.WriteUint64, Stream.call, hb, hl', Stream.pos, Stream.Data,
      BigEndianStreamImpl.Data, LittleEndianStreamImpl.Data, bigEndianBytes_w64, Width.bytes]

/-- A list of at least four bytes, taken apart. -/
theorem exists_cons4 (l : List Byte) (h : 4 ≤ l.length) :
    ∃ b0 b1 b2 b3 rest, l = b0 :: b1 :: b2 :: b3 :: rest := by
  match l, h with
  | b0 :: b1 :: b2 :: b3 :: rest, _ => exact ⟨b0, b1, b2, b3, rest, rfl⟩

/-- A call of `ReadUint32` through the interface, on a cursor at a position that is not
negative: it succeeds and moves four bytes on when four bytes are left, and fails with
`ErrBuffOverflow` without moving otherwise. -/
theorem Stream.ReadUint32_cases (s : Stream) (n : Nat) (hp : s.pos = n) :
    (n + 4 ≤ s.Data.length → ∃ v, s.ReadUint32 = (.ok v, s.atPos (n + 4))) ∧
    (s.Data.length < n + 4 → s.ReadUint32 = (.error .ErrBuffOverflow, s)) := by
  cases s with
  | big impl =>
    obtain ⟨p, buff⟩ := impl
    simp only [Stream.pos] at hp
    subst hp
    simp only [Stream.Data, BigEndianStreamImpl.Data]
    constructor
    · intro h
      obtain ⟨b0, b1, b2, b3, rest, hd⟩ := exists_cons4 (buff.drop n)
        (by rw [List.length_drop]; omega)
      refine ⟨b0.val * 16777216 + b1.val * 65536 + b2.val * 256 + b3.val, ?_⟩
      simp only [Stream.ReadUint32, Stream.call,
        BigEndianStreamImpl.ReadUint32_at_big n buff n b0 b1 b2 b3 rest rfl hd, Stream.atPos]
    · intro h
      simp only [Stream.ReadUint32, Stream.call, BigEndianStreamImpl.ReadUint32,
        BigEndianStreamImpl.Left]
      rw [if_pos (by omega)]
  | little impl =>
    obtain ⟨p, buff⟩ := impl
    simp only [Stream.pos] at hp
    subst hp
    simp only [Stream.Data, LittleEndianStreamImpl.Data]
    constructor
    · intro h
      obtain ⟨b0, b1, b2, b3, rest, hd⟩ := exists_cons4 (buff.drop n)
        (by rw [List.length_drop]; omega)
      refine ⟨b0.val + b1.val * 256 + b2.val * 65536 + b3.val * 16777216, ?_⟩
      simp only [Stream.ReadUint32, Stream.call,
        LittleEndianStreamImpl.ReadUint32_at_little n buff n b0 b1 b2 b3 rest rfl hd,
        Stream.atPos]
    · intro h
      simp only [Stream.ReadUint32, Stream.call, LittleEndianStreamImpl.ReadUint32,
        LittleEndianStreamImpl.Left]
      rw [if_pos (by omega)]

theorem Stream.atPos_pos (s : Stream) (p : Int) : (s.atPos p).pos = p := by
  cases s <;> rfl

theorem Stream.atPos_Data (s : Stream) (p : Int) : (s.atPos p).Data = s.Data := by
  cases s <;> rfl

/-- The function `PacketHeader.Read` on a cursor at position 0 over fewer than 24 bytes fails
with `ErrBuffOverflow`. -/
theorem PacketHeader.Read_short (p : PacketHeader) (s : Stream) (hp : s.pos = 0)
    (h : s.Data.length < 24) : (p.Read s).1 = .error .ErrBuffOverflow := by
  unfold PacketHeader.Read
  by_cases h1 : 0 + 4 ≤ s.Data.length
  · obtain ⟨v1, e1⟩ := (Stream.ReadUint32_cases s 0 (by simpa using hp)).1 h1
    rw [e1]
    simp only
    by_cases h2 : 4 + 4 ≤ s.Data.length
    · obtain ⟨v2, e2⟩ := (Stream.ReadUint32_cases (s.atPos ((0 : Nat) + 4)) 4
        (by rw [Stream.atPos_pos]; rfl)).1 (by rw [Stream.atPos_Data]; exact h2)
      rw [e2]
      simp only
      by_cases h3 : 8 + 4 ≤ s.Data.length
      · obtain ⟨v3, e3⟩ := (Stream.ReadUint32_cases ((s.atPos ((0 : Nat) + 4)).atPos
          ((4 : Nat) + 4)) 8 (by rw [Stream.atPos_pos]; rfl)).1
          (by rw [Stream.atPos_Data, Stream.atPos_Data]; exact h3)
        rw [e3]
        simp only
        by_cases h4 : 12 + 4 ≤ s.Data.length
        · obtain ⟨v4, e4⟩ := (Stream.ReadUint32_cases (((s.atPos ((0 : Nat) + 4)).atPos
            ((4 : Nat) + 4)).atPos ((8 : Nat) + 4)) 12 (by rw [Stream.atPos_pos]; rfl)).1
            (by rw [Stream.atPos_Data, Stream.atPos_Data, Stream.atPos_Data]; exact h4)
          rw [e4]
          simp only
          by_cases h5 : 16 + 4 ≤ s.Data.length
          · obtain ⟨v5, e5⟩ := (Stream.ReadUint32_cases ((((s.atPos ((0 : Nat) + 4)).atPos
              ((4 : Nat) + 4)).atPos ((8 : Nat) + 4)).atPos ((12 : Nat) + 4)) 16
              (by rw [Stream.atPos_pos]; rfl)).1
              (by rw [Stream.atPos_Data, Stream.atPos_Data, Stream.atPos_Data,
                    Stream.atPos_Data]; exact h5)
            rw [e5]
            simp only
            have e6 := (Stream.ReadUint32_cases (((((s.atPos ((0 : Nat) + 4)).atPos
              ((4 : Nat) + 4)).atPos ((8 : Nat) + 4)).atPos ((12 : Nat) + 4)).atPos
              ((16 : Nat) + 4)) 20 (by rw [Stream.atPos_pos]; rfl)).2
              (by rw [Stream.atPos_Data, Stream.atPos_Data, Stream.atPos_Data,
                    Stream.atPos_Data, Stream.atPos_Data]; omega)
            rw [e6]
            rfl
          · have e5 := (Stream.ReadUint32_cases ((((s.atPos ((0 : Nat) + 4)).atPos
              ((4 : Nat) + 4)).atPos ((8 : Nat) + 4)).atPos ((12 : Nat) + 4)) 16
              (by rw [Stream.atPos_pos]; rfl)).2
              (by rw [Stream.atPos_Data, Stream.atPos_Data, Stream.atPos_Data,
                    Stream.atPos_Data]; omega)
            rw [e5]
            rfl
        · have e4 := (Stream.ReadUint32_cases (((s.atPos ((0 : Nat) + 4)).atPos
            ((4 : Nat) + 4)).atPos ((8 : Nat) + 4)) 12 (by rw [Stream.atPos_pos]; rfl)).2
            (by rw [Stream.atPos_Data, Stream.atPos_Data, Stream.atPos_Data]; omega)
          rw [e4]
          rfl
      · have e3 := (Stream.ReadUint32_cases ((s.atPos ((0 : Nat) + 4)).atPos
          ((4 : Nat) + 4)) 8 (by rw [Stream.atPos_pos]; rfl)).2
          (by rw [Stream.atPos_Data, Stream.atPos_Data]; omega)
        rw [e3]
        rfl
    · have e2 := (Stream.ReadUint32_cases (s.atPos ((0 : Nat) + 4)) 4
        (by rw [Stream.atPos_pos]; rfl)).2 (by rw [Stream.atPos_Data]; omega)
      rw [e2]
      rfl
  · have e1 := (Stream.ReadUint32_cases s 0 (by simpa using hp)).2 (by omega)
    rw [e1]
    rfl

/-- The body reader of the default protocol, without a cacher, on a body of fewer than 24
bytes. -/
theorem ReadBody_short (bigEndian : Bool) (b : List Byte) (h : b.length < 24) :
    (NewDefaultBodyReadWriter none bigEndian).ReadBody b = .error .ErrBuffOverflow := by
  have key : ∀ s : Stream, s.pos = 0 → s.Data.length < 24 →
      ((NewPacketFactory none).CreatePacket s).1 = .error .ErrBuffOverflow := by
    intro s hp hl
    have hr := PacketHeader.Read_short PacketHeader.zero s hp hl
    unfold PacketFactory.CreatePacket
    generalize PacketHeader.zero.Read s = R at hr
    obtain ⟨r, ph, s'⟩ := R
    simp only at hr
    subst hr
    rfl
  unfold DefaultBodyReadWriter.ReadBody
  cases bigEndian
  · exact key _ rfl h
  · exact key _ rfl h

/-- The body reader of the default protocol, without a cacher, on a body of at least 24
bytes. -/
theorem ReadBody_long (bigEndian : Bool) (b : List Byte) (h : 24 ≤ b.length) :
    (NewDefaultBodyReadWriter none bigEndian).ReadBody b
      = if (headerAt bigEndian b).PacketType = PKTTYPE_KEEPALIVE then
          .ok (.Keepalive (headerAt bigEndian b))
        else if (headerAt bigEndian b).PacketType = PKTTYPE_KEEPALIVEACK then
          .ok (.KeepaliveAck (headerAt bigEndian b))
        else .error .ErrUnknownPacket := by
  obtain ⟨b0, b1, b2, b3, b4, b5, b6, b7, b8, b9, b10, b11, b12, b13, b14, b15, b16, b17, b18, b19, b20, b21, b22, b23, rest, rfl⟩ := exists_cons24 b h
  cases bigEndian
  · have key := PacketHeader.Read_little PacketHeader.zero b0 b1 b2 b3 b4 b5 b6 b7 b8 b9 b10 b11 b12 b13 b14 b15 b16 b17 b18 b19 b20 b21 b22 b23 rest
    have hh : headerAt false (b0 :: b1 :: b2 :: b3 :: b4 :: b5 :: b6 :: b7 :: b8 :: b9 :: b10 :: b11 :: b12 :: b13 :: b14 :: b15 :: b16 :: b17 :: b18 :: b19 :: b20 :: b21 :: b22 :: b23 :: rest)
        = { ID := b0.val + b1.val * 256 + b2.val * 65536 + b3.val * 16777216,
            PacketType := b4.val + b5.val * 256 + b6.val * 65536 + b7.val * 16777216,
            Len := b8.val + b9.val * 256 + b10.val * 65536 + b11.val * 16777216,
            Version := b12.val + b13.val * 256 + b14.val * 65536 + b15.val * 16777216,
            Ack := b16.val + b17.val * 256 + b18.val * 65536 + b19.val * 16777216,
            Token := b20.val + b21.val * 256 + b22.val * 65536 + b23.val * 16777216 } := rfl
    rw [← hh] at key
    generalize headerAt false (b0 :: b1 :: b2 :: b3 :: b4 :: b5 :: b6 :: b7 :: b8 :: b9 :: b10 :: b11 :: b12 :: b13 :: b14 :: b15 :: b16 :: b17 :: b18 :: b19 :: b20 :: b21 :: b22 :: b23 :: rest) = H at key ⊢
    simp only [DefaultBodyReadWriter.ReadBody, NewDefaultBodyReadWriter, NewPacketFactory,
      PacketFactory.CreatePacket, Bool.false_eq_true, if_false, key, Packet.Read]
    by_cases h1 : H.PacketType = PKTTYPE_KEEPALIVE
    · rw [if_pos h1]
    · by_cases h2 : H.PacketType = PKTTYPE_KEEPALIVEACK
      · rw [if_neg h1, if_pos h2]
      · rw [if_neg h1, if_neg h2]
  · have key := PacketHeader.Read_big PacketHeader.zero b0 b1 b2 b3 b4 b5 b6 b7 b8 b9 b10 b11 b12 b13 b14 b15 b16 b17 b18 b19 b20 b21 b22 b23 rest
    have hh : headerAt true (b0 :: b1 :: b2 :: b3 :: b4 :: b5 :: b6 :: b7 :: b8 :: b9 :: b10 :: b11 :: b12 :: b13 :: b14 :: b15 :: b16 :: b17 :: b18 :: b19 :: b20 :: b21 :: b22 :: b23 :: rest)
        = { ID := b0.val * 16777216 + b1.val * 65536 + b2.val * 256 + b3.val,
            PacketType := b4.val * 16777216 + b5.val * 65536 + b6.val * 256 + b7.val,
            Len := b8.val * 16777216 + b9.val * 65536 + b10.val * 256 + b11.val,
            Version := b12.val * 16777216 + b13.val * 65536 + b14.val * 256 + b15.val,
            Ack := b16.val * 16777216 + b17.val * 65536 + b18.val * 256 + b19.val,
            Token := b20.val * 16777216 + b21.val * 65536 + b22.val * 256 + b23.val } := rfl
    rw [← hh] at key
    generalize headerAt true (b0 :: b1 :: b2 :: b3 :: b4 :: b5 :: b6 :: b7 :: b8 :: b9 :: b10 :: b11 :: b12 :: b13 :: b14 :: b15 :: b16 :: b17 :: b18 :: b19 :: b20 :: b21 :: b22 :: b23 :: rest) = H at key ⊢
    simp only [DefaultBodyReadWriter.ReadBody, NewDefaultBodyReadWriter, NewPacketFactory,
      PacketFactory.CreatePacket, if_true, key, Packet.Read]
    by_cases h1 : H.PacketType = PKTTYPE_KEEPALIVE
    · rw [if_pos h1]
    · by_cases h2 : H.PacketType = PKTTYPE_KEEPALIVEACK
      · rw [if_neg h1, if_pos h2]
      · rw [if_neg h1, if_neg h2]

/-- The header fields of a body depend on its first 24 bytes only. -/
theorem headerAt_take (bigEndian : Bool) (b : List Byte) (h : 24 ≤ b.length) :
    headerAt bigEndian (b.take 24) = headerAt bigEndian b := by
  obtain ⟨b0, b1, b2, b3, b4, b5, b6, b7, b8, b9, b10, b11, b12, b13, b14, b15, b16, b17, b18, b19, b20, b21, b22, b23, rest, rfl⟩ := exists_cons24 b h
  cases bigEndian <;> rfl

/-- Claim C18, body decoding with a nil cacher.  For either byte order and every body `b`:
with fewer than 24 bytes `ReadBody` fails with `ErrBuffOverflow`; otherwise, with the six
`uint32` fields read in the byte order from the first 24 bytes, it returns a `Keepalive` that
carries them when the type field is `0x00000001`, a `KeepaliveAck` that carries them when it is
`0x80000001`, and fails with `ErrUnknownPacket` for every other type field.  The result on
a body of at least 24 bytes is the result on its first 24 bytes. -/
theorem ReadBody_nil_cacher (bigEndian : Bool) (b : List Byte) :
    (NewDefaultBodyReadWriter none bigEndian).ReadBody b
      = (if b.length < 24 then .error .ErrBuffOverflow
         else if (headerAt bigEndian b).PacketType = 0x00000001 then
           .ok (.Keepalive (headerAt bigEndian b))
         else if (headerAt bigEndian b).PacketType = 0x80000001 then
           .ok (.KeepaliveAck (headerAt bigEndian b))
         else .error .ErrUnknownPacket) ∧
    (NewDefaultBodyReadWriter none bigEndian).ReadBody b
      = (if b.length < 24 then .error .ErrBuffOverflow
         else (NewDefaultBodyReadWriter none bigEndian).ReadBody (b.take 24)) := by
  by_cases h : b.length < 24
  · rw [if_pos h, if_pos h]
    exact ⟨ReadBody_short bigEndian b h, ReadBody_short bigEndian b h⟩
  · rw [if_neg h, if_neg h]
    have h24 : (b.take 24).length = 24 := by rw [List.length_take]; omega
    refine ⟨ReadBody_long bigEndian b (by omega), ?_⟩
    rw [ReadBody_long bigEndian b (by omega), ReadBody_long bigEndian (b.take 24) (by omega),
      headerAt_take bigEndian b (by omega)]

theorem sliceFrom_some (buff : List Byte) (pos : Int) (t : List Byte)
    (h : sliceFrom buff pos = some t) :
    0 ≤ pos ∧ pos ≤ buff.length ∧ t = buff.drop pos.toNat := by
  unfold sliceFrom at h
  split at h
  · rename_i hc
    simp only [Option.some.injEq] at h
    exact ⟨hc.1, hc.2, h.symm⟩
  · simp at h

theorem storeFrom_length (buff : List Byte) (pos : Int) (t : List Byte)
    (h1 : pos ≤ buff.length) (ht : t.length = (buff.drop pos.toNat).length) :
    (storeFrom buff pos t).length = buff.length := by
  unfold storeFrom
  simp only [List.length_append, List.length_take, ht, List.length_drop]
  omega

theorem bind_put_length (buff : List Byte) (pos : Int) (t : List Byte)
    (put : List Byte → Option (List Byte))
    (hput : ∀ a r, put a = some r → r.length = a.length)
    (h : (sliceFrom buff pos).bind put = some t) :
    (storeFrom buff pos t).length = buff.length := by
  cases hs : sliceFrom buff pos with
  | none => rw [hs] at h; simp at h
  | some a =>
    rw [hs] at h
    simp only [Option.some_bind] at h
    obtain ⟨_, h1, rfl⟩ := sliceFrom_some buff pos a hs
    exact storeFrom_length buff pos t h1 (hput _ _ h)

theorem BigEndian.PutUint16_length_big (v : Nat) (a r : List Byte)
    (h : BigEndian.PutUint16 a v = some r) : r.length = a.length := by
  unfold BigEndian.PutUint16 at h
  split at h
  · simp at h
  · simp only [Option.some.injEq] at h
    subst h
    simp only [List.length_cons, List.length_drop]
    omega

theorem BigEndian.PutUint32_length_big (v : Nat) (a r : List Byte)
    (h : BigEndian.PutUint32 a v = some r) : r.length = a.length := by
  unfold BigEndian.PutUint32 at h
  split at h
  · simp at h
  · simp only [Option.some.injEq] at h
    subst h
    simp only [List.length_cons, List.length_drop]
    omega

theorem BigEndian.PutUint64_length_big (v : Nat) (a r : List Byte)
    (h : BigEndian.PutUint64 a v = some r) : r.length = a.length := by
  unfold BigEndian.PutUint64 at h
  split at h
  · simp at h
  · simp only [Option.some.injEq] at h
    subst h
    simp only [List.length_cons, List.length_drop]
    omega

theorem LittleEndian.PutUint16_length_little (v : Nat) (a r : List Byte)
    (h : LittleEndian.PutUint16 a v = some r) : r.length = a.length := by
  unfold LittleEndian.PutUint16 at h
  split at h
  · simp at h
  · simp only [Option.some.injEq] at h
    subst h
    simp only [List.length_cons, List.length_drop]
    omega

theorem LittleEndian.PutUint32_length_little (v : Nat) (a r : List Byte)
    (h : LittleEndian.PutUint32 a v = some r) : r.length = a.length := by
  unfold LittleEndian.PutUint32 at h
  split at h
  · simp at h
  · simp only [Option.some.injEq] at h
    subst h
    simp only [List.length_cons, List.length_drop]
    omega

theorem LittleEndian.PutUint64_length_little (v : Nat) (a r : List Byte)
    (h : LittleEndian.PutUint64 a v = some r) : r.length = a.length := by
  unfold LittleEndian.PutUint64 at h
  split at h
  · simp at h
  · simp only [Option.some.injEq] at h
    subst h
    simp only [List.length_cons, List.length_drop]
    omega

theorem copy_slice_length (buff : List Byte) (pos : Int) (t src : List Byte)
    (h : sliceFrom buff pos = some t) :
    (storeFrom buff pos (copy t src)).length = buff.length := by
  obtain ⟨_, h1, rfl⟩ := sliceFrom_some buff pos t h
  exact storeFrom_length buff pos _ h1 (copy_length _ _)


/-- One method call on a big-endian cursor keeps the position between 0 and the
length of the buffer. -/
theorem BigEndianStreamImpl.step_inv_big (p : Int) (buff : List Byte) (o : StreamOp)
    (h0 : 0 ≤ p) (h1 : p ≤ buff.length) :
    0 ≤ ((Stream.big ⟨p, buff⟩).run o).2.pos ∧
      ((Stream.big ⟨p, buff⟩).run o).2.pos ≤ ((Stream.big ⟨p, buff⟩).run o).2.Data.length := by
  cases o with
  | ReadByte =>
    simp only [Stream.run, Stream.ReadByte, Stream.call, BigEndianStreamImpl.ReadByte, BigEndianStreamImpl.Left]
    split
    · exact ⟨h0, h1⟩
    · split
      · exact ⟨h0, h1⟩
      · simp only [Stream.pos, Stream.Data, BigEndianStreamImpl.Data]; omega
  | ReadUint16 =>
    simp only [Stream.run, Stream.ReadUint16, Stream.call, BigEndianStreamImpl.ReadUint16, BigEndianStreamImpl.Left]
    split
    · exact ⟨h0, h1⟩
    · split
      · exact ⟨h0, h1⟩
      · simp only [Stream.pos, Stream.Data, BigEndianStreamImpl.Data]; omega
  | ReadUint32 =>
    simp only [Stream.run, Stream.ReadUint32, Stream.call, BigEndianStreamImpl.ReadUint32, BigEndianStreamImpl.Left]
    split
    · exact ⟨h0, h1⟩
    · split
      · exact ⟨h0, h1⟩
      · simp only [Stream.pos, Stream.Data, BigEndianStreamImpl.Data]; omega
  | ReadUint64 =>
    simp only [Stream.run, Stream.ReadUint64, Stream.call, BigEndianStreamImpl.ReadUint64, BigEndianStreamImpl.Left]
    split
    · exact ⟨h0, h1⟩
    · split
      · exact ⟨h0, h1⟩
      · simp only [Stream.pos, Stream.Data, BigEndianStreamImpl.Data]; omega
  | ReadBuff size =>
    simp only [Stream.run, Stream.ReadBuff, Stream.call, BigEndianStreamImpl.ReadBuff, BigEndianStreamImpl.Left]
    split
    · exact ⟨h0, h1⟩
    · split
      · exact ⟨h0, h1⟩
      · split
        · exact ⟨h0, h1⟩
        · simp only [Stream.pos, Stream.Data, BigEndianStreamImpl.Data]; omega
  | CopyBuff b =>
    simp only [Stream.run, Stream.CopyBuff, Stream.call, BigEndianStreamImpl.CopyBuff, BigEndianStreamImpl.Left]
    split
    · exact ⟨h0, h1⟩
    · split <;> exact ⟨h0, h1⟩
  | WriteByte b =>
    simp only [Stream.run, Stream.WriteByte, Stream.call, BigEndianStreamImpl.WriteByte, BigEndianStreamImpl.Left]
    split
    · exact ⟨h0, h1⟩
    · split
      · simp only [Stream.pos, Stream.Data, BigEndianStreamImpl.Data, List.length_set]; omega
      · exact ⟨h0, h1⟩
  | WriteUint16 b =>
    simp only [Stream.run, Stream.WriteUint16, Stream.call, BigEndianStreamImpl.WriteUint16, BigEndianStreamImpl.Left]
    split
    · exact ⟨h0, h1⟩
    · split
      · exact ⟨h0, h1⟩
      · rename_i t ht
        simp only [Stream.pos, Stream.Data, BigEndianStreamImpl.Data]
        rw [bind_put_length buff p t _ (BigEndian.PutUint16_length_big b) ht]
        omega
  | WriteUint32 b =>
    simp only [Stream.run, Stream.WriteUint32, Stream.call, BigEndianStreamImpl.WriteUint32, BigEndianStreamImpl.Left]
    split
    · exact ⟨h0, h1⟩
    · split
      · exact ⟨h0, h1⟩
      · rename_i t ht
        simp only [Stream.pos, Stream.Data, BigEndianStreamImpl.Data]
        rw [bind_put_length buff p t _ (BigEndian.PutUint32_length_big b) ht]
        omega
  | WriteUint64 b =>
    simp only [Stream.run, Stream.WriteUint64, Stream.call, BigEndianStreamImpl.WriteUint64, BigEndianStreamImpl.Left]
    split
    · exact ⟨h0, h1⟩
    · split
      · exact ⟨h0, h1⟩
      · rename_i t ht
        simp only [Stream.pos, Stream.Data, BigEndianStreamImpl.Data]
        rw [bind_put_length buff p t _ (BigEndian.PutUint64_length_big b) ht]
        omega
  | WriteBuff src =>
    simp only [Stream.run, Stream.WriteBuff, Stream.call, BigEndianStreamImpl.WriteBuff, BigEndianStreamImpl.Left]
    split
    · exact ⟨h0, h1⟩
    · split
      · exact ⟨h0, h1⟩
      · rename_i t ht
        simp only [Stream.pos, Stream.Data, BigEndianStreamImpl.Data]
        rw [copy_slice_length buff p t src ht]
        omega

/-- One method call on a little-endian cursor keeps the position between 0 and the
length of the buffer. -/
theorem LittleEndianStreamImpl.step_inv_little (p : Int) (buff : List Byte) (o : StreamOp)
    (h0 : 0 ≤ p) (h1 : p ≤ buff.length) :
    0 ≤ ((Stream.little ⟨p, buff⟩).run o).2.pos ∧
      ((Stream.little ⟨p, buff⟩).run o).2.pos ≤ ((Stream.little ⟨p, buff⟩).run o).2.Data.length := by
  cases o with
  | ReadByte =>
    simp only [Stream.run, Stream.ReadByte, Stream.call, LittleEndianStreamImpl.ReadByte, LittleEndianStreamImpl.Left]
    split
    · exact ⟨h0, h1⟩
    · split
      · exact ⟨h0, h1⟩
      · simp only [Stream.pos, Stream.Data, LittleEndianStreamImpl.Data]; omega
  | ReadUint16 =>
    simp only [Stream.run, Stream.ReadUint16, Stream.call, LittleEndianStreamImpl.ReadUint16, LittleEndianStreamImpl.Left]
    split
    · exact ⟨h0, h1⟩
    · split
      · exact ⟨h0, h1⟩
      · simp only [Stream.pos, Stream.Data, LittleEndianStreamImpl.Data]; omega
  | ReadUint32 =>
    simp only [Stream.run, Stream.ReadUint32, Stream.call, LittleEndianStreamImpl.ReadUint32, LittleEndianStreamImpl.Left]
    split
    · exact ⟨h0, h1⟩
    · split
      · exact ⟨h0, h1⟩
      · simp only [Stream.pos, Stream.Data, LittleEndianStreamImpl.Data]; omega
  | ReadUint64 =>
    simp only [Stream.run, Stream.ReadUint64, Stream.call, LittleEndianStreamImpl.ReadUint64, LittleEndianStreamImpl.Left]
    split
    · exact ⟨h0, h1⟩
    · split
      · exact ⟨h0, h1⟩
      · simp only [Stream.pos, Stream.Data, LittleEndianStreamImpl.Data]; omega
  | ReadBuff size =>
    simp only [Stream.run, Stream.ReadBuff, Stream.call, LittleEndianStreamImpl.ReadBuff, LittleEndianStreamImpl.Left]
    split
    · exact ⟨h0, h1⟩
    · split
      · exact ⟨h0, h1⟩
      · split
        · exact ⟨h0, h1⟩
        · simp only [Stream.pos, Stream.Data, LittleEndianStreamImpl.Data]; omega
  | CopyBuff b =>
    simp only [Stream.run, Stream.CopyBuff, Stream.call, LittleEndianStreamImpl.CopyBuff, LittleEndianStreamImpl.Left]
    split
    · exact ⟨h0, h1⟩
    · split <;> exact ⟨h0, h1⟩
  | WriteByte b =>
    simp only [Stream.run, Stream.WriteByte, Stream.call, LittleEndianStreamImpl.WriteByte, LittleEndianStreamImpl.Left]
    split
    · exact ⟨h0, h1⟩
    · split
      · simp only [Stream.pos, Stream.Data, LittleEndianStreamImpl.Data, List.length_set]; omega
      · exact ⟨h0, h1⟩
  | WriteUint16 b =>
    simp only [Stream.run, Stream.WriteUint16, Stream.call, LittleEndianStreamImpl.WriteUint16, LittleEndianStreamImpl.Left]
    split
    · exact ⟨h0, h1⟩
    · split
      · exact ⟨h0, h1⟩
      · rename_i t ht
        simp only [Stream.pos, Stream.Data, LittleEndianStreamImpl.Data]
        rw [bind_put_length buff p t _ (LittleEndian.PutUint16_length_little b) ht]
        omega
  | WriteUint32 b =>
    simp only [Stream.run, Stream.WriteUint32, Stream.call, LittleEndianStreamImpl.WriteUint32, LittleEndianStreamImpl.Left]
    split
    · exact ⟨h0, h1⟩
    · split
      · exact ⟨h0, h1⟩
      · rename_i t ht
        simp only [Stream.pos, Stream.Data, LittleEndianStreamImpl.Data]
        rw [bind_put_length buff p t _ (LittleEndian.PutUint32_length_little b) ht]
        omega
  | WriteUint64 b =>
    simp only [Stream.run, Stream.WriteUint64, Stream.call, LittleEndianStreamImpl.WriteUint64, LittleEndianStreamImpl.Left]
    split
    · exact ⟨h0, h1⟩
    · split
      · exact ⟨h0, h1⟩
      · rename_i t ht
        simp only [Stream.pos, Stream.Data, LittleEndianStreamImpl.Data]
        rw [bind_put_length buff p t _ (LittleEndian.PutUint64_length_little b) ht]
        omega
  | WriteBuff src =>
    simp only [Stream.run, Stream.WriteBuff, Stream.call, LittleEndianStreamImpl.WriteBuff, LittleEndianStreamImpl.Left]
    split
    · exact ⟨h0, h1⟩
    · split
      · exact ⟨h0, h1⟩
      · rename_i t ht
        simp only [Stream.pos, Stream.Data, LittleEndianStreamImpl.Data]
        rw [copy_slice_length buff p t src ht]
        omega

/-- One step keeps the position between 0 and the length of the buffer. -/
theorem Stream.exec_inv (s : Stream) (c : CursorStep)
    (h : 0 ≤ s.pos ∧ s.pos ≤ s.Data.length) :
    0 ≤ (s.exec c).pos ∧ (s.exec c).pos ≤ (s.exec c).Data.length := by
  cases c with
  | op o =>
    cases s with
    | big impl => exact BigEndianStreamImpl.step_inv_big impl.pos impl.buff o h.1 h.2
    | little impl => exact LittleEndianStreamImpl.step_inv_little impl.pos impl.buff o h.1 h.2
  | reset buff =>
    cases s with
    | big impl =>
      simp only [Stream.exec, Stream.Reset, BigEndianStreamImpl.Reset, Stream.pos, Stream.Data,
        BigEndianStreamImpl.Data]
      omega
    | little impl =>
      simp only [Stream.exec, Stream.Reset, LittleEndianStreamImpl.Reset, Stream.pos, Stream.Data,
        LittleEndianStreamImpl.Data]
      omega

/-- A sequence of steps keeps the position between 0 and the length of the
buffer. -/
theorem Stream.execAll_inv (steps : List CursorStep) (s : Stream)
    (h : 0 ≤ s.pos ∧ s.pos ≤ s.Data.length) :
    0 ≤ (s.execAll steps).pos ∧ (s.execAll steps).pos ≤ (s.execAll steps).Data.length := by
  induction steps generalizing s with
  | nil => exact h
  | cons c cs ih => exact ih (s.exec c) (Stream.exec_inv s c h)

/-- Go `Left()` and `Size()` in terms of the position and the buffer. -/
theorem Stream.Left_Size (s : Stream) :
    s.Left = s.Data.length - s.pos ∧ s.Size = s.Data.length := by
  cases s <;> exact ⟨rfl, rfl⟩

/-- Claim C20, cursor position invariant.  For both cursor variants, a cursor at position 0
(as made by `NewBigEndianStream` / `NewLittleEndianStream` or rebound by `Reset`) has, after
every finite sequence of method calls and `Reset`s, whatever their arguments and whether
they succeed or fail, a position `p` with `0 ≤ p ≤ len(buff)`; hence `Left()` is not
negative and `Left() + p = Size()`. -/
theorem cursor_position_invariant (s : Stream) (steps : List CursorStep) (h0 : s.pos = 0) :
    0 ≤ (s.execAll steps).pos ∧
    (s.execAll steps).pos ≤ (s.execAll steps).Data.length ∧
    0 ≤ (s.execAll steps).Left ∧
    (s.execAll steps).Left + (s.execAll steps).pos = (s.execAll steps).Size := by
  have h := Stream.execAll_inv steps s ⟨by omega, by omega⟩
  obtain ⟨hl, hs⟩ := Stream.Left_Size (s.execAll steps)
  refine ⟨h.1, h.2, ?_, ?_⟩ <;> omega

/-- The invariant of C20 after a run on a little-endian cursor over four bytes with a
failing read, a range read, a write, a `Reset` to a shorter buffer and a byte read. -/
theorem cursor_position_invariant_witness :
    (Stream.little (NewLittleEndianStream [1, 2, 3, 4])).pos = 0 ∧
    (Stream.little (NewLittleEndianStream [1, 2, 3, 4])).execAll
      [.op .ReadUint64, .op (.ReadBuff 1), .op (.WriteUint16 7), .reset [5, 6], .op .ReadByte]
      = Stream.little ⟨1, [5, 6]⟩ ∧
    (0 : Int) ≤ 1 ∧ (1 : Int) ≤ ([5, 6] : List Byte).length ∧
    (0 : Int) ≤ (Stream.little ⟨1, [5, 6]⟩).Left ∧
    (Stream.little ⟨1, [5, 6]⟩).Left + 1 = (Stream.little ⟨1, [5, 6]⟩).Size :=
  ⟨rfl, by decide, (cursor_position_invariant
    (Stream.little (NewLittleEndianStream [1, 2, 3, 4]))
    [.op .ReadUint64, .op (.ReadBuff 1), .op (.WriteUint16 7), .reset [5, 6], .op .ReadByte] rfl)⟩

/-- Claim C15, refuted.  For every `Keepalive` or `KeepaliveAck` packet and either byte order,
`Length()` (and so `GetLength` of the body writer) is 36, while `Write` on a cursor over a
buffer of exactly 36 bytes succeeds at position 24 with `Left() = 12`: it writes 24 bytes,
twelve fewer than the reported length. -/
theorem Length_exceeds_bytes_written (p : Packet) (bigEndian : Bool) (c : Option PacketCacher) :
    p.Length = 36 ∧ (NewDefaultBodyReadWriter c bigEndian).GetLength p = 36 ∧
    (p.Write (if bigEndian then .big (NewBigEndianStream (List.replicate 36 0))
        else .little (NewLittleEndianStream (List.replicate 36 0)))).1 = .ok () ∧
    (p.Write (if bigEndian then .big (NewBigEndianStream (List.replicate 36 0))
        else .little (NewLittleEndianStream (List.replicate 36 0)))).2.pos = 24 ∧
    (p.Write (if bigEndian then .big (NewBigEndianStream (List.replicate 36 0))
        else .little (NewLittleEndianStream (List.replicate 36 0)))).2.Left = 12 := by
  have hl : (List.replicate 36 (0 : Byte))
      = 0 :: 0 :: 0 :: 0 :: 0 :: 0 :: 0 :: 0 :: 0 :: 0 :: 0 :: 0 :: 0 :: 0 :: 0 :: 0 :: 0 :: 0
        :: 0 :: 0 :: 0 :: 0 :: 0 :: 0 :: List.replicate 12 0 := rfl
  refine ⟨rfl, rfl, ?_⟩
  rw [hl]
  cases bigEndian
  · simp only [Bool.false_eq_true, if_false, Packet.Write, PacketHeader.Write_little]
    exact ⟨trivial, rfl, rfl⟩
  · simp only [if_true, Packet.Write, PacketHeader.Write_big]
    exact ⟨trivial, rfl, rfl⟩

/-- Claim C19, refuted.  With the default protocol (big-endian bodies, no cacher), `BuildPacket`
of the same `Keepalive` packet returns different frames for a nil scratch buffer and for a
scratch buffer of capacity 48 that holds the byte `0xAA` throughout: both frames are the 12
header bytes and the 24 bytes written by the packet, followed by 12 bytes that the call
never writes, zero in the fresh buffer and `0xAA`, the old contents, in the reused one. -/
theorem BuildPacket_reemits_scratch_bytes :
    ((NewDefaultProtocol none true).BuildPacket NewKeepalive Slice.nil).1
      = .ok ⟨frameHeader 36 ++ PacketHeader.encode true NewKeepalive.AdjustLength.header
          ++ List.replicate 12 0, 48⟩ ∧
    ((NewDefaultProtocol none true).BuildPacket NewKeepalive ⟨List.replicate 48 0xAA, 0⟩).1
      = .ok ⟨frameHeader 36 ++ PacketHeader.encode true NewKeepalive.AdjustLength.header
          ++ List.replicate 12 0xAA, 48⟩ ∧
    ((NewDefaultProtocol none true).BuildPacket NewKeepalive Slice.nil).1
      ≠ ((NewDefaultProtocol none true).BuildPacket NewKeepalive ⟨List.replicate 48 0xAA, 0⟩).1 := by
  have h1 : ((NewDefaultProtocol none true).BuildPacket NewKeepalive Slice.nil).1
      = .ok ⟨frameHeader 36 ++ PacketHeader.encode true NewKeepalive.AdjustLength.header
          ++ List.replicate 12 0, 48⟩ := by decide
  have h2 : ((NewDefaultProtocol none true).BuildPacket NewKeepalive ⟨List.replicate 48 0xAA, 0⟩).1
      = .ok ⟨frameHeader 36 ++ PacketHeader.encode true NewKeepalive.AdjustLength.header
          ++ List.replicate 12 0xAA, 48⟩ := by decide
  refine ⟨h1, h2, ?_⟩
  rw [h1, h2]
  decide

/-- Go `AsyncSend` on a session whose queue has room and whose stop signal has not fired:
the send is the only case of the `select` that can proceed. -/
theorem AsyncSend_room {P : Type} (s : Session P) (p : P)
    (hstop : s.stopedChanClosed = false) (h : s.sendChan.length < s.sendChanSize) :
    s.AsyncSend p = [(none, { s with sendChan := s.sendChan ++ [p] })] := by
  simp only [Session.AsyncSend, hstop, if_pos h, Bool.false_eq_true, if_false, List.append_nil,
    List.isEmpty_cons]

/-- Go `AsyncSend` on a session whose queue is full and whose stop signal has not fired: no
case of the `select` can proceed and `default` is taken. -/
theorem AsyncSend_full {P : Type} (s : Session P) (p : P)
    (hstop : s.stopedChanClosed = false) (h : ¬ s.sendChan.length < s.sendChanSize) :
    s.AsyncSend p = [(some .ErrSendChanBlocking, s)] := by
  simp only [Session.AsyncSend, hstop, if_neg h, Bool.false_eq_true, if_false, List.append_nil,
    List.isEmpty_nil, if_true]

/-- Successive calls of `AsyncSend` that all find room in the queue. -/
theorem AsyncSendAll_room {P : Type} (ps : List P) (s : Session P)
    (hstop : s.stopedChanClosed = false)
    (h : s.sendChan.length + ps.length ≤ s.sendChanSize) :
    s.AsyncSendAll ps
      = [(List.replicate ps.length none, { s with sendChan := s.sendChan ++ ps })] := by
  induction ps generalizing s with
  | nil => simp only [Session.AsyncSendAll, List.length_nil, List.replicate_zero, List.append_nil]
  | cons p ps ih =>
    have hlt : s.sendChan.length < s.sendChanSize := by
      simp only [List.length_cons] at h; omega
    have h2 : ({ s with sendChan := s.sendChan ++ [p] } : Session P).sendChan.length + ps.length
        ≤ ({ s with sendChan := s.sendChan ++ [p] } : Session P).sendChanSize := by
      simp only [List.length_cons, List.length_append, List.length_nil] at h ⊢; omega
    have e := ih { s with sendChan := s.sendChan ++ [p] } hstop h2
    simp only [Session.AsyncSendAll, AsyncSend_room s p hstop hlt, List.flatMap_cons,
      List.flatMap_nil, List.append_nil, e, List.map_cons, List.map_nil,
      List.length_cons, List.replicate_succ, List.append_assoc, List.singleton_append]

/-- Claim C11, backpressure.  On a session whose stop signal has not fired and whose queue is
not drained, as many successive `AsyncSend` calls as the queue has free slots (the first `C`
calls on an empty queue of capacity `C`) have one possible outcome: each returns `nil` and
the packets are appended to the queue in order; the next call then returns
`ErrSendChanBlocking` and leaves the session, the queue with it, unchanged. -/
theorem AsyncSend_backpressure {P : Type} (s : Session P) (ps : List P) (p : P)
    (hstop : s.stopedChanClosed = false)
    (hcap : s.sendChan.length + ps.length = s.sendChanSize) :
    s.AsyncSendAll ps
      = [(List.replicate ps.length none, { s with sendChan := s.sendChan ++ ps })] ∧
    ({ s with sendChan := s.sendChan ++ ps } : Session P).AsyncSend p
      = [(some .ErrSendChanBlocking, { s with sendChan := s.sendChan ++ ps })] := by
  refine ⟨AsyncSendAll_room ps s hstop (by omega), AsyncSend_full _ p hstop ?_⟩
  simp only [List.length_append]
  omega

/-- The backpressure of C11 on a new session of capacity 2: two packets are queued and the third
call fails. -/
theorem AsyncSend_backpressure_witness :
    (NewSession Nat 2).AsyncSendAll [10, 20]
      = [([none, none], { NewSession Nat 2 with sendChan := [10, 20] })] ∧
    ({ NewSession Nat 2 with sendChan := [10, 20] } : Session Nat).AsyncSend 30
      = [(some .ErrSendChanBlocking, { NewSession Nat 2 with sendChan := [10, 20] })] :=
  AsyncSend_backpressure (NewSession Nat 2) [10, 20] 30 rfl rfl

/-- The keepalive scenario of the server example: the frame is decoded as the `Keepalive`
packet it encodes, and the handler registered for its type tag queues a `KeepaliveAck` that
carries the token and the version of the request. -/
theorem keepalive_scenario (id v t : Nat) (pad rest out : List Byte) (w : Bool) (buff : Slice)
    (session : Session Packet) (hid : id < 4294967296) (hv : v < 4294967296)
    (ht : t < 4294967296) (hpad : pad.length = 12)
    (hstop : session.stopedChanClosed = false)
    (hroom : session.sendChan.length < session.sendChanSize) :
    (∃ buff', (NewDefaultProtocol none false).ReadPacket MaxPacketBodySize
        ⟨frameHeader 36 ++ (PacketHeader.encode false ⟨id, 1, 36, v, 0, t⟩ ++ pad ++ rest),
          out, w⟩ buff
      = some (.ok (.Keepalive ⟨id, 1, 36, v, 0, t⟩, buff'), ⟨rest, out, w⟩)) ∧
    (Packet.Keepalive ⟨id, 1, 36, v, 0, t⟩).GetPacketType = 0x00000001 ∧
    serverDispatcher.Handle session (.Keepalive ⟨id, 1, 36, v, 0, t⟩)
      = .ok [{ session with
          sendChan := session.sendChan ++ [.KeepaliveAck ⟨0, 0x80000001, 0, v, 0, t⟩] }] := by
  refine ⟨?_, rfl, ?_⟩
  · obtain ⟨buff', hR⟩ := ReadPacket_after_controls (NewDefaultProtocol none false)
      MaxPacketBodySize [] (frameHeader 36)
      (PacketHeader.encode false ⟨id, 1, 36, v, 0, t⟩ ++ pad) rest out w buff
      { Flag := 0xFDFD, PacketFlag := 0, BodyLength := 36, SrcLength := 36 }
      (.Keepalive ⟨id, 1, 36, v, 0, t⟩) (by simp) (by simp) rfl
      (parseHeader_frameHeader 36 (by decide)) rfl (by decide) (by decide)
      (by rw [List.length_append, encode_length, hpad])
      (ReadBody_encode false (.Keepalive ⟨id, 1, 36, v, 0, t⟩)
        ⟨hid, by show (1 : Nat) < 4294967296; omega, by show (36 : Nat) < 4294967296; omega,
          hv, by show (0 : Nat) < 4294967296; omega, ht⟩ rfl pad)
    exact ⟨buff', by simpa [List.append_assoc] using hR⟩
  · have h : serverDispatcher.Handle session (.Keepalive ⟨id, 1, 36, v, 0, t⟩)
        = .ok ((session.AsyncSend (.KeepaliveAck ⟨0, 0x80000001, 0, v, 0, t⟩)).map (·.2)) := rfl
    rw [h, AsyncSend_room session _ hstop hroom]
    rfl

/-- Claim C14 as amended, end-to-end keepalive scenario.  When the server example (little-endian
bodies, no cacher, default maximum body size) reads a data frame with header
`(0xFDFD, 0, 36, 36)` and a 36-byte body that encodes
`{id, type = 0x00000001, len = 36, version = 1, ack = 0, token = 5}` in its first 24 bytes,
`ReadPacket` returns a `Keepalive` packet with type tag `0x00000001`, and the handler that
the dispatcher has for that tag, on a session whose stop signal has not fired and whose
queue has room, enqueues one reply of type `0x80000001` whose token is 5, the token of the
request, and whose version is 1. -/
theorem keepalive_reply_echoes_token (id : Nat) (pad rest out : List Byte) (w : Bool)
    (buff : Slice) (session : Session Packet) (hid : id < 4294967296) (hpad : pad.length = 12)
    (hstop : session.stopedChanClosed = false)
    (hroom : session.sendChan.length < session.sendChanSize) :
    (∃ buff', (NewDefaultProtocol none false).ReadPacket MaxPacketBodySize
        ⟨frameHeader 36 ++ (PacketHeader.encode false ⟨id, 1, 36, 1, 0, 5⟩ ++ pad ++ rest),
          out, w⟩ buff
      = some (.ok (.Keepalive ⟨id, 1, 36, 1, 0, 5⟩, buff'), ⟨rest, out, w⟩)) ∧
    (Packet.Keepalive ⟨id, 1, 36, 1, 0, 5⟩).GetPacketType = 0x00000001 ∧
    serverDispatcher.Handle session (.Keepalive ⟨id, 1, 36, 1, 0, 5⟩)
      = .ok [{ session with
          sendChan := session.sendChan ++ [.KeepaliveAck ⟨0, 0x80000001, 0, 1, 0, 5⟩] }] :=
  keepalive_scenario id 1 5 pad rest out w buff session hid (by omega) (by omega) hpad hstop hroom

/-- The scenario of C14 with id 7 on a started session of the server (queue capacity 1024). -/
theorem keepalive_reply_echoes_token_witness :
    (∃ buff', (NewDefaultProtocol none false).ReadPacket MaxPacketBodySize
        ⟨frameHeader 36 ++ (PacketHeader.encode false ⟨7, 1, 36, 1, 0, 5⟩
          ++ List.replicate 12 0 ++ []), [], false⟩ Slice.nil
      = some (.ok (.Keepalive ⟨7, 1, 36, 1, 0, 5⟩, buff'), ⟨[], [], false⟩)) ∧
    (Packet.Keepalive ⟨7, 1, 36, 1, 0, 5⟩).GetPacketType = 0x00000001 ∧
    serverDispatcher.Handle (NewSession Packet 1024).Start (.Keepalive ⟨7, 1, 36, 1, 0, 5⟩)
      = .ok [{ (NewSession Packet 1024).Start with
          sendChan := [.KeepaliveAck ⟨0, 0x80000001, 0, 1, 0, 5⟩] }] :=
  keepalive_reply_echoes_token 7 (List.replicate 12 0) [] [] false Slice.nil
    (NewSession Packet 1024).Start (by decide) rfl rfl (by decide)

/-- Claim C14 as stated fails.  The server example reads the frame that encodes
`{id = 0, type = 0x00000001, len = 36, version = 1, ack = 0, token = 5}` as that `Keepalive`
packet, and its handler, on a started session with an empty queue, enqueues the single
reply `{0, 0x80000001, 0, 1, 0, 5}`: no reply with token 6 is enqueued. -/
theorem keepalive_reply_token_is_not_6 :
    (∃ buff', (NewDefaultProtocol none false).ReadPacket MaxPacketBodySize
        ⟨frameHeader 36 ++ (PacketHeader.encode false ⟨0, 1, 36, 1, 0, 5⟩
          ++ List.replicate 12 0 ++ []), [], false⟩ Slice.nil
      = some (.ok (.Keepalive ⟨0, 1, 36, 1, 0, 5⟩, buff'), ⟨[], [], false⟩)) ∧
    serverDispatcher.Handle (NewSession Packet 1024).Start (.Keepalive ⟨0, 1, 36, 1, 0, 5⟩)
      = .ok [{ (NewSession Packet 1024).Start with
          sendChan := [.KeepaliveAck ⟨0, 0x80000001, 0, 1, 0, 5⟩] }] ∧
    ¬ ∃ sessions s h,
        serverDispatcher.Handle (NewSession Packet 1024).Start (.Keepalive ⟨0, 1, 36, 1, 0, 5⟩)
          = .ok sessions ∧
        s ∈ sessions ∧ Packet.KeepaliveAck h ∈ s.sendChan ∧ h.Token = 6 := by
  have h := keepalive_scenario 0 1 5 (List.replicate 12 0) [] [] false Slice.nil
    (NewSession Packet 1024).Start (by decide) (by decide) (by decide) rfl rfl (by decide)
  refine ⟨h.1, h.2.2, ?_⟩
  rintro ⟨sessions, s, hd, he, hs, hm, ht⟩
  rw [h.2.2] at he
  simp only [Result.ok.injEq] at he
  subst he
  simp only [List.mem_singleton] at hs
  subst hs
  have hm2 : Packet.KeepaliveAck hd ∈ [Packet.KeepaliveAck ⟨0, 0x80000001, 0, 1, 0, 5⟩] := hm
  simp only [List.mem_singleton, Packet.KeepaliveAck.injEq] at hm2
  subst hm2
  exact absurd ht (by decide)

/-! ## The lifecycle of a session under interleaved calls -/

section Lifecycle

open World

/-- Counting an element after one entry of a list has been replaced. -/
theorem count_set_call (l : List Call) (i : Nat) (a b x : Call) (h : l.get? i = some a) :
    (l.set i b).count x + (if a = x then 1 else 0) = l.count x + (if b = x then 1 else 0) := by
  induction l generalizing i with
  | nil => simp at h
  | cons c cs ih =>
    cases i with
    | zero =>
      simp only [List.get?_cons_zero, Option.some.injEq] at h
      subst h
      simp only [List.set_cons_zero, List.count_cons, beq_iff_eq]
      omega
    | succ j =>
      simp only [List.get?_cons_succ] at h
      have := ih j h
      simp only [List.set_cons_succ, List.count_cons]
      omega

/-- An entry of a list is counted. -/
theorem count_pos_of_get (l : List Call) (i : Nat) (a : Call) (h : l.get? i = some a) :
    0 < l.count a := by
  rw [List.count_pos_iff]
  exact List.get?_mem h

theorem Stage_start (n1 n2 n3 conn : Nat) (stoped cbSet : Bool) (cb : Nat)
    (h : Stage (-1) n1 n2 n3 conn stoped cbSet cb) : Stage 0 n1 n2 n3 conn stoped cbSet cb := by
  unfold Stage at h ⊢
  rcases h with h | h | h | h | h
  · exact Or.inl ⟨Or.inr rfl, h.2⟩
  all_goals exact absurd h.1 (by decide)

theorem Stage_cas (n1 n2 n3 conn : Nat) (stoped cbSet : Bool) (cb : Nat)
    (h : Stage 0 n1 n2 n3 conn stoped cbSet cb) :
    Stage 1 (n1 + 1) n2 n3 conn stoped cbSet cb := by
  unfold Stage at h ⊢
  rcases h with h | h | h | h | h
  · obtain ⟨_, h1, h2, h3, h4, h5, h6⟩ := h
    exact Or.inr (Or.inl ⟨rfl, by omega, h2, h3, h4, h5, h6⟩)
  all_goals exact absurd h.1 (by decide)

theorem Stage_conn (closed : Int) (n1 n2 n3 conn : Nat) (stoped cbSet : Bool) (cb : Nat)
    (hp : 0 < n1) (h : Stage closed n1 n2 n3 conn stoped cbSet cb) :
    Stage closed (n1 - 1) (n2 + 1) n3 (conn + 1) stoped cbSet cb := by
  unfold Stage at h ⊢
  rcases h with h | h | h | h | h
  · omega
  · obtain ⟨h0, h1, h2, h3, h4, h5, h6⟩ := h
    exact Or.inr (Or.inr (Or.inl ⟨h0, by omega, by omega, h3, by omega, h5, h6⟩))
  all_goals omega

theorem Stage_chan (closed : Int) (n1 n2 n3 conn : Nat) (stoped cbSet : Bool) (cb : Nat)
    (hp : 0 < n2) (h : Stage closed n1 n2 n3 conn stoped cbSet cb) :
    stoped = false ∧ Stage closed n1 (n2 - 1) (n3 + 1) conn true cbSet cb := by
  unfold Stage at h ⊢
  rcases h with h | h | h | h | h
  · omega
  · omega
  · obtain ⟨h0, h1, h2, h3, h4, h5, h6⟩ := h
    exact ⟨h5, Or.inr (Or.inr (Or.inr (Or.inl ⟨h0, h1, by omega, by omega, h4, rfl, h6⟩)))⟩
  all_goals omega

theorem Stage_callback (closed : Int) (n1 n2 n3 conn : Nat) (stoped cbSet : Bool) (cb : Nat)
    (hp : 0 < n3) (h : Stage closed n1 n2 n3 conn stoped cbSet cb) :
    Stage closed n1 n2 (n3 - 1) conn stoped cbSet (if cbSet then cb + 1 else cb) := by
  unfold Stage at h ⊢
  rcases h with h | h | h | h | h
  · omega
  · omega
  · omega
  · obtain ⟨h0, h1, h2, h3, h4, h5, h6⟩ := h
    refine Or.inr (Or.inr (Or.inr (Or.inr ⟨h0, h1, h2, by omega, h4, h5, ?_⟩)))
    rw [h6]
  · omega

/-- The three counts of the invariant after the call `i` has moved from `a` to `b`. -/
theorem counts_set (l : List Call) (i : Nat) (a b : Call) (h : l.get? i = some a) :
    (l.set i b).count .closeConn + (if a = .closeConn then 1 else 0)
      = l.count .closeConn + (if b = .closeConn then 1 else 0) ∧
    (l.set i b).count .closeChan + (if a = .closeChan then 1 else 0)
      = l.count .closeChan + (if b = .closeChan then 1 else 0) ∧
    (l.set i b).count .closeCallback + (if a = .closeCallback then 1 else 0)
      = l.count .closeCallback + (if b = .closeCallback then 1 else 0) :=
  ⟨count_set_call l i a b _ h, count_set_call l i a b _ h, count_set_call l i a b _ h⟩

/-- Every statement of a call keeps the invariant. -/
theorem World.step_Inv {P : Type} (w : World P) (i : Nat) (h : w.Inv) : (w.step i).Inv := by
  obtain ⟨hpan, hst⟩ := h
  unfold World.step
  rw [if_neg (by rw [hpan]; decide)]
  cases hg : w.calls.get? i with
  | none => exact ⟨hpan, hst⟩
  | some c =>
    have hpos := count_pos_of_get w.calls i c hg
    cases c with
    | startCAS =>
      obtain ⟨k1, k2, k3⟩ := counts_set w.calls i .startCAS .startGo hg
      obtain ⟨m1, m2, m3⟩ := counts_set w.calls i .startCAS .startDone hg
      simp only [reduceCtorEq, if_false, Nat.add_zero] at k1 k2 k3 m1 m2 m3
      simp only
      split
      · rename_i hc
        refine ⟨hpan, ?_⟩
        simp only [k1, k2, k3]
        rw [hc] at hst
        exact Stage_start _ _ _ _ _ _ _ hst
      · refine ⟨hpan, ?_⟩
        simp only [m1, m2, m3]
        exact hst
    | startGo =>
      obtain ⟨m1, m2, m3⟩ := counts_set w.calls i .startGo .startDone hg
      simp only [reduceCtorEq, if_false, Nat.add_zero] at m1 m2 m3
      refine ⟨hpan, ?_⟩
      simp only [List.count_append, m1, m2, m3, List.count_cons, List.count_nil, beq_iff_eq,
        reduceCtorEq, if_false, Nat.add_zero]
      exact hst
    | startDone => exact ⟨hpan, hst⟩
    | closeCAS =>
      obtain ⟨k1, k2, k3⟩ := counts_set w.calls i .closeCAS .closeConn hg
      obtain ⟨m1, m2, m3⟩ := counts_set w.calls i .closeCAS .closeDone hg
      simp only [reduceCtorEq, if_false, if_true, Nat.add_zero] at k1 k2 k3 m1 m2 m3
      simp only
      split
      · rename_i hc
        refine ⟨hpan, ?_⟩
        simp only [k1, k2, k3]
        rw [hc] at hst
        exact Stage_cas _ _ _ _ _ _ _ hst
      · refine ⟨hpan, ?_⟩
        simp only [m1, m2, m3]
        exact hst
    | closeConn =>
      obtain ⟨k1, k2, k3⟩ := counts_set w.calls i .closeConn .closeChan hg
      simp only [reduceCtorEq, if_false, if_true, Nat.add_zero] at k1 k2 k3
      refine ⟨hpan, ?_⟩
      have e1 : (w.calls.set i .closeChan).count .closeConn = w.calls.count .closeConn - 1 := by
        omega
      simp only [e1, k2, k3]
      exact Stage_conn _ _ _ _ _ _ _ _ hpos hst
    | closeChan =>
      obtain ⟨k1, k2, k3⟩ := counts_set w.calls i .closeChan .closeCallback hg
      simp only [reduceCtorEq, if_false, if_true, Nat.add_zero] at k1 k2 k3
      obtain ⟨hf, hst2⟩ := Stage_chan _ _ _ _ _ _ _ _ hpos hst
      simp only
      rw [if_neg (by rw [hf]; decide)]
      refine ⟨hpan, ?_⟩
      have e2 : (w.calls.set i .closeCallback).count .closeChan = w.calls.count .closeChan - 1 := by
        omega
      simp only [k1, e2, k3]
      exact hst2
    | closeCallback =>
      obtain ⟨k1, k2, k3⟩ := counts_set w.calls i .closeCallback .closeDone hg
      simp only [reduceCtorEq, if_false, if_true, Nat.add_zero] at k1 k2 k3
      have e3 : (w.calls.set i .closeDone).count .closeCallback
          = w.calls.count .closeCallback - 1 := by omega
      have hst2 := Stage_callback _ _ _ _ _ _ _ _ hpos hst
      refine ⟨hpan, ?_⟩
      simp only [k1, k2, e3]
      cases hcb : w.s.closeCallback
      · rw [hcb] at hst2
        simpa [hcb] using hst2
      · rw [hcb] at hst2
        simpa [hcb] using hst2
    | closeDone => exact ⟨hpan, hst⟩

/-- A schedule keeps the invariant. -/
theorem World.run_Inv {P : Type} (sched : List Nat) (w : World P) (h : w.Inv) :
    (w.run sched).Inv := by
  induction sched generalizing w with
  | nil => exact h
  | cons i is ih => exact ih (w.step i) (World.step_Inv w i h)

/-- The invariant holds when no call has begun. -/
theorem World.Init_Inv {P : Type} (w : World P) (h : w.Init) : w.Inv := by
  obtain ⟨h0, h1, h2, h3, h4, h5⟩ := h
  have c1 : w.calls.count .closeConn = 0 :=
    List.count_eq_zero.mpr (fun hm => by cases h5 _ hm <;> contradiction)
  have c2 : w.calls.count .closeChan = 0 :=
    List.count_eq_zero.mpr (fun hm => by cases h5 _ hm <;> contradiction)
  have c3 : w.calls.count .closeCallback = 0 :=
    List.count_eq_zero.mpr (fun hm => by cases h5 _ hm <;> contradiction)
  exact ⟨h4, Or.inl ⟨h0, c1, c2, c3, h1, h2, h3⟩⟩

/-- The number of calls of `Close()` after the call `i` has moved from `a` to `b`. -/
theorem closeCalls_set (l : List Call) (i : Nat) (a b : Call) (h : l.get? i = some a) :
    (l.set i b).count .closeCAS + (l.set i b).count .closeConn + (l.set i b).count .closeChan
        + (l.set i b).count .closeCallback + (l.set i b).count .closeDone
        + ((if a = .closeCAS then 1 else 0) + (if a = .closeConn then 1 else 0)
          + (if a = .closeChan then 1 else 0) + (if a = .closeCallback then 1 else 0)
          + (if a = .closeDone then 1 else 0))
      = l.count .closeCAS + l.count .closeConn + l.count .closeChan
        + l.count .closeCallback + l.count .closeDone
        + ((if b = .closeCAS then 1 else 0) + (if b = .closeConn then 1 else 0)
          + (if b = .closeChan then 1 else 0) + (if b = .closeCallback then 1 else 0)
          + (if b = .closeDone then 1 else 0)) := by
  have h1 := count_set_call l i a b .closeCAS h
  have h2 := count_set_call l i a b .closeConn h
  have h3 := count_set_call l i a b .closeChan h
  have h4 := count_set_call l i a b .closeCallback h
  have h5 := count_set_call l i a b .closeDone h
  omega

/-- What every statement of a call does to the lifecycle flag, to the callback
field and to the number of calls of `Close()`: the flag makes one of its moves,
the callback field stays, no call of `Close()` goes away. -/
theorem World.step_facts {P : Type} (w : World P) (i : Nat) :
    flagMove w.s.closed (w.step i).s.closed ∧
    (w.step i).s.closeCallback = w.s.closeCallback ∧
    w.closeCalls ≤ (w.step i).closeCalls := by
  unfold World.step
  split
  · exact ⟨Or.inl rfl, rfl, Nat.le_refl _⟩
  cases hg : w.calls.get? i with
  | none => exact ⟨Or.inl rfl, rfl, Nat.le_refl _⟩
  | some c =>
    cases c with
    | startCAS =>
      have k := closeCalls_set w.calls i .startCAS .startGo hg
      have m := closeCalls_set w.calls i .startCAS .startDone hg
      simp only [reduceCtorEq, if_false, Nat.add_zero] at k m
      simp only
      split
      · rename_i hc
        exact ⟨Or.inr (Or.inl ⟨hc, rfl⟩), rfl, by simp only [closeCalls]; omega⟩
      · exact ⟨Or.inl rfl, rfl, by simp only [closeCalls]; omega⟩
    | startGo =>
      have m := closeCalls_set w.calls i .startGo .startDone hg
      simp only [reduceCtorEq, if_false, Nat.add_zero] at m
      refine ⟨Or.inl rfl, rfl, ?_⟩
      simp only [closeCalls, List.count_append]
      omega
    | startDone => exact ⟨Or.inl rfl, rfl, Nat.le_refl _⟩
    | closeCAS =>
      have k := closeCalls_set w.calls i .closeCAS .closeConn hg
      have m := closeCalls_set w.calls i .closeCAS .closeDone hg
      simp only [reduceCtorEq, if_false, if_true, Nat.add_zero, Nat.zero_add] at k m
      simp only
      split
      · rename_i hc
        exact ⟨Or.inr (Or.inr ⟨hc, rfl⟩), rfl, by simp only [closeCalls]; omega⟩
      · exact ⟨Or.inl rfl, rfl, by simp only [closeCalls]; omega⟩
    | closeConn =>
      have k := closeCalls_set w.calls i .closeConn .closeChan hg
      simp only [reduceCtorEq, if_false, if_true, Nat.add_zero, Nat.zero_add] at k
      exact ⟨Or.inl rfl, rfl, by simp only [closeCalls]; omega⟩
    | closeChan =>
      have k := closeCalls_set w.calls i .closeChan .closeCallback hg
      simp only [reduceCtorEq, if_false, if_true, Nat.add_zero, Nat.zero_add] at k
      simp only
      split
      · exact ⟨Or.inl rfl, rfl, Nat.le_refl _⟩
      · exact ⟨Or.inl rfl, rfl, by simp only [closeCalls]; omega⟩
    | closeCallback =>
      have k := closeCalls_set w.calls i .closeCallback .closeDone hg
      simp only [reduceCtorEq, if_false, if_true, Nat.add_zero, Nat.zero_add] at k
      simp only
      refine ⟨?_, ?_, by simp only [closeCalls]; omega⟩
      · split <;> exact Or.inl rfl
      · split <;> rfl
    | closeDone => exact ⟨Or.inl rfl, rfl, Nat.le_refl _⟩

theorem World.run_append {P : Type} (w : World P) (a b : List Nat) :
    w.run (a ++ b) = (w.run a).run b := by
  simp only [World.run, List.foldl_append]

/-- Over a schedule the flag never moves backwards, the callback field stays and
no call of `Close()` goes away. -/
theorem World.run_facts {P : Type} (sched : List Nat) (w : World P) :
    w.s.closed ≤ (w.run sched).s.closed ∧
    (w.run sched).s.closeCallback = w.s.closeCallback ∧
    w.closeCalls ≤ (w.run sched).closeCalls := by
  induction sched generalizing w with
  | nil => exact ⟨Int.le_refl _, rfl, Nat.le_refl _⟩
  | cons i is ih =>
    obtain ⟨f1, f2, f3⟩ := World.step_facts w i
    obtain ⟨g1, g2, g3⟩ := ih (w.step i)
    refine ⟨?_, g2.trans f2, Nat.le_trans f3 g3⟩
    have : w.s.closed ≤ (w.step i).s.closed := by
      rcases f1 with e | ⟨e1, e2⟩ | ⟨e1, e2⟩ <;> omega
    exact Int.le_trans this g1

/-- A call stands before the callback only on a closed session. -/
theorem Stage_closed (closed : Int) (n1 n2 n3 conn : Nat) (stoped cbSet : Bool) (cb : Nat)
    (hp : 0 < n3) (h : Stage closed n1 n2 n3 conn stoped cbSet cb) : closed = 1 := by
  unfold Stage at h
  rcases h with h | h | h | h | h
  · omega
  all_goals exact h.1

/-- The values of the flag. -/
theorem Stage_flag (closed : Int) (n1 n2 n3 conn : Nat) (stoped cbSet : Bool) (cb : Nat)
    (h : Stage closed n1 n2 n3 conn stoped cbSet cb) : closed = -1 ∨ closed = 0 ∨ closed = 1 := by
  unfold Stage at h
  rcases h with h | h | h | h | h
  · rcases h.1 with e | e
    · exact Or.inl e
    · exact Or.inr (Or.inl e)
  all_goals exact Or.inr (Or.inr h.1)

/-- At most one call of `conn.Close()` and of the callback. -/
theorem Stage_once (closed : Int) (n1 n2 n3 conn : Nat) (stoped cbSet : Bool) (cb : Nat)
    (h : Stage closed n1 n2 n3 conn stoped cbSet cb) : conn ≤ 1 ∧ cb ≤ 1 := by
  unfold Stage at h
  rcases h with h | h | h | h | h
  · omega
  · omega
  · omega
  · omega
  · obtain ⟨_, _, _, _, h4, _, h6⟩ := h
    refine ⟨by omega, ?_⟩
    rw [h6]
    split <;> omega

/-- On a session that was started, no call of `Close()` has returned while the
flag is still `0`. -/
theorem World.step_started {P : Type} (w : World P) (i : Nat) (h : w.Inv)
    (hr : w.s.closed ≠ -1 ∧ (w.s.closed = 0 → w.calls.count .closeDone = 0)) :
    (w.step i).s.closed ≠ -1 ∧
      ((w.step i).s.closed = 0 → (w.step i).calls.count .closeDone = 0) := by
  obtain ⟨hpan, hst⟩ := h
  unfold World.step
  rw [if_neg (by rw [hpan]; decide)]
  cases hg : w.calls.get? i with
  | none => exact hr
  | some c =>
    have hpos := count_pos_of_get w.calls i c hg
    cases c with
    | startCAS =>
      have m := count_set_call w.calls i .startCAS .startDone .closeDone hg
      simp only [reduceCtorEq, if_false, Nat.add_zero] at m
      simp only
      rw [if_neg hr.1]
      simp only [m]
      exact hr
    | startGo =>
      have m := count_set_call w.calls i .startGo .startDone .closeDone hg
      simp only [reduceCtorEq, if_false, Nat.add_zero] at m
      simp only [List.count_append, m, List.count_cons, List.count_nil, beq_iff_eq,
        reduceCtorEq, if_false, Nat.add_zero]
      exact hr
    | startDone => exact hr
    | closeCAS =>
      simp only
      split
      · exact ⟨by show (1 : Int) ≠ -1; decide,
          fun h => absurd (show (1 : Int) = 0 from h) (by decide)⟩
      · rename_i hc
        exact ⟨hr.1, fun h => absurd h hc⟩
    | closeConn =>
      have m := count_set_call w.calls i .closeConn .closeChan .closeDone hg
      simp only [reduceCtorEq, if_false, Nat.add_zero] at m
      simp only [m]
      exact hr
    | closeChan =>
      have m := count_set_call w.calls i .closeChan .closeCallback .closeDone hg
      simp only [reduceCtorEq, if_false, Nat.add_zero] at m
      simp only
      split
      · exact hr
      · simp only [m]
        exact hr
    | closeCallback =>
      have hc := Stage_closed _ _ _ _ _ _ _ _ hpos hst
      simp only
      have e : (if w.s.closeCallback = true then
          { w.s with closeCallbackCalls := w.s.closeCallbackCalls + 1 } else w.s).closed
            = w.s.closed := by split <;> rfl
      rw [e, hc]
      exact ⟨by decide, fun h => absurd h (by decide)⟩
    | closeDone => exact hr

theorem World.run_started {P : Type} (sched : List Nat) (w : World P) (h : w.Inv)
    (hr : w.s.closed ≠ -1 ∧ (w.s.closed = 0 → w.calls.count .closeDone = 0)) :
    (w.run sched).s.closed ≠ -1 ∧
      ((w.run sched).s.closed = 0 → (w.run sched).calls.count .closeDone = 0) := by
  induction sched generalizing w with
  | nil => exact hr
  | cons i is ih => exact ih (w.step i) (World.step_Inv w i h) (World.step_started w i h hr)

/-- The stage at which the teardown is done. -/
theorem Stage_done (n1 n2 n3 conn : Nat) (stoped cbSet : Bool) (cb : Nat)
    (h1 : n1 = 0) (h2 : n2 = 0) (h3 : n3 = 0)
    (h : Stage 1 n1 n2 n3 conn stoped cbSet cb) :
    conn = 1 ∧ stoped = true ∧ cb = if cbSet then 1 else 0 := by
  unfold Stage at h
  rcases h with h | h | h | h | h
  · exact absurd h.1 (by decide)
  · omega
  · omega
  · omega
  · exact ⟨h.2.2.2.2.1, h.2.2.2.2.2.1, h.2.2.2.2.2.2⟩

/-- When all calls have returned, the calls of `Close()` are the returned ones. -/
theorem World.Finished_counts {P : Type} (w : World P) (h : w.Finished) :
    w.calls.count .closeConn = 0 ∧ w.calls.count .closeChan = 0 ∧
    w.calls.count .closeCallback = 0 ∧ w.closeCalls = w.calls.count .closeDone := by
  have c0 : w.calls.count .closeCAS = 0 :=
    List.count_eq_zero.mpr (fun hm => by cases h _ hm <;> contradiction)
  have c1 : w.calls.count .closeConn = 0 :=
    List.count_eq_zero.mpr (fun hm => by cases h _ hm <;> contradiction)
  have c2 : w.calls.count .closeChan = 0 :=
    List.count_eq_zero.mpr (fun hm => by cases h _ hm <;> contradiction)
  have c3 : w.calls.count .closeCallback = 0 :=
    List.count_eq_zero.mpr (fun hm => by cases h _ hm <;> contradiction)
  refine ⟨c1, c2, c3, ?_⟩
  simp only [closeCalls, c0, c1, c2, c3]
  omega

/-- On a running session with a callback and at least one call of `Close()`, once all
calls have returned the teardown has run once. -/
theorem World.exactly_once {P : Type} (w : World P) (sched : List Nat) (hinit : w.Init)
    (hrun : w.s.closed = 0) (hcb : w.s.closeCallback = true)
    (hN : 0 < w.calls.count .closeCAS) (hfin : (w.run sched).Finished) :
    (w.run sched).s.closed = 1 ∧ (w.run sched).s.connCloseCalls = 1 ∧
    (w.run sched).s.stopedChanClosed = true ∧ (w.run sched).s.closeCallbackCalls = 1 := by
  have hI := World.run_Inv sched w (World.Init_Inv w hinit)
  have hd0 : w.calls.count .closeDone = 0 :=
    List.count_eq_zero.mpr (fun hm => by cases hinit.2.2.2.2.2 _ hm <;> contradiction)
  have hS := World.run_started sched w (World.Init_Inv w hinit)
    ⟨by rw [hrun]; decide, fun _ => hd0⟩
  obtain ⟨_, f2, f3⟩ := World.run_facts sched w
  obtain ⟨c1, c2, c3, c4⟩ := World.Finished_counts _ hfin
  have hpos : 0 < (w.run sched).calls.count .closeDone := by
    rw [← c4]
    have : 0 < w.closeCalls := by simp only [closeCalls]; omega
    omega
  have hcl : (w.run sched).s.closed = 1 := by
    rcases Stage_flag _ _ _ _ _ _ _ _ hI.2 with e | e | e
    · exact absurd e hS.1
    · have := hS.2 e
      omega
    · exact e
  have hst := hI.2
  rw [hcl] at hst
  obtain ⟨d1, d2, d3⟩ := Stage_done _ _ _ _ _ _ _ c1 c2 c3 hst
  rw [f2, hcb] at d3
  exact ⟨hcl, d1, d2, d3⟩

theorem get_set_call (l : List Call) (i : Nat) (a b : Call) (h : l.get? i = some a) :
    (l.set i b).get? i = some b := by
  induction l generalizing i with
  | nil => simp at h
  | cons c cs ih =>
    cases i with
    | zero => rfl
    | succ j =>
      simp only [List.get?_cons_succ] at h
      simpa using ih j h

/-- A call of `Start()` that runs without interruption does what `Session.Start` does. -/
theorem World.Start_uninterrupted {P : Type} (w : World P) (i : Nat) (hp : w.panicked = false)
    (hg : w.calls.get? i = some .startCAS) : (w.run [i, i]).s = w.s.Start := by
  simp only [World.run, List.foldl_cons, List.foldl_nil]
  have h1 : w.step i = if w.s.closed = -1 then
        { w with s := { w.s with closed := 0 }, calls := w.calls.set i .startGo }
      else { w with calls := w.calls.set i .startDone } := by
    simp only [World.step, hp, hg, Bool.false_eq_true, if_false]
  rw [h1]
  unfold Session.Start
  split
  · simp only [World.step, hp, get_set_call _ _ _ _ hg, Bool.false_eq_true, if_false]
  · simp only [World.step, hp, get_set_call _ _ _ _ hg, Bool.false_eq_true, if_false]

/-- A call of `Close()` that runs without interruption does what `Session.Close` does. -/
theorem World.Close_uninterrupted {P : Type} (w : World P) (i : Nat) (hp : w.panicked = false)
    (hg : w.calls.get? i = some .closeCAS) :
    (w.run [i, i, i, i]).s = (w.s.Close).2 ∧
    ((w.run [i, i, i, i]).panicked = true ↔ (w.s.Close).1 = .panic) := by
  simp only [World.run, List.foldl_cons, List.foldl_nil]
  have h1 : w.step i = if w.s.closed = 0 then
        { w with s := { w.s with closed := 1 }, calls := w.calls.set i .closeConn }
      else { w with calls := w.calls.set i .closeDone } := by
    simp only [World.step, hp, hg, Bool.false_eq_true, if_false]
  have hlt : i < w.calls.length := by
    rcases Nat.lt_or_ge i w.calls.length with h | h
    · exact h
    · rw [List.get?_eq_none.mpr h] at hg
      exact absurd hg (by simp)
  rw [h1]
  unfold Session.Close
  split
  · cases hs : w.s.stopedChanClosed <;> cases hc : w.s.closeCallback <;>
      simp [World.step, hp, hs, hc, hlt]
  · simp [World.step, hp, hlt]

/-- Claim C12, lifecycle invariant.  Take a session on which nothing has been torn down, not
started (`-1`) or running (`0`), and any number of calls of `Start()` and `Close()` that
run interleaved statement by statement in any order (`sched`), the compare-and-swap being
one atomic step and the loops spawned by `Start()` adding their deferred `Close()`; calls
run one after the other are the schedules that name a call until it returns.  At every
point of every schedule: the flag is `-1`, `0` or `1`, every further statement leaves it or
moves it `-1 → 0` or `0 → 1`, and it never goes back later; `Start()` on a session that is
running or closed changes nothing, and a call of `Close()` whose statements run without
interruption leaves the session that `Session.Close` returns; the callback and `conn.Close()`
have been called at most once and nothing has panicked.  On a running session with a callback and at least one
call of `Close()`, once all calls have returned the callback has been called exactly
once. -/
theorem lifecycle_invariant {P : Type} (w : World P) (sched : List Nat) (hinit : w.Init) :
    ((w.run sched).s.closed = -1 ∨ (w.run sched).s.closed = 0 ∨ (w.run sched).s.closed = 1) ∧
    (∀ i, flagMove (w.run sched).s.closed ((w.run sched).step i).s.closed) ∧
    (∀ more, (w.run sched).s.closed ≤ ((w.run sched).run more).s.closed) ∧
    (∀ s : Session P, s.closed ≠ -1 → s.Start = s) ∧
    (∀ i, (w.run sched).calls.get? i = some .startCAS → (w.run sched).s.closed ≠ -1 →
      (((w.run sched).step i).step i).s = (w.run sched).s) ∧
    (∀ i, (w.run sched).calls.get? i = some .closeCAS →
      ((w.run sched).run [i, i, i, i]).s = ((w.run sched).s.Close).2) ∧
    (w.run sched).s.closeCallbackCalls ≤ 1 ∧ (w.run sched).s.connCloseCalls ≤ 1 ∧
    (w.run sched).panicked = false ∧
    (w.s.closed = 0 → w.s.closeCallback = true → 0 < w.calls.count .closeCAS →
      (w.run sched).Finished → (w.run sched).s.closeCallbackCalls = 1) := by
  have hI := World.run_Inv sched w (World.Init_Inv w hinit)
  obtain ⟨o1, o2⟩ := Stage_once _ _ _ _ _ _ _ _ hI.2
  refine ⟨Stage_flag _ _ _ _ _ _ _ _ hI.2, fun i => (World.step_facts _ i).1,
    fun more => (World.run_facts more _).1, ?_, ?_,
    fun i hg => (World.Close_uninterrupted (w.run sched) i hI.1 hg).1, o2, o1, hI.1,
    fun h1 h2 h3 h4 => (World.exactly_once w sched hinit h1 h2 h3 h4).2.2.2⟩
  · intro s hs
    unfold Session.Start
    rw [if_neg hs]
  · intro i hg hs
    have e : (((w.run sched).step i).step i).s = (w.run sched).s.Start :=
      World.Start_uninterrupted (w.run sched) i hI.1 hg
    rw [e]
    unfold Session.Start
    rw [if_neg hs]

/-- The invariant of C12 on a started session with a callback: three calls of `Close()` and one
of `Start()`, interleaved, all returned, and the callback called once. -/
theorem lifecycle_invariant_witness :
    (World.mk (NewSession Nat 4).SetCloseCallback.Start
      [.closeCAS, .closeCAS, .startCAS, .closeCAS] false).Init ∧
    ((World.mk (NewSession Nat 4).SetCloseCallback.Start
      [.closeCAS, .closeCAS, .startCAS, .closeCAS] false).run
        [1, 0, 1, 2, 3, 1, 0, 1, 2, 3]).Finished ∧
    ((World.mk (NewSession Nat 4).SetCloseCallback.Start
      [.closeCAS, .closeCAS, .startCAS, .closeCAS] false).run
        [1, 0, 1, 2, 3, 1, 0, 1, 2, 3]).s.closeCallbackCalls = 1 :=
  ⟨⟨Or.inr rfl, rfl, rfl, rfl, rfl, by decide⟩, by decide,
    (lifecycle_invariant (World.mk (NewSession Nat 4).SetCloseCallback.Start
      [.closeCAS, .closeCAS, .startCAS, .closeCAS] false) [1, 0, 1, 2, 3, 1, 0, 1, 2, 3]
      ⟨Or.inr rfl, rfl, rfl, rfl, rfl, by decide⟩).2.2.2.2.2.2.2.2.2 rfl rfl (by decide)
      (by decide)⟩

end Lifecycle

/-- Go `BuildPacket` fails when the body writer does. -/
theorem BuildPacket_not_ok {P : Type} (d : ProtocolImpl P) (packet : P) (buff : Slice) (n : Nat)
    (hn : d.Writer.GetLength packet = n) (hlt : n < 4294967296)
    (hw : (d.Writer.Write packet (bodyRegion buff n)).1 ≠ .ok ()) (f : Slice) :
    (d.BuildPacket packet buff).1 ≠ .ok f := by
  have hl : ((n : Int) + 12).toNat = n + 12 := by omega
  have hv : (((n : Int) + 12 - 12) % 4294967296).toNat = n := by omega
  have hB : (if ((buff.cap : Nat) : Int) < (n : Int) + 12 then make ((n : Int) + 12).toNat
      else buff) = buildBuffer buff n := by
    unfold buildBuffer
    rw [hl]
    by_cases h : buff.cap < n + 12
    · rw [if_pos h, if_pos (by omega)]
    · rw [if_neg h, if_neg (by omega)]
  have hcap := buildBuffer_cap buff n
  unfold bodyRegion at hw
  unfold ProtocolImpl.BuildPacket
  simp only [hn]
  rw [hB]
  simp only [hv, hl]
  generalize buildBuffer buff n = B at hcap hw ⊢
  obtain ⟨arr, len⟩ := B
  simp only at hcap hw ⊢
  obtain ⟨a0, a1, a2, a3, a4, a5, a6, a7, a8, a9, a10, a11, rest, rfl⟩ :=
    exists_cons12 arr (by omega)
  have hrest : n ≤ rest.length := by simp at hcap; omega
  have ht : List.take 12 (a0 :: a1 :: a2 :: a3 :: a4 :: a5 :: a6 :: a7 :: a8 :: a9 :: a10
      :: a11 :: rest) = [a0, a1, a2, a3, a4, a5, a6, a7, a8, a9, a10, a11] := rfl
  have hd : List.drop 12 (a0 :: a1 :: a2 :: a3 :: a4 :: a5 :: a6 :: a7 :: a8 :: a9 :: a10
      :: a11 :: rest) = rest := rfl
  have r1 : (NewBigEndianStream [a0, a1, a2, a3, a4, a5, a6, a7, a8, a9, a10, a11]).WriteUint16
      DataPacketType = (.ok (), ⟨2, [0xFD, 0xFD, a2, a3, a4, a5, a6, a7, a8, a9, a10, a11]⟩) := rfl
  have r2 : (BigEndianStreamImpl.mk 2 [0xFD, 0xFD, a2, a3, a4, a5, a6, a7, a8, a9, a10,
      a11]).WriteUint16 0
        = (.ok (), ⟨4, [0xFD, 0xFD, 0, 0, a4, a5, a6, a7, a8, a9, a10, a11]⟩) := rfl
  have r3 : (BigEndianStreamImpl.mk 4 [0xFD, 0xFD, 0, 0, a4, a5, a6, a7, a8, a9, a10,
      a11]).WriteUint32 n
        = (.ok (), ⟨8, [0xFD, 0xFD, 0, 0, byte (n / 16777216), byte (n / 65536), byte (n / 256),
            byte n, a8, a9, a10, a11]⟩) := rfl
  have r4 : (BigEndianStreamImpl.mk 8 [0xFD, 0xFD, 0, 0, byte (n / 16777216), byte (n / 65536),
      byte (n / 256), byte n, a8, a9, a10, a11]).WriteUint32 n
        = (.ok (), ⟨12, [0xFD, 0xFD, 0, 0, byte (n / 16777216), byte (n / 65536), byte (n / 256),
            byte n, byte (n / 16777216), byte (n / 65536), byte (n / 256), byte n]⟩) := rfl
  rw [if_neg (by simp [Slice.cap])]
  simp only [ht, hd, r1, r2, r3, r4]
  rw [if_neg (by simp; omega)]
  have e1 : n + 12 - 12 = n := by omega
  simp only [List.cons_append, List.nil_append, hd, e1] at hw ⊢
  have hf : frameHeader n = [0xFD, 0xFD, 0, 0, byte (n / 16777216), byte (n / 65536),
      byte (n / 256), byte n, byte (n / 16777216), byte (n / 65536), byte (n / 256), byte n] := rfl
  generalize hW : d.Writer.Write packet (List.take n rest) = W at hw ⊢
  obtain ⟨r, body', packet'⟩ := W
  simp only at hw
  cases r with
  | ok u => exact absurd rfl hw
  | error e => simp [hW, Result.fail]
  | panic => simp [hW, Result.fail]

/-- A frame that `BuildPacket` returns is a frame of its packet. -/
theorem BuildPacket_FrameOf {P : Type} (d : ProtocolImpl P) (p p' : P) (b f : Slice)
    (h0 : 0 ≤ d.Writer.GetLength p) (hlt : d.Writer.GetLength p < 4294967296)
    (h : d.BuildPacket p b = (.ok f, p')) : FrameOf d p f.bytes := by
  obtain ⟨n, hn⟩ : ∃ n : Nat, d.Writer.GetLength p = n :=
    ⟨(d.Writer.GetLength p).toNat, by omega⟩
  have hlt2 : n < 4294967296 := by omega
  by_cases hw : (d.Writer.Write p (bodyRegion b n)).1 = .ok ()
  · have e := BuildPacket_ok d p b n hn hlt2 hw
    rw [e] at h
    simp only [Prod.mk.injEq, Result.ok.injEq] at h
    obtain ⟨hf, _⟩ := h
    subst hf
    refine ⟨n, hn, ?_, ?_⟩
    · simp only [Slice.bytes, List.length_take, List.length_append, frameHeader_length,
        copy_length, bodyRegion_length]
      omega
    · simp only [Slice.bytes, List.append_assoc]
      rw [List.take_take, Nat.min_eq_left (by omega), List.take_left' (frameHeader_length n)]
      exact parseHeader_frameHeader n hlt2
  · exact absurd (congrArg Prod.fst h) (BuildPacket_not_ok d p b n hn hlt2 hw f)

/-- The frames of one more packet. -/
theorem buildFrames_concat {P : Type} (d : ProtocolImpl P) (b : Slice) (ps : List P) (p : P) :
    buildFrames d b (ps ++ [p]) = buildNext d (buildFrames d b ps) p := by
  simp only [buildFrames, List.foldl_append, List.foldl_cons, List.foldl_nil]

/-- The outcomes of `AsyncSend`: the packet is queued and `nil` returned, or the session is
left alone and an error returned. -/
theorem AsyncSend_outcomes {P : Type} (s : Session P) (p : P) (o : Option Err × Session P)
    (h : o ∈ s.AsyncSend p) :
    (o.1 = none ∧ o.2 = { s with sendChan := s.sendChan ++ [p] }) ∨ (o.1 ≠ none ∧ o.2 = s) := by
  by_cases hr : s.sendChan.length < s.sendChanSize <;> cases hs : s.stopedChanClosed <;>
    simp [Session.AsyncSend, hr, hs] at h
  · subst h
    exact Or.inl ⟨rfl, rfl⟩
  · rcases h with h | h
    · subst h
      exact Or.inl ⟨rfl, rfl⟩
    · subst h
      exact Or.inr ⟨by simp, rfl⟩
  · subst h
    exact Or.inr ⟨by simp, rfl⟩
  · subst h
    exact Or.inr ⟨by simp, rfl⟩

/-- Go `Close()` leaves the queue alone. -/
theorem Close_sendChan {P : Type} (s : Session P) : (s.Close).2.sendChan = s.sendChan := by
  unfold Session.Close
  split
  · simp only
    split
    · rfl
    · simp only
      split <;> rfl
  · rfl

/-- Go `WritePacket` appends the whole buffer to the output, or fails and writes nothing. -/
theorem WritePacket_cases {P : Type} (d : ProtocolImpl P) (conn : Conn) (b : List Byte) :
    d.WritePacket conn b = (.ok (), { conn with output := conn.output ++ b }) ∨
    (∃ r, d.WritePacket conn b = (r, conn) ∧ r ≠ .ok ()) := by
  cases hw : conn.writeErr
  · exact Or.inl (by simp [ProtocolImpl.WritePacket, Conn.Write, hw])
  · exact Or.inr ⟨.error .ErrConnWrite,
      by simp [ProtocolImpl.WritePacket, Conn.Write, hw, Result.fail], by simp⟩

/-- Go `WritePacket` on a connection that may break: the whole buffer is appended to the
output, or the call fails and nothing or a proper prefix of the buffer is appended. -/
theorem WritePacketFault_cases {P : Type} (d : ProtocolImpl P) (conn : Conn) (b : List Byte)
    (fault : Option Nat) :
    d.WritePacketFault conn b fault = (.ok (), { conn with output := conn.output ++ b }) ∨
    (∃ r part, d.WritePacketFault conn b fault
        = (r, { conn with output := conn.output ++ part }) ∧ r ≠ .ok () ∧
      (part = [] ∨ ∃ m, fault = some m ∧ m < b.length ∧ part = b.take m)) := by
  obtain ⟨i, o, w⟩ := conn
  cases w
  · cases fault with
    | none => exact Or.inl (by simp [ProtocolImpl.WritePacketFault, Conn.WriteFault, Conn.Write])
    | some m =>
      by_cases hm : b.length ≤ m
      · exact Or.inl (by simp [ProtocolImpl.WritePacketFault, Conn.WriteFault, Conn.Write, hm])
      · exact Or.inr ⟨.error .ErrConnWrite, b.take m,
          by simp [ProtocolImpl.WritePacketFault, Conn.WriteFault, hm, Result.fail], by simp,
          Or.inr ⟨m, rfl, by omega, rfl⟩⟩
  · refine Or.inr ⟨.error .ErrConnWrite, [], ?_, by simp, Or.inl rfl⟩
    cases fault <;>
      simp [ProtocolImpl.WritePacketFault, Conn.WriteFault, Conn.Write, Result.fail]

/-- On a connection that does not break, `WritePacketFault` is `WritePacket`. -/
theorem WritePacketFault_none {P : Type} (d : ProtocolImpl P) (conn : Conn) (b : List Byte) :
    d.WritePacketFault conn b none = d.WritePacket conn b := rfl

/-- The states that `AsyncSend` next to the send loop can leave: the packet handed to the
waiting loop, the packet queued, or an error and nothing changed. -/
theorem SendState.asyncSendOutcomes_mem {P : Type} (st st2 : SendState P) (p : P)
    (h : st2 ∈ st.asyncSendOutcomes p) :
    (st.parked = true ∧ st2 = { st with inHand := some p, accepted := st.accepted ++ [p] }) ∨
    st2 = { st with s := { st.s with sendChan := st.s.sendChan ++ [p] },
                    accepted := st.accepted ++ [p] } ∨
    st2 = st := by
  unfold SendState.asyncSendOutcomes at h
  rw [List.mem_append] at h
  rcases h with h | h
  · split at h
    · rename_i hp
      simp only [List.mem_singleton] at h
      exact Or.inl ⟨hp, h⟩
    · simp at h
  · rw [List.mem_map] at h
    obtain ⟨o, ho, rfl⟩ := h
    rcases AsyncSend_outcomes st.s p o ho with ⟨h1, h2⟩ | ⟨h1, h2⟩
    · obtain ⟨e, s2⟩ := o
      simp only at h1 h2
      subst h1 h2
      exact Or.inr (Or.inl rfl)
    · obtain ⟨e, s2⟩ := o
      simp only at h1 h2
      subst h2
      cases e with
      | none => exact absurd rfl h1
      | some e => exact Or.inr (Or.inr rfl)

/-- The return of `sendLoop` keeps the invariant of the send loop. -/
theorem SendState.loopReturn_SendInv {P : Type} (d : ProtocolImpl P) (b0 : Slice)
    (out0 : List Byte) (st : SendState P) (sent dropped : List P) (frames : List (List Byte))
    (buff : Slice) (part : List Byte)
    (ha : st.accepted = sent ++ dropped ++ st.inHand.toList ++ st.s.sendChan)
    (hb : buildFrames d b0 sent = some (frames, buff))
    (ho : st.conn.output = out0 ++ frames.flatten ++ part)
    (hf : List.Forall₂ (FrameOf d) sent frames) (hp : PartialFrame d buff dropped part)
    (faulty : Bool) (hq : faulty = false → part = []) :
    SendInv d b0 out0 faulty st.loopReturn :=
  ⟨sent, dropped, frames, buff, part,
    by simp only [SendState.loopReturn, Close_sendChan]; exact ha,
    hb, fun h => absurd h (by simp [SendState.loopReturn]), ho, hf, hp, hq⟩

/-- Processing a packet in `sendLoop` keeps the invariant of the send loop. -/
theorem SendState.loopSend_SendInv {P : Type} (d : ProtocolImpl P) (b0 : Slice)
    (out0 : List Byte) (st : SendState P) (packet : P) (fault : Option Nat)
    (hlen : ∀ p, 0 ≤ d.Writer.GetLength p ∧ d.Writer.GetLength p < 4294967296)
    (sent : List P) (frames : List (List Byte))
    (ha : st.accepted = sent ++ [packet] ++ st.inHand.toList ++ st.s.sendChan)
    (hb : buildFrames d b0 sent = some (frames, st.sendBuff))
    (ho : st.conn.output = out0 ++ frames.flatten)
    (hf : List.Forall₂ (FrameOf d) sent frames) (faulty : Bool)
    (hq : faulty = false → fault = none) :
    SendInv d b0 out0 faulty (st.loopSend d packet fault) := by
  unfold SendState.loopSend
  cases hB : d.BuildPacket packet st.sendBuff with
  | mk r p2 =>
    cases r with
    | ok frame =>
      simp only
      have hF := BuildPacket_FrameOf d packet p2 st.sendBuff frame (hlen packet).1
        (hlen packet).2 hB
      have hco : (if 0 < st.s.connCloseCalls then { st.conn with writeErr := true }
          else st.conn).output = st.conn.output := by split <;> rfl
      generalize (if 0 < st.s.connCloseCalls then { st.conn with writeErr := true }
          else st.conn) = c at hco ⊢
      rcases WritePacketFault_cases d c frame.bytes fault with hW | ⟨r, part, hW, hne, hpart⟩
      · rw [hW]
        simp only
        refine ⟨sent ++ [packet], [], frames ++ [frame.bytes], frame, [], ?_, ?_,
          fun _ => ⟨rfl, rfl, rfl⟩, ?_, List.rel_append hf (List.Forall₂.cons hF List.Forall₂.nil),
          Or.inl rfl, fun _ => rfl⟩
        · simp only [ha, List.append_assoc, List.cons_append, List.nil_append, List.append_nil]
        · rw [buildFrames_concat, hb]
          simp only [buildNext, hB]
        · simp only [hco, ho, List.flatten_append, List.flatten_cons, List.flatten_nil,
            List.append_nil, List.append_assoc]
      · rw [hW]
        have hP : PartialFrame d st.sendBuff [packet] part := by
          rcases hpart with e | ⟨m, _, hm, e⟩
          · exact Or.inl e
          · exact Or.inr ⟨packet, p2, frame, m, rfl, hB, hm, e⟩
        have hQ : faulty = false → part = [] := by
          intro hfl
          rcases hpart with e | ⟨m, hfm, _, _⟩
          · exact e
          · rw [hq hfl] at hfm
            exact absurd hfm (by simp)
        cases r with
        | ok u => exact absurd rfl hne
        | error e =>
          simp only
          refine SendState.loopReturn_SendInv d b0 out0 _ sent [packet] frames st.sendBuff part
            ?_ hb ?_ hf hP faulty hQ
          · exact ha
          · simp only [hco, ho]
        | panic =>
          simp only
          refine SendState.loopReturn_SendInv d b0 out0 _ sent [packet] frames st.sendBuff part
            ?_ hb ?_ hf hP faulty hQ
          · exact ha
          · simp only [hco, ho]
    | error e =>
      simp only
      refine SendState.loopReturn_SendInv d b0 out0 _ sent [packet] frames st.sendBuff [] ?_ hb
        ?_ hf (Or.inl rfl) faulty (fun _ => rfl)
      · exact ha
      · simp only [ho, List.append_nil]
    | panic =>
      simp only
      refine SendState.loopReturn_SendInv d b0 out0 _ sent [packet] frames st.sendBuff [] ?_ hb
        ?_ hf (Or.inl rfl) faulty (fun _ => rfl)
      · exact ha
      · simp only [ho, List.append_nil]

/-- Go `Start()` leaves the queue alone. -/
theorem Start_sendChan {P : Type} (s : Session P) : (s.Start).sendChan = s.sendChan := by
  unfold Session.Start
  split <;> rfl

/-- Every event keeps the invariant of the send loop. -/
theorem SendState.step_SendInv {P : Type} (d : ProtocolImpl P) (b0 : Slice) (out0 : List Byte)
    (st : SendState P) (e : SendEvent P)
    (hlen : ∀ p, 0 ≤ d.Writer.GetLength p ∧ d.Writer.GetLength p < 4294967296)
    (faulty : Bool) (h : SendInv d b0 out0 faulty st) :
    SendInv d b0 out0 (faulty || e.broken) (st.step d e) := by
  obtain ⟨sent, dropped, frames, buff, part, ha, hb, hr, ho, hf, hp, hq0⟩ := h
  have hq : (faulty || e.broken) = false → part = [] := by
    intro h
    rw [Bool.or_eq_false_iff] at h
    exact hq0 h.1
  cases e with
  | start =>
    refine ⟨sent, dropped, frames, buff, part, ?_, hb, hr, ho, hf, hp, hq⟩
    simp only [SendState.step, Start_sendChan]
    exact ha
  | asyncSend p pick =>
    simp only [SendState.step]
    cases hg : (st.asyncSendOutcomes p).get? pick with
    | none => exact ⟨sent, dropped, frames, buff, part, ha, hb, hr, ho, hf, hp, hq⟩
    | some st2 =>
      rcases SendState.asyncSendOutcomes_mem st st2 p (List.get?_mem hg) with
        ⟨hpk, rfl⟩ | rfl | rfl
      · simp only [SendState.parked, Bool.and_eq_true, Bool.not_eq_true', decide_eq_true_eq,
          Option.isNone_iff_eq_none, List.isEmpty_iff] at hpk
        obtain ⟨⟨⟨⟨_, hret⟩, hin⟩, hqe⟩, _⟩ := hpk
        obtain ⟨hbuff, hdrop, hpart⟩ := hr hret
        refine ⟨sent, dropped, frames, buff, part, ?_, hb, fun _ => ⟨hbuff, hdrop, hpart⟩, ho, hf,
          hp, hq⟩
        simp only [ha, hin, hqe, Option.toList_none, Option.toList_some, List.append_nil]
      · refine ⟨sent, dropped, frames, buff, part, ?_, hb, hr, ho, hf, hp, hq⟩
        simp only [ha, List.append_assoc]
      · exact ⟨sent, dropped, frames, buff, part, ha, hb, hr, ho, hf, hp, hq⟩
  | close =>
    refine ⟨sent, dropped, frames, buff, part, ?_, hb, hr, ho, hf, hp, hq⟩
    simp only [SendState.step, Close_sendChan]
    exact ha
  | loop preferStop fault =>
    simp only [SendState.step]
    split
    · exact ⟨sent, dropped, frames, buff, part, ha, hb, hr, ho, hf, hp, hq⟩
    · rename_i hret
      have hret2 : st.returned = false := by
        cases h : st.returned
        · rfl
        · exact absurd (Or.inr h) hret
      obtain ⟨hbuff, hdrop, hpart⟩ := hr hret2
      subst hbuff hdrop hpart
      rw [List.append_nil] at ho
      have hfault : (faulty || (SendEvent.loop preferStop fault : SendEvent P).broken) = false →
          fault = none := by
        intro h
        cases fault with
        | none => rfl
        | some m => simp [SendEvent.broken] at h
      cases hin : st.inHand with
      | some packet =>
        simp only
        refine SendState.loopSend_SendInv d b0 out0 _ packet fault hlen sent frames ?_ ?_ ?_ hf
          _ hfault
        · simp only [ha, hin, Option.toList_some, Option.toList_none, List.append_nil]
        · exact hb
        · exact ho
      | none =>
        simp only
        rw [hin] at ha
        simp only [Option.toList_none, List.append_nil] at ha
        split
        · split
          · exact SendState.loopReturn_SendInv d b0 out0 st sent [] frames _ []
              (by simp only [ha, hin, Option.toList_none, List.append_nil]) hb
              (by simp only [ho, List.append_nil]) hf (Or.inl rfl) _ (fun _ => rfl)
          · exact ⟨sent, [], frames, _, [],
              by simp only [ha, hin, Option.toList_none, List.append_nil], hb,
              fun _ => ⟨rfl, rfl, rfl⟩, by simp only [ho, List.append_nil], hf, Or.inl rfl,
              fun _ => rfl⟩
        · rename_i packet queue hqu
          split
          · exact SendState.loopReturn_SendInv d b0 out0 st sent [] frames _ []
              (by simp only [ha, hin, Option.toList_none, List.append_nil]) hb
              (by simp only [ho, List.append_nil]) hf (Or.inl rfl) _ (fun _ => rfl)
          · refine SendState.loopSend_SendInv d b0 out0 _ packet fault hlen sent frames ?_ ?_ ?_
              hf _ hfault
            · simp only [ha, hqu, hin, Option.toList_none, List.append_nil, List.append_assoc,
                List.cons_append, List.nil_append]
            · exact hb
            · exact ho

/-- Every sequence of events keeps the invariant of the send loop. -/
theorem SendState.run_SendInv {P : Type} (d : ProtocolImpl P) (b0 : Slice) (out0 : List Byte)
    (events : List (SendEvent P)) (st : SendState P)
    (hlen : ∀ p, 0 ≤ d.Writer.GetLength p ∧ d.Writer.GetLength p < 4294967296)
    (faulty : Bool) (h : SendInv d b0 out0 faulty st) :
    SendInv d b0 out0 (faulty || events.any SendEvent.broken) (st.run d events) := by
  induction events generalizing st faulty with
  | nil =>
    simp only [List.any_nil, Bool.or_false]
    exact h
  | cons e es ih =>
    have h2 := ih (st.step d e) (faulty || e.broken)
      (SendState.step_SendInv d b0 out0 st e hlen faulty h)
    simp only [List.any_cons, ← Bool.or_assoc]
    exact h2

/-- Claim C13 as amended, FIFO send order.  Take a session with an empty queue on which no
packet has been accepted yet, the connection in any state, and any sequence of events: calls of
`Start()`, of `AsyncSend` (with any outcome of their `select`, the packet queued or handed to
the waiting send loop), of `Close()`, and steps of the send loop, during any of which the
connection may break after part of a write.  If the body writer reports lengths that are
`uint32` values, then at every point the bytes written to the connection since then are the
concatenation of the frames `BuildPacket(P1)`, ..., `BuildPacket(Pk)` (each built into the
buffer the one before returned, the first into the initial `sendBuff`) of the first `k`
accepted packets, for some `k` at most their number `n`, in the order in which `AsyncSend`
accepted them, followed by `part`; the two length fields of the header of the frame of `Pi`
are the length the body writer reports for `Pi`; and `part` is empty, always so when no
step had a breaking connection, or else the send loop has returned and `part` is a proper
prefix of the frame `BuildPacket(P(k+1))`. -/
theorem send_order_fifo {P : Type} (d : ProtocolImpl P) (st : SendState P)
    (events : List (SendEvent P))
    (hlen : ∀ p, 0 ≤ d.Writer.GetLength p ∧ d.Writer.GetLength p < 4294967296)
    (hq : st.s.sendChan = []) (hh : st.inHand = none) (ha : st.accepted = []) :
    ∃ (k : Nat) (frames : List (List Byte)) (buff : Slice) (part : List Byte),
      k ≤ (st.run d events).accepted.length ∧
      buildFrames d st.sendBuff ((st.run d events).accepted.take k) = some (frames, buff) ∧
      (st.run d events).conn.output = st.conn.output ++ frames.flatten ++ part ∧
      List.Forall₂ (FrameOf d) ((st.run d events).accepted.take k) frames ∧
      (events.any SendEvent.broken = false → part = []) ∧
      (part = [] ∨ ((st.run d events).returned = true ∧ ∃ (p p2 : P) (f : Slice) (m : Nat),
        ((st.run d events).accepted.drop k).head? = some p ∧
        d.BuildPacket p buff = (.ok f, p2) ∧
        m < f.bytes.length ∧ part = f.bytes.take m)) := by
  have h0 : SendInv d st.sendBuff st.conn.output false st :=
    ⟨[], [], [], st.sendBuff, [], by rw [ha, hq, hh]; rfl, rfl, fun _ => ⟨rfl, rfl, rfl⟩, by simp,
      List.Forall₂.nil, Or.inl rfl, fun _ => rfl⟩
  obtain ⟨sent, dropped, frames, buff, part, h1, h2, h3, h4, h5, h6, h7⟩ :=
    SendState.run_SendInv d st.sendBuff st.conn.output events st hlen false h0
  rw [Bool.false_or] at h7
  have ht : (st.run d events).accepted.take sent.length = sent := by
    rw [h1, List.append_assoc, List.append_assoc, List.take_left' rfl]
  refine ⟨sent.length, frames, buff, part, ?_, ?_, h4, ?_, h7, ?_⟩
  · rw [h1]
    simp only [List.length_append]
    omega
  · rw [ht]
    exact h2
  · rw [ht]
    exact h5
  · cases hret : (st.run d events).returned
    · exact Or.inl (h3 hret).2.2
    · rcases h6 with e | ⟨p, p2, f, m, hd, hB, hm, e⟩
      · exact Or.inl e
      · refine Or.inr ⟨rfl, p, p2, f, m, ?_, hB, hm, e⟩
        rw [h1, hd, List.append_assoc, List.append_assoc, List.drop_left' rfl]
        rfl

/-- The send order of C13 as amended on a started session with a channel of capacity 0: two
packets are handed to the waiting send loop, the first is written whole (48 bytes) and the
connection breaks after 7 bytes of the second. -/
theorem send_order_fifo_witness :
    (∃ (k : Nat) (frames : List (List Byte)) (buff : Slice) (part : List Byte),
      k ≤ ((SendState.mk (NewSession Packet 0).Start ⟨[], [], false⟩ Slice.nil none false []).run
        (NewDefaultProtocol none false)
        [.asyncSend NewKeepalive 0, .loop false none, .asyncSend NewKeepaliveAck 0,
          .loop false (some 7)]).accepted.length ∧
      buildFrames (NewDefaultProtocol none false) Slice.nil
        (((SendState.mk (NewSession Packet 0).Start ⟨[], [], false⟩ Slice.nil none false []).run
          (NewDefaultProtocol none false)
          [.asyncSend NewKeepalive 0, .loop false none, .asyncSend NewKeepaliveAck 0,
            .loop false (some 7)]).accepted.take k) = some (frames, buff) ∧
      ((SendState.mk (NewSession Packet 0).Start ⟨[], [], false⟩ Slice.nil none false []).run
        (NewDefaultProtocol none false)
        [.asyncSend NewKeepalive 0, .loop false none, .asyncSend NewKeepaliveAck 0,
          .loop false (some 7)]).conn.output = [] ++ frames.flatten ++ part ∧
      List.Forall₂ (FrameOf (NewDefaultProtocol none false))
        (((SendState.mk (NewSession Packet 0).Start ⟨[], [], false⟩ Slice.nil none false []).run
          (NewDefaultProtocol none false)
          [.asyncSend NewKeepalive 0, .loop false none, .asyncSend NewKeepaliveAck 0,
            .loop false (some 7)]).accepted.take k) frames) ∧
    ((SendState.mk (NewSession Packet 0).Start ⟨[], [], false⟩ Slice.nil none false []).run
      (NewDefaultProtocol none false)
      [.asyncSend NewKeepalive 0, .loop false none, .asyncSend NewKeepaliveAck 0,
        .loop false (some 7)]).accepted = [NewKeepalive, NewKeepaliveAck] ∧
    ((SendState.mk (NewSession Packet 0).Start ⟨[], [], false⟩ Slice.nil none false []).run
      (NewDefaultProtocol none false)
      [.asyncSend NewKeepalive 0, .loop false none, .asyncSend NewKeepaliveAck 0,
        .loop false (some 7)]).conn.output.length = 55 := by
  refine ⟨?_, by decide, by decide⟩
  obtain ⟨k, frames, buff, part, h1, h2, h3, h4, _, _⟩ :=
    send_order_fifo (NewDefaultProtocol none false)
      (SendState.mk (NewSession Packet 0).Start ⟨[], [], false⟩ Slice.nil none false [])
      [.asyncSend NewKeepalive 0, .loop false none, .asyncSend NewKeepaliveAck 0,
        .loop false (some 7)]
      (fun _ => ⟨by show (0 : Int) ≤ 36; decide, by show (36 : Int) < 4294967296; decide⟩)
      rfl rfl rfl
  exact ⟨k, frames, buff, part, h1, h2, h3, h4⟩

/-- Claim C13 as stated fails.  On a started session of the default protocol, one packet is
accepted and the connection breaks after 5 bytes of the write of its frame: the 5 bytes
written are not the concatenation of the frames of the first `k` accepted packets, for any
`k` (no bytes for `k = 0`, the 48 bytes of the frame for `k = 1`). -/
theorem send_order_partial_frame :
    ((SendState.mk (NewSession Packet 2).Start ⟨[], [], false⟩ Slice.nil none false []).run
      (NewDefaultProtocol none false)
      [.asyncSend NewKeepalive 0, .loop false (some 5)]).accepted = [NewKeepalive] ∧
    ((SendState.mk (NewSession Packet 2).Start ⟨[], [], false⟩ Slice.nil none false []).run
      (NewDefaultProtocol none false)
      [.asyncSend NewKeepalive 0, .loop false (some 5)]).conn.output = [0xFD, 0xFD, 0, 0, 0] ∧
    ¬ ∃ (k : Nat) (frames : List (List Byte)) (buff : Slice),
      k ≤ ((SendState.mk (NewSession Packet 2).Start ⟨[], [], false⟩ Slice.nil none false []).run
        (NewDefaultProtocol none false)
        [.asyncSend NewKeepalive 0, .loop false (some 5)]).accepted.length ∧
      buildFrames (NewDefaultProtocol none false) Slice.nil
        (((SendState.mk (NewSession Packet 2).Start ⟨[], [], false⟩ Slice.nil none false []).run
          (NewDefaultProtocol none false)
          [.asyncSend NewKeepalive 0, .loop false (some 5)]).accepted.take k)
          = some (frames, buff) ∧
      ((SendState.mk (NewSession Packet 2).Start ⟨[], [], false⟩ Slice.nil none false []).run
        (NewDefaultProtocol none false)
        [.asyncSend NewKeepalive 0, .loop false (some 5)]).conn.output
          = [] ++ frames.flatten := by
  have ha : ((SendState.mk (NewSession Packet 2).Start ⟨[], [], false⟩ Slice.nil none false
      []).run (NewDefaultProtocol none false)
      [.asyncSend NewKeepalive 0, .loop false (some 5)]).accepted = [NewKeepalive] := by decide
  have ho : ((SendState.mk (NewSession Packet 2).Start ⟨[], [], false⟩ Slice.nil none false
      []).run (NewDefaultProtocol none false)
      [.asyncSend NewKeepalive 0, .loop false (some 5)]).conn.output
        = [0xFD, 0xFD, 0, 0, 0] := by decide
  refine ⟨ha, ho, ?_⟩
  rintro ⟨k, frames, buff, hk, hb, hout⟩
  rw [ha] at hk hb
  rw [ho] at hout
  have hlen := congrArg List.length hout
  obtain _ | _ | k := k
  · simp only [List.take_zero, buildFrames, List.foldl_nil, Option.some.injEq,
      Prod.mk.injEq] at hb
    obtain ⟨hf, _⟩ := hb
    subst hf
    simp at hlen
  · have h1 : (buildFrames (NewDefaultProtocol none false) Slice.nil [NewKeepalive]).map
        (fun x => x.1.flatten.length) = some 48 := by decide
    rw [show List.take (0 + 1) [NewKeepalive] = [NewKeepalive] from rfl] at hb
    rw [hb] at h1
    simp only [Option.map_some', Option.some.injEq] at h1
    simp only [List.nil_append, List.length_cons, List.length_nil] at hlen
    omega
  · simp at hk

/-- Claim C21, refuted.  For both cursor variants, every buffer and every negative size
`-(k+1)`, `ReadBuff` on a new cursor over the buffer passes the overflow check (`Left()` is
not below a negative size) and faults in `make([]byte, size, size)`: the call neither returns
a buffer nor `ErrBuffOverflow`. -/
theorem ReadBuff_negative_size_faults (buff : List Byte) (k : Nat) :
    (Stream.big (NewBigEndianStream buff)).ReadBuff (Int.negSucc k)
      = (.panic, Stream.big (NewBigEndianStream buff)) ∧
    (Stream.little (NewLittleEndianStream buff)).ReadBuff (Int.negSucc k)
      = (.panic, Stream.little (NewLittleEndianStream buff)) ∧
    (∀ b, ((Stream.big (NewBigEndianStream buff)).ReadBuff (Int.negSucc k)).1 ≠ .ok b) ∧
    ((Stream.big (NewBigEndianStream buff)).ReadBuff (Int.negSucc k)).1
      ≠ .error .ErrBuffOverflow := by
  have h1 : ¬ ((buff.length : Int) - 0 < Int.negSucc k) := by
    have := Int.negSucc_lt_zero k
    omega
  have h2 : Int.negSucc k < 0 := Int.negSucc_lt_zero k
  have e1 : (Stream.big (NewBigEndianStream buff)).ReadBuff (Int.negSucc k)
      = (.panic, Stream.big (NewBigEndianStream buff)) := by
    simp only [Stream.ReadBuff, Stream.call, BigEndianStreamImpl.ReadBuff,
      BigEndianStreamImpl.Left, NewBigEndianStream, if_neg h1, if_pos h2]
  have e2 : (Stream.little (NewLittleEndianStream buff)).ReadBuff (Int.negSucc k)
      = (.panic, Stream.little (NewLittleEndianStream buff)) := by
    simp only [Stream.ReadBuff, Stream.call, LittleEndianStreamImpl.ReadBuff,
      LittleEndianStreamImpl.Left, NewLittleEndianStream, if_neg h1, if_pos h2]
  refine ⟨e1, e2, ?_, ?_⟩
  · intro b
    rw [e1]
    simp
  · rw [e1]
    simp

/-- Go `ReadPacket` on a data frame whose body length is not below the maximum: it fails with
`ErrBodyTooBig` after the 12 header bytes. -/
theorem ReadPacket_rejects_header {P : Type} (d : ProtocolImpl P) (maxBody n : Nat)
    (tail out : List Byte) (w : Bool) (buff : Slice) (hlt : n < 4294967296)
    (hge : maxBody ≤ n) :
    d.ReadPacket maxBody ⟨frameHeader n ++ tail, out, w⟩ buff
      = some (.error .ErrBodyTooBig, ⟨tail, out, w⟩) := by
  have hH : parseHeader ((Conn.mk (frameHeader n ++ tail) out w).input.take 12)
      = .ok { Flag := 0xFDFD, PacketFlag := 0, BodyLength := n, SrcLength := n } := by
    show parseHeader ((frameHeader n ++ tail).take 12) = _
    rw [List.take_left' (frameHeader_length n)]
    exact parseHeader_frameHeader n hlt
  unfold ProtocolImpl.ReadPacket
  simp only
  rw [readPacketLoop_succ _ _ _ _ _ (scratch12 buff) hH,
    if_neg (by show (0xFDFD : Nat) ≠ ControlPacketType; decide),
    if_pos (by show (0xFDFD : Nat) = DataPacketType; decide), if_pos hge]
  simp [Result.fail, List.drop_left' (frameHeader_length n)]

/-- A frame that `BuildPacket` builds for a reported length at or above the maximum body
size is rejected by `ReadPacket` with `ErrBodyTooBig`. -/
theorem BuildPacket_frame_rejected {P : Type} (d : ProtocolImpl P) (packet : P)
    (scratch rbuf : Slice) (rest out : List Byte) (w : Bool) (maxBody n : Nat)
    (hn : d.Writer.GetLength packet = n) (hlt : n < 4294967296) (hge : maxBody ≤ n)
    (hw : (d.Writer.Write packet (bodyRegion scratch n)).1 = .ok ()) :
    ∃ frame packet2, d.BuildPacket packet scratch = (.ok frame, packet2) ∧
      frame.len = n + 12 ∧
      d.ReadPacket maxBody ⟨frame.bytes ++ rest, out, w⟩ rbuf
        = some (.error .ErrBodyTooBig, ⟨frame.bytes.drop 12 ++ rest, out, w⟩) := by
  refine ⟨_, _, BuildPacket_ok d packet scratch n hn hlt hw, rfl, ?_⟩
  have hb : (Slice.mk (frameHeader n
      ++ copy (bodyRegion scratch n) (d.Writer.Write packet (bodyRegion scratch n)).2.1
      ++ (buildBuffer scratch n).arr.drop (n + 12)) (n + 12)).bytes
      = frameHeader n
        ++ copy (bodyRegion scratch n) (d.Writer.Write packet (bodyRegion scratch n)).2.1 := by
    simp only [Slice.bytes]
    rw [List.take_left']
    rw [List.length_append, frameHeader_length, copy_length, bodyRegion_length]
    omega
  rw [hb, List.append_assoc, List.drop_left' (frameHeader_length n)]
  exact ReadPacket_rejects_header d maxBody n _ out w rbuf hlt hge

/-- Claim C23, refuted.  For the body writer that reports `MaxPacketBodySize` bytes for its
packet, `BuildPacket` succeeds, whatever the scratch buffer, with a frame of
`MaxPacketBodySize + 12` bytes, and `ReadPacket` with the same `MaxPacketBodySize` fails on
that frame with `ErrBodyTooBig`, having read its 12 header bytes. -/
theorem BuildPacket_ignores_size_limit (scratch rbuf : Slice) (rest out : List Byte)
    (w : Bool) :
    ∃ frame, limitProtocol.BuildPacket () scratch = (.ok frame, ()) ∧
      frame.len = MaxPacketBodySize + 12 ∧
      limitProtocol.ReadPacket MaxPacketBodySize ⟨frame.bytes ++ rest, out, w⟩ rbuf
        = some (.error .ErrBodyTooBig, ⟨frame.bytes.drop 12 ++ rest, out, w⟩) := by
  obtain ⟨frame, packet2, h1, h2, h3⟩ := BuildPacket_frame_rejected limitProtocol () scratch rbuf
    rest out w MaxPacketBodySize MaxPacketBodySize rfl (by decide) (Nat.le_refl _) rfl
  exact ⟨frame, h1, h2, h3⟩

/-- The loop of `ReadPacket` is its round, run again for as long as the round says so. -/
theorem readPacketLoop_round (maxBody fuel : Nat) (conn : Conn) (arr : List Byte) :
    readPacketLoop maxBody (fuel + 1) conn arr
      = match readPacketRound maxBody conn arr with
        | .again conn2 arr2 => readPacketLoop maxBody fuel conn2 arr2
        | .leave r arr2 conn2 => some (r, arr2, conn2) := by
  unfold readPacketRound
  rw [readPacketLoop]
  split
  · rfl
  · simp only
    cases hio : ioReadFull conn (arr.take 12) with
    | mk r rest =>
      obtain ⟨b, conn2⟩ := rest
      cases r with
      | ok v =>
        simp only
        cases hp : parseHeader ((b ++ arr.drop 12).take 12) with
        | ok header =>
          simp only
          split
          · cases hw : conn2.Write controlPacket with
            | mk r2 conn3 =>
              cases r2 <;> rfl
          · split
            · split <;> rfl
            · rfl
        | error e => rfl
        | panic => rfl
      | error e => rfl
      | panic => rfl

/-- The literal acknowledgment parses as a control header. -/
theorem parseHeader_controlPacket :
    parseHeader controlPacket
      = .ok { Flag := ControlPacketType, PacketFlag := 0x0010, BodyLength := 0x7FCD0000,
              SrcLength := 1 } := by
  decide

/-- One round of the loop on a control frame: the acknowledgment is written and the loop
goes round again. -/
theorem readPacketRound_control (maxBody : Nat) (c tail out arr : List Byte)
    (hc : IsControlFrame c) (ha : 12 ≤ arr.length) :
    readPacketRound maxBody ⟨c ++ tail, out, false⟩ arr
      = .again ⟨tail, out ++ controlPacket, false⟩ (c ++ arr.drop 12) := by
  obtain ⟨hlen, H, hH, hF⟩ := hc
  have hl : (arr.take 12).length = 12 := by simp; omega
  have hr := ioReadFull_ok ⟨c ++ tail, out, false⟩ (arr.take 12)
    (by simp only [hl, List.length_append]; omega)
  rw [hl] at hr
  simp only [List.take_left' hlen, List.drop_left' hlen] at hr
  unfold readPacketRound
  rw [if_neg (by omega), hr]
  simp only [List.take_left' hlen, hH, if_pos hF, Conn.Write, Bool.false_eq_true, if_false]

/-- A round of a peer whose inbox holds one control frame: the frame is read and the
acknowledgment written. -/
theorem Peer.round_control (maxBody : Nat) (c arr sent : List Byte) (hc : IsControlFrame c)
    (ha : 12 ≤ arr.length) :
    Peer.round maxBody ⟨c, arr, false, sent⟩
      = (⟨[], c ++ arr.drop 12, false, sent ++ controlPacket⟩, controlPacket) := by
  have h := readPacketRound_control maxBody c [] [] arr hc ha
  rw [List.append_nil] at h
  unfold Peer.round
  rw [if_neg (by simp only [Bool.false_eq_true, false_or, hc.1]; omega)]
  simp only [h, List.nil_append]

/-- A round of a peer whose inbox is empty: the read waits. -/
theorem Peer.round_empty (maxBody : Nat) (arr sent : List Byte) (l : Bool) :
    Peer.round maxBody ⟨[], arr, l, sent⟩ = (⟨[], arr, l, sent⟩, []) := by
  unfold Peer.round
  rw [if_pos (Or.inr (by simp))]

/-- The acknowledgment is a control frame. -/
theorem controlPacket_IsControlFrame : IsControlFrame controlPacket :=
  ⟨rfl, _, parseHeader_controlPacket, rfl⟩

/-- Go `ReadPacket` on an input that starts with a control frame: it writes the
acknowledgment, returns nothing for the frame and carries on with the rest of the input. -/
theorem ReadPacket_control_frame {P : Type} (d : ProtocolImpl P) (maxBody : Nat)
    (c tail out : List Byte) (buff : Slice) (hc : IsControlFrame c) :
    d.ReadPacket maxBody ⟨c ++ tail, out, false⟩ buff
      = d.ReadPacket maxBody ⟨tail, out ++ controlPacket, false⟩
          ⟨c ++ (if buff.cap < 12 then make 12 else buff).arr.drop 12,
            (if buff.cap < 12 then make 12 else buff).len⟩ := by
  have ha := scratch12 buff
  unfold ProtocolImpl.ReadPacket
  simp only
  generalize (if buff.cap < 12 then make 12 else buff) = B at ha
  have hcap : ¬ (Slice.mk (c ++ B.arr.drop 12) B.len).cap < 12 := by
    simp only [Slice.cap, List.length_append, hc.1]
    omega
  rw [if_neg hcap, readPacketLoop_round, readPacketRound_control maxBody c tail out B.arr hc ha]
  simp only
  rw [readPacketLoop_fuel maxBody (c ++ tail).length (tail.length + 1)
    ⟨tail, out ++ controlPacket, false⟩ (c ++ B.arr.drop 12)
    (by simp only [List.length_append, hc.1]; omega) (by simp)]

/-- A round of the peer that holds the control frame in flight moves an acknowledgment to
the other peer; a round of the other peer waits. -/
theorem peersStep_InFlight (maxBody k : Nat) (toA who : Bool) (s : Peer × Peer)
    (h : InFlight k toA s) :
    InFlight (if who = toA then k + 1 else k) (if who = toA then !toA else toA)
      (peersStep maxBody s who) := by
  obtain ⟨⟨ia, aa, la, sa⟩, ⟨ib, ab, lb, sb⟩⟩ := s
  obtain ⟨h1, h2, h3, h4, ⟨i, j, hij, hi, hj⟩, h6⟩ := h
  simp only at h1 h2 h3 h4 hi hj h6
  subst h1 h2
  cases toA <;> cases who
  · obtain ⟨e, hc⟩ := h6
    subst e
    simp only [peersStep, Bool.false_eq_true, if_false, if_true, Peer.round_control maxBody ib ab sb hc h4,
      List.nil_append, Bool.not_false]
    refine ⟨rfl, rfl, h3, ?_, ⟨i, j + 1, by omega, hi, ?_⟩, controlPacket_IsControlFrame, rfl⟩
    · simp only [List.length_append, hc.1]; omega
    · simp only [hj, List.replicate_succ', List.flatten_append, List.flatten_cons,
        List.flatten_nil, List.append_nil]
  · obtain ⟨e, hc⟩ := h6
    subst e
    simp only [peersStep, if_true, Peer.round_empty, List.append_nil, Bool.true_eq_false,
      if_false]
    exact ⟨rfl, rfl, h3, h4, ⟨i, j, hij, hi, hj⟩, rfl, hc⟩
  · obtain ⟨hc, e⟩ := h6
    subst e
    simp only [peersStep, Bool.false_eq_true, if_false, Peer.round_empty, List.append_nil,
      if_true]
    exact ⟨rfl, rfl, h3, h4, ⟨i, j, hij, hi, hj⟩, hc, rfl⟩
  · obtain ⟨hc, e⟩ := h6
    subst e
    simp only [peersStep, if_true, Peer.round_control maxBody ia aa sa hc h3,
      List.nil_append, Bool.not_true]
    refine ⟨rfl, rfl, ?_, h4, ⟨i + 1, j, by omega, ?_, hj⟩, rfl, controlPacket_IsControlFrame⟩
    · simp only [List.length_append, hc.1]; omega
    · simp only [hi, List.replicate_succ', List.flatten_append, List.flatten_cons,
        List.flatten_nil, List.append_nil]

/-- Whatever the order in which the peers run their rounds, a control frame stays in
flight and both stay in their loops. -/
theorem peersRun_InFlight (maxBody : Nat) (sched : List Bool) :
    ∀ (k : Nat) (toA : Bool) (s : Peer × Peer), InFlight k toA s →
      ∃ k2 toA2, k ≤ k2 ∧ InFlight k2 toA2 (peersRun maxBody s sched) := by
  induction sched with
  | nil => exact fun k toA s h => ⟨k, toA, Nat.le_refl _, h⟩
  | cons who rest ih =>
    intro k toA s h
    obtain ⟨k2, toA2, hk, h2⟩ := ih _ _ _ (peersStep_InFlight maxBody k toA who s h)
    refine ⟨k2, toA2, ?_, h2⟩
    split at hk <;> omega

theorem takeTurns_succ (n : Nat) : takeTurns (n + 1) = takeTurns n ++ [decide (n % 2 = 0)] := by
  simp only [takeTurns, List.range_succ, List.map_append, List.map_cons, List.map_nil]

/-- When the peers take turns, every round answers the acknowledgment of the round
before: after `n` rounds `n` acknowledgments have been written and one is in flight. -/
theorem peersRun_takeTurns (maxBody : Nat) (s : Peer × Peer) (h : InFlight 0 true s) :
    ∀ n, InFlight n (decide (n % 2 = 0)) (peersRun maxBody s (takeTurns n)) := by
  intro n
  induction n with
  | zero => exact h
  | succ n ih =>
    have hs := peersStep_InFlight maxBody n (decide (n % 2 = 0)) (decide (n % 2 = 0)) _ ih
    rw [if_pos rfl, if_pos rfl] at hs
    have e : (!decide (n % 2 = 0)) = decide ((n + 1) % 2 = 0) := by
      rcases Nat.mod_two_eq_zero_or_one n with h0 | h1
      · have : (n + 1) % 2 = 1 := by omega
        simp [h0, this]
      · have : (n + 1) % 2 = 0 := by omega
        simp [h1, this]
    rw [e] at hs
    rw [takeTurns_succ]
    simp only [peersRun, List.foldl_append, List.foldl_cons, List.foldl_nil]
    exact hs

/-- Claim C22, the acknowledgment is itself a control frame.  The 12 literal bytes
`FE FE 00 10 7F CD 00 00 00 00 00 01` parse as a header with `Flag = ControlPacketType`.  So a
`ReadPacket` whose next header is an acknowledgment of the peer writes another acknowledgment,
returns no packet for it and carries on with the input after it.  And two peers `A` and `B`
that both run `ReadPacket` on a connection, once one control frame `c` has reached `A`: in
whatever order they run their rounds (`sched`), neither loop is ever left and a control
frame is always in flight; when they take turns, after `n` rounds they have written `n`
acknowledgments and the next is in flight, for every `n`. -/
theorem control_ack_ping_pong {P : Type} (d : ProtocolImpl P) (maxBody : Nat)
    (c arrA arrB : List Byte) (n : Nat) (sched : List Bool)
    (hc : IsControlFrame c) (hA : 12 ≤ arrA.length) (hB : 12 ≤ arrB.length) :
    parseHeader controlPacket
      = .ok { Flag := ControlPacketType, PacketFlag := 0x0010, BodyLength := 0x7FCD0000,
              SrcLength := 1 } ∧
    (∀ (tail out : List Byte) (buff : Slice),
      d.ReadPacket maxBody ⟨controlPacket ++ tail, out, false⟩ buff
        = d.ReadPacket maxBody ⟨tail, out ++ controlPacket, false⟩
            ⟨controlPacket ++ (if buff.cap < 12 then make 12 else buff).arr.drop 12,
              (if buff.cap < 12 then make 12 else buff).len⟩) ∧
    (∃ k toA, InFlight k toA
      (peersRun maxBody (⟨c, arrA, false, []⟩, ⟨[], arrB, false, []⟩) sched)) ∧
    InFlight n (decide (n % 2 = 0))
      (peersRun maxBody (⟨c, arrA, false, []⟩, ⟨[], arrB, false, []⟩) (takeTurns n)) := by
  have h0 : InFlight 0 true ((⟨c, arrA, false, []⟩, ⟨[], arrB, false, []⟩) : Peer × Peer) :=
    ⟨rfl, rfl, hA, hB, ⟨0, 0, rfl, rfl, rfl⟩, hc, rfl⟩
  refine ⟨parseHeader_controlPacket,
    fun tail out buff =>
      ReadPacket_control_frame d maxBody controlPacket tail out buff controlPacket_IsControlFrame,
    ?_, peersRun_takeTurns maxBody _ h0 n⟩
  obtain ⟨k, toA, _, h⟩ := peersRun_InFlight maxBody sched 0 true _ h0
  exact ⟨k, toA, h⟩

/-- The exchange of C22 started by one acknowledgment: after three rounds in turn three
acknowledgments have been written and the fourth frame is in flight to `B`. -/
theorem control_ack_ping_pong_witness :
    IsControlFrame controlPacket ∧
    InFlight 3 false
      (peersRun MaxPacketBodySize
        (⟨controlPacket, List.replicate 12 0, false, []⟩, ⟨[], List.replicate 12 0, false, []⟩)
        (takeTurns 3)) :=
  ⟨controlPacket_IsControlFrame,
    (control_ack_ping_pong (NewDefaultProtocol none false) MaxPacketBodySize controlPacket
      (List.replicate 12 0) (List.replicate 12 0) 3 [true, false, false, true]
      controlPacket_IsControlFrame (by decide) (by decide)).2.2.2⟩

end Swnet
